import Mathlib

/-!
# Verification of the T5/VLT5 model implementation (`src/models/model_t5.py`)

Shallow embedding of the attention / caching / stack machinery of the
repository's T5 implementation, over exact rational arithmetic:

* machine floats are modelled as `ℚ` (exact arithmetic; dtype-cast and
  dropout-at-inference steps are identities and are modelled as such);
* the transcendental functions the code uses (`exp` inside softmax, `sqrt`
  inside layer norm) are taken as opaque parameters `(e sq : ℚ → ℚ)` of the
  definitions, so every statement quantifies over them;
* the additive `-10000.0` attention masks produced by the upstream
  `get_extended_attention_mask` / `invert_attention_mask` collaborators are
  modelled as exclusion (`Option ℚ` with `none` = masked): under float32 those
  entries underflow to weight exactly `0` after softmax, which is the exclusion
  semantics;
* the float32 `log` in `_relative_position_bucket` is modelled as the exact
  real logarithm; the integer floor of the log expression is computed exactly
  through a `Nat.findGreatest` power characterisation, and a bridging theorem
  (`bucketLogFloor_eq_floor_real_log`) proves that characterisation equal to
  the real-logarithm floor.

Python `assert` / `raise` failures are modelled with `Except String`.
-/

/-! ## Basic tensor vocabulary

A vector is a list of rationals, a matrix a list of row vectors.  `matVec`
is `nn.Linear` without bias (`y = W x`, rows of `W` indexing outputs). -/

abbrev Vec := List ℚ

abbrev Mat := List Vec

/-- Dot product; `zipWith` matches equal-length tensor semantics. -/
def dotQ (a b : Vec) : ℚ := (List.zipWith (· * ·) a b).sum

/-- `nn.Linear(bias=False)`: matrix–vector product, one output per row. -/
def matVec (m : Mat) (x : Vec) : Vec := m.map (fun r => dotQ r x)

/-- Pointwise vector sum (residual connections). -/
def vadd (a b : Vec) : Vec := List.zipWith (· + ·) a b

/-- A maskable score value: `none` models an entry carrying the additive
`-10000.0` mask (exactly zero attention weight after float32 softmax). -/
abbrev MQ := Option ℚ

/-- Add a plain score to a maskable bias value (`⊥ + s = ⊥`). -/
def mqAdd (b : MQ) (s : ℚ) : MQ := b.map (· + s)

/-- Fold an additive mask entry into a bias entry (mask added once into the
bias, matching `position_bias = position_bias + mask`). -/
def mqMaskAdd (b m : MQ) : MQ :=
  match b, m with
  | some x, some y => some (x + y)
  | _, _ => none

/-! ## `T5Attention._relative_position_bucket` (lines 225–271)

The code computes, for `n ≥ max_exact`,

`val_if_large = max_exact + ⌊ (num_buckets - max_exact) * log (n / max_exact)
                              / log (max_distance / max_exact) ⌋`

(`.to(torch.long)` truncates toward zero, which on this branch equals the
floor since the value is nonnegative), clamped to `num_buckets - 1`.  The
floor is computed exactly: `k ≤ m * log (n/E) / log (D/E)` iff
`D^k * E^m ≤ n^m * E^k` (for `1 ≤ E < D ≤ n`), a decidable predicate that
is downward closed in `k`, so the floor is a bounded `Nat.findGreatest`. -/

/-- Exact floor of `m * log (n/E) / log (D/E)`, searched up to `bound`
(the caller clamps the result, so a bound past the clamp is enough). -/
def bucketLogFloor (E D m bound n : ℕ) : ℕ :=
  Nat.findGreatest (fun k => D ^ k * E ^ m ≤ n ^ m * E ^ k) bound

/-- One half of the bucketing: `numB` local buckets, exact region below
`E = numB / 2`, log region above, clamped to `numB - 1`.  Mirrors the body of
`_relative_position_bucket` after the direction handling. -/
def bucketCore (numB E D : ℕ) (n : ℕ) : ℕ :=
  if n < E then n
  else min (E + bucketLogFloor E D (numB - E) numB n) (numB - 1)

/-- `T5Attention._relative_position_bucket`.  `rel` is
`memory_position - query_position`; the code sets `n = -relative_position`,
adds `num_buckets/2` for the future half in bidirectional mode, and clamps
`n` to `0` in unidirectional mode. -/
def relativePositionBucket (bidirectional : Bool) (numBuckets maxDistance : ℕ)
    (rel : ℤ) : ℕ :=
  if bidirectional then
    let nb := numBuckets / 2
    (if (-rel) < 0 then nb else 0) + bucketCore nb (nb / 2) maxDistance (-rel).natAbs
  else
    bucketCore numBuckets (numBuckets / 2) maxDistance (max (-rel) 0).toNat

/-! ### Bridging the `findGreatest` characterisation to the real logarithm -/

theorem bucketLogFloor_le (E D m bound n : ℕ) : bucketLogFloor E D m bound n ≤ bound :=
  Nat.findGreatest_le bound

/-- The bucketing predicate is downward closed in `k` (for `E ≤ D`). -/
theorem bucketPred_anti {E D m n : ℕ} (hD : 0 < D) (hED : E ≤ D)
    {k k' : ℕ} (hkk : k' ≤ k) (h : D ^ k * E ^ m ≤ n ^ m * E ^ k) :
    D ^ k' * E ^ m ≤ n ^ m * E ^ k' := by
  have hDpow : 0 < D ^ (k - k') := Nat.pos_pow_of_pos _ hD
  apply Nat.le_of_mul_le_mul_right _ hDpow
  have h1 : D ^ k' * E ^ m * D ^ (k - k') = D ^ k * E ^ m := by
    rw [mul_right_comm, ← pow_add, Nat.add_sub_cancel' hkk]
  have h2 : n ^ m * E ^ k ≤ n ^ m * E ^ k' * D ^ (k - k') := by
    have : E ^ k ≤ E ^ k' * D ^ (k - k') := by
      calc E ^ k = E ^ k' * E ^ (k - k') := by rw [← pow_add, Nat.add_sub_cancel' hkk]
        _ ≤ E ^ k' * D ^ (k - k') :=
          Nat.mul_le_mul_left _ (Nat.pow_le_pow_left hED _)
    calc n ^ m * E ^ k ≤ n ^ m * (E ^ k' * D ^ (k - k')) := Nat.mul_le_mul_left _ this
      _ = n ^ m * E ^ k' * D ^ (k - k') := by ring
  calc D ^ k' * E ^ m * D ^ (k - k') = D ^ k * E ^ m := h1
    _ ≤ n ^ m * E ^ k := h
    _ ≤ n ^ m * E ^ k' * D ^ (k - k') := h2

/-- The defining property: for offsets in the log region (`E ≤ n`),
`bucketLogFloor` is the greatest `k ≤ bound` satisfying the power
characterisation of `k ≤ m·log(n/E)/log(D/E)`. -/
theorem bucketLogFloor_iff {E D m bound n : ℕ}
    (hD : 0 < D) (hED : E ≤ D) (hEn : E ≤ n) {k : ℕ} (hk : k ≤ bound) :
    k ≤ bucketLogFloor E D m bound n ↔ D ^ k * E ^ m ≤ n ^ m * E ^ k := by
  have hP0 : D ^ 0 * E ^ m ≤ n ^ m * E ^ 0 := by
    simpa using Nat.pow_le_pow_left hEn m
  constructor
  · intro hle
    have hPg := @Nat.findGreatest_spec 0
      (fun j => D ^ j * E ^ m ≤ n ^ m * E ^ j) (fun j => Nat.decLe _ _) bound
      (Nat.zero_le bound) hP0
    exact bucketPred_anti hD hED hle hPg
  · intro h
    exact Nat.le_findGreatest hk h

/-- The power characterisation used by `bucketLogFloor` is exactly the
real-logarithm inequality from the source formula
`log(n/max_exact) / log(max_distance/max_exact) * (num_buckets - max_exact)`:
this justifies computing the floor of that expression by `Nat.findGreatest`. -/
theorem bucketPred_iff_real_log {E D m n : ℕ}
    (hE : 0 < E) (hED : E < D) (hEn : E ≤ n) (k : ℕ) :
    (D ^ k * E ^ m ≤ n ^ m * E ^ k) ↔
      (k : ℝ) ≤ (m : ℝ) * Real.log ((n : ℝ) / E) / Real.log ((D : ℝ) / E) := by
  have hD : 0 < D := hE.trans hED
  have hEpos : (0 : ℝ) < E := by exact_mod_cast hE
  have hDpos : (0 : ℝ) < D := by exact_mod_cast hD
  have hnpos : (0 : ℝ) < n := lt_of_lt_of_le hEpos (by exact_mod_cast hEn)
  have hDE1 : (1 : ℝ) < (D : ℝ) / E := by
    rw [lt_div_iff hEpos]; simpa using (by exact_mod_cast hED : (E : ℝ) < D)
  have hnE1 : (1 : ℝ) ≤ (n : ℝ) / E := by
    rw [le_div_iff hEpos]; simpa using (by exact_mod_cast hEn : (E : ℝ) ≤ n)
  have hlogDE : 0 < Real.log ((D : ℝ) / E) := Real.log_pos hDE1
  rw [le_div_iff hlogDE]
  have hpowlog : (k : ℝ) * Real.log ((D : ℝ) / E) = Real.log (((D : ℝ) / E) ^ k) := by
    rw [Real.log_pow]
  have hpowlog2 : (m : ℝ) * Real.log ((n : ℝ) / E) = Real.log (((n : ℝ) / E) ^ m) := by
    rw [Real.log_pow]
  rw [hpowlog, hpowlog2,
    Real.log_le_log_iff (by positivity) (by positivity)]
  rw [div_pow, div_pow, div_le_div_iff (by positivity) (by positivity)]
  constructor
  · intro h
    calc ((D : ℝ) ^ k) * (E : ℝ) ^ m = ((D ^ k * E ^ m : ℕ) : ℝ) := by push_cast; ring
      _ ≤ ((n ^ m * E ^ k : ℕ) : ℝ) := by exact_mod_cast h
      _ = (n : ℝ) ^ m * (E : ℝ) ^ k := by push_cast; ring
  · intro h
    have : ((D ^ k * E ^ m : ℕ) : ℝ) ≤ ((n ^ m * E ^ k : ℕ) : ℝ) := by
      push_cast; linarith [h]
    exact_mod_cast this

/-! ### Claim C2: the spec's two-region formula, and the amended version -/

/-- The bucket formula exactly as claim C2 states it, applied uniformly "in
both directions": exact-increment region strictly below `num_buckets/4`,
otherwise `max_exact + floor(log(offset/max_exact) / log(max_distance/max_exact)
* (num_buckets/2 - max_exact))` clamped to the largest bucket index of the
half. -/
def specHalfBucketC2 (numBuckets maxDistance : ℕ) (mag : ℕ) : ℕ :=
  let maxExact := numBuckets / 4
  if mag < maxExact then mag
  else min (maxExact +
      bucketLogFloor maxExact maxDistance (numBuckets / 2 - maxExact) numBuckets mag)
    (numBuckets / 2 - 1)

/-- Amended two-region formula: the constants depend on the direction.  In
bidirectional mode the code halves `num_buckets` first, so `max_exact =
num_buckets/4` with log multiplier `num_buckets/2 - max_exact` and clamp
`num_buckets/2 - 1` within each half; in unidirectional mode there is no
halving, so `max_exact = num_buckets/2`, multiplier `num_buckets - max_exact`,
clamp `num_buckets - 1`, and future (positive) offsets collapse to bucket 0. -/
def specBucketAmended (bidirectional : Bool) (numBuckets maxDistance : ℕ)
    (rel : ℤ) : ℕ :=
  if bidirectional then
    let half := numBuckets / 2
    let maxExact := numBuckets / 4
    (if 0 < rel then half else 0) +
      (if rel.natAbs < maxExact then rel.natAbs
       else min (maxExact +
           bucketLogFloor maxExact maxDistance (half - maxExact) numBuckets rel.natAbs)
         (half - 1))
  else
    if 0 < rel then 0
    else
      let maxExact := numBuckets / 2
      if rel.natAbs < maxExact then rel.natAbs
      else min (maxExact +
          bucketLogFloor maxExact maxDistance (numBuckets - maxExact) numBuckets rel.natAbs)
        (numBuckets - 1)

/-- A bounded `findGreatest` for a downward-closed predicate holding at `0`
does not depend on the bound once the result is clamped below both bounds. -/
theorem min_findGreatest_bound {P : ℕ → Prop} [DecidablePred P]
    (hanti : ∀ {j k : ℕ}, j ≤ k → P k → P j) (h0 : P 0)
    {b₁ b₂ L : ℕ} (h₁ : L ≤ b₁) (h₂ : L ≤ b₂) :
    min (Nat.findGreatest P b₁) L = min (Nat.findGreatest P b₂) L := by
  suffices h : ∀ b, L ≤ b → min (Nat.findGreatest P b) L = min (Nat.findGreatest P L) L by
    rw [h b₁ h₁, h b₂ h₂]
  intro b hb
  rcases le_or_lt (Nat.findGreatest P b) L with hle | hlt
  · have hPg : P (Nat.findGreatest P b) := Nat.findGreatest_spec (Nat.zero_le b) h0
    have hup : Nat.findGreatest P b ≤ Nat.findGreatest P L := Nat.le_findGreatest hle hPg
    have hdn : Nat.findGreatest P L ≤ Nat.findGreatest P b :=
      Nat.findGreatest_mono_right P hb
    rw [le_antisymm hup hdn]
  · have hPg : P (Nat.findGreatest P b) := Nat.findGreatest_spec (Nat.zero_le b) h0
    have hPL : P L := hanti hlt.le hPg
    have hgl : Nat.findGreatest P L = L :=
      le_antisymm (Nat.findGreatest_le L) (Nat.le_findGreatest le_rfl hPL)
    rw [hgl, Nat.min_eq_right hlt.le, Nat.min_self]

/-- The code's bucket function follows the amended two-region formula, at the
configuration the repository uses (`num_buckets = 32`, `max_distance = 128`). -/
theorem relativePositionBucket_eq_amended (dir : Bool) (rel : ℤ) :
    relativePositionBucket dir 32 128 rel = specBucketAmended dir 32 128 rel := by
  cases dir with
  | false =>
    by_cases h : 0 < rel
    · have hmax : (max (-rel) 0).toNat = 0 := by omega
      simp only [relativePositionBucket, specBucketAmended, if_neg (Bool.false_ne_true),
        Bool.false_eq_true, if_false, hmax, if_pos h]
      rfl
    · have hmax : (max (-rel) 0).toNat = rel.natAbs := by omega
      simp only [relativePositionBucket, specBucketAmended, Bool.false_eq_true, if_false,
        hmax, if_neg h]
      rfl
  | true =>
    have hshift : ((if (-rel) < 0 then 16 else 0) : ℕ) = (if 0 < rel then 16 else 0) := by
      by_cases h : 0 < rel
      · rw [if_pos h, if_pos (by omega : -rel < 0)]
      · rw [if_neg h, if_neg (by omega : ¬(-rel < 0))]
    show (if (-rel) < 0 then 16 else 0) + bucketCore 16 8 128 (-rel).natAbs
        = (if 0 < rel then 16 else 0) + _
    rw [hshift]
    congr 1
    have hnabs : (-rel).natAbs = rel.natAbs := Int.natAbs_neg rel
    rw [hnabs]
    set n := rel.natAbs with hn
    by_cases hsmall : n < 8
    · simp only [bucketCore, if_pos hsmall]
    · have h8 : 8 ≤ n := Nat.le_of_not_lt hsmall
      simp only [bucketCore, if_neg hsmall]
      show min (8 + bucketLogFloor 8 128 8 16 n) 15
          = min (8 + bucketLogFloor 8 128 (16 - 8) 32 n) 15
      have hmin : ∀ a : ℕ, min (8 + a) 15 = 8 + min a 7 := by
        intro a; omega
      rw [hmin, hmin]
      congr 1
      exact min_findGreatest_bound
        (fun {j k} hjk hk => bucketPred_anti (by norm_num) (by norm_num) hjk hk)
        (by simpa using Nat.pow_le_pow_left h8 8)
        (by norm_num) (by norm_num)

/-- Collapse helper: in the bidirectional half, every magnitude `≥ 128`
reaches the clamp. -/
theorem bucketCore_bidir_collapse {n : ℕ} (h : 128 ≤ n) :
    bucketCore 16 8 128 n = 15 := by
  have hsmall : ¬ n < 8 := by omega
  simp only [bucketCore, if_neg hsmall]
  show min (8 + bucketLogFloor 8 128 8 16 n) 15 = 15
  have h7 : 7 ≤ bucketLogFloor 8 128 8 16 n := by
    apply Nat.le_findGreatest (by norm_num)
    show 128 ^ 7 * 8 ^ 8 ≤ n ^ 8 * 8 ^ 7
    calc 128 ^ 7 * 8 ^ 8 = 128 ^ 7 * 8 ^ 7 * 8 := by ring
      _ ≤ 128 ^ 7 * 8 ^ 7 * 128 := by
          exact Nat.mul_le_mul_left _ (by norm_num)
      _ = 128 ^ 8 * 8 ^ 7 := by ring
      _ ≤ n ^ 8 * 8 ^ 7 := Nat.mul_le_mul_right _ (Nat.pow_le_pow_left h 8)
  omega

/-- Collapse helper: in the unidirectional case, every magnitude `≥ 128`
reaches the clamp. -/
theorem bucketCore_unidir_collapse {n : ℕ} (h : 128 ≤ n) :
    bucketCore 32 16 128 n = 31 := by
  have hsmall : ¬ n < 16 := by omega
  simp only [bucketCore, if_neg hsmall]
  show min (16 + bucketLogFloor 16 128 16 32 n) 31 = 31
  have h15 : 15 ≤ bucketLogFloor 16 128 16 32 n := by
    apply Nat.le_findGreatest (by norm_num)
    show 128 ^ 15 * 16 ^ 16 ≤ n ^ 16 * 16 ^ 15
    calc 128 ^ 15 * 16 ^ 16 = 128 ^ 15 * 16 ^ 15 * 16 := by ring
      _ ≤ 128 ^ 15 * 16 ^ 15 * 128 := by
          exact Nat.mul_le_mul_left _ (by norm_num)
      _ = 128 ^ 16 * 16 ^ 15 := by ring
      _ ≤ n ^ 16 * 16 ^ 15 := Nat.mul_le_mul_right _ (Nat.pow_le_pow_left h 16)
  omega

/-! ### Claim C3: boundedness and monotonicity of the bucket index -/

theorem bucketCore_lt {numB E D : ℕ} (n : ℕ) (hB : 0 < numB) (hEB : E ≤ numB) :
    bucketCore numB E D n < numB := by
  by_cases h : n < E
  · simp only [bucketCore, if_pos h]; omega
  · simp only [bucketCore, if_neg h]
    have := min_le_right (E + bucketLogFloor E D (numB - E) numB n) (numB - 1)
    omega

theorem bucketCore_mono {numB E D : ℕ} (hEB : E ≤ numB) {n₁ n₂ : ℕ} (h : n₁ ≤ n₂) :
    bucketCore numB E D n₁ ≤ bucketCore numB E D n₂ := by
  by_cases h1 : n₁ < E
  · by_cases h2 : n₂ < E
    · simp only [bucketCore, if_pos h1, if_pos h2]; exact h
    · simp only [bucketCore, if_pos h1, if_neg h2]
      refine le_min (by omega) (by omega)
  · have h2 : ¬ n₂ < E := by omega
    simp only [bucketCore, if_neg h1, if_neg h2]
    refine min_le_min (Nat.add_le_add_left ?_ E) le_rfl
    refine Nat.findGreatest_mono_left (fun k hk => ?_) numB
    calc D ^ k * E ^ (numB - E) ≤ n₁ ^ (numB - E) * E ^ k := hk
      _ ≤ n₂ ^ (numB - E) * E ^ k :=
          Nat.mul_le_mul_right _ (Nat.pow_le_pow_left h _)

/-- C3: for every relative position and both directions, the bucket index
returned by `_relative_position_bucket` (at the repository's configuration
`num_buckets = 32`, `max_distance = 128`) lies in `[0, num_buckets)`; and for
a fixed direction — a fixed sign of the offset — the bucket index is
non-decreasing in the absolute relative distance. -/
theorem claim_C3_bucket_bounded_monotone (dir : Bool) (rel rel₁ rel₂ : ℤ)
    (hsign : (0 ≤ rel₁ ∧ 0 ≤ rel₂) ∨ (rel₁ ≤ 0 ∧ rel₂ ≤ 0))
    (habs : rel₁.natAbs ≤ rel₂.natAbs) :
    relativePositionBucket dir 32 128 rel < 32 ∧
    relativePositionBucket dir 32 128 rel₁ ≤ relativePositionBucket dir 32 128 rel₂ := by
  have hcore16 : ∀ n : ℕ, bucketCore 16 8 128 n < 16 :=
    fun n => bucketCore_lt n (by norm_num) (by norm_num)
  constructor
  · cases dir with
    | true =>
      show (if (-rel) < 0 then 16 else 0) + bucketCore 16 8 128 (-rel).natAbs < 32
      have := hcore16 (-rel).natAbs
      by_cases h : (-rel) < 0
      · rw [if_pos h]; omega
      · rw [if_neg h]; omega
    | false =>
      show bucketCore 32 16 128 (max (-rel) 0).toNat < 32
      exact bucketCore_lt _ (by norm_num) (by norm_num)
  · cases dir with
    | true =>
      show (if (-rel₁) < 0 then 16 else 0) + bucketCore 16 8 128 (-rel₁).natAbs ≤
        (if (-rel₂) < 0 then 16 else 0) + bucketCore 16 8 128 (-rel₂).natAbs
      rw [Int.natAbs_neg, Int.natAbs_neg]
      have hmono := @bucketCore_mono 16 8 128 (by norm_num) _ _ habs
      rcases hsign with ⟨hp₁, hp₂⟩ | ⟨hn₁, hn₂⟩
      · by_cases h1 : 0 < rel₁
        · have h2 : 0 < rel₂ := by
            rcases lt_or_eq_of_le hp₂ with h | h
            · exact h
            · exfalso
              have : rel₂.natAbs = 0 := by omega
              have : rel₁.natAbs = 0 := by omega
              omega
          rw [if_pos (by omega : -rel₁ < 0), if_pos (by omega : -rel₂ < 0)]
          omega
        · have h1z : rel₁ = 0 := by omega
          subst h1z
          have : bucketCore 16 8 128 (0 : ℤ).natAbs = 0 := by decide
          rw [if_neg (by omega : ¬ -(0 : ℤ) < 0), this]
          omega
      · rw [if_neg (by omega : ¬ -rel₁ < 0), if_neg (by omega : ¬ -rel₂ < 0)]
        omega
    | false =>
      show bucketCore 32 16 128 (max (-rel₁) 0).toNat ≤
        bucketCore 32 16 128 (max (-rel₂) 0).toNat
      rcases hsign with ⟨hp₁, hp₂⟩ | ⟨hn₁, hn₂⟩
      · have e₁ : (max (-rel₁) 0).toNat = 0 := by omega
        have e₂ : (max (-rel₂) 0).toNat = 0 := by omega
        rw [e₁, e₂]
      · have e₁ : (max (-rel₁) 0).toNat = rel₁.natAbs := by omega
        have e₂ : (max (-rel₂) 0).toNat = rel₂.natAbs := by omega
        rw [e₁, e₂]
        exact bucketCore_mono (by norm_num) habs

/-- Witness for C3 at concrete offsets (`rel = -5`; `rel₁ = -3 ≤ rel₂ = -7`
in magnitude, both past offsets). -/
theorem claim_C3_bucket_bounded_monotone_witness :
    relativePositionBucket true 32 128 (-5) < 32 ∧
    relativePositionBucket true 32 128 (-3) ≤ relativePositionBucket true 32 128 (-7) :=
  claim_C3_bucket_bounded_monotone true (-5) (-3) (-7)
    (Or.inr ⟨by decide, by decide⟩) (by decide)

/-- C2 counterexample: in the unidirectional (decoder) direction the claim's
uniform formula fails.  Offset `-10` has magnitude `10 ≥ num_buckets/4 = 8`,
so the claim places it in the log region and predicts bucket `8`; the code's
exact-increment region extends to `num_buckets/2 = 16`, so it returns `10`. -/
theorem claim_C2_counterexample :
    relativePositionBucket false 32 128 (-10) = 10 ∧
    specHalfBucketC2 32 128 10 = 8 ∧
    relativePositionBucket false 32 128 (-10) ≠ specHalfBucketC2 32 128 10 := by
  refine ⟨by decide, by decide, by decide⟩

/-- C2 (amended): the two-region description holds with direction-dependent
constants at the repository's configuration (`num_buckets = 32`,
`max_distance = 128`).  Bidirectional: `max_exact = num_buckets/4`, log
multiplier `num_buckets/2 - max_exact`, clamp `num_buckets/2 - 1` within the
half selected by the offset's sign.  Unidirectional: `max_exact =
num_buckets/2`, multiplier `num_buckets - max_exact`, clamp
`num_buckets - 1`, and future (positive) offsets collapse to bucket `0`.
The boundary magnitude `max_exact` takes the log branch (whose value there is
`max_exact`), and magnitudes `≥ max_distance` collapse to the half's last
bucket. -/
theorem claim_C2_bucket_formula (dir : Bool) (rel : ℤ) :
    relativePositionBucket dir 32 128 rel = specBucketAmended dir 32 128 rel ∧
    (bucketCore 16 8 128 8 = min (8 + bucketLogFloor 8 128 8 16 8) 15 ∧
     bucketCore 32 16 128 16 = min (16 + bucketLogFloor 16 128 16 32 16) 31) ∧
    (128 ≤ rel.natAbs →
      relativePositionBucket false 32 128 rel = if 0 < rel then 0 else 31) ∧
    (128 ≤ rel.natAbs →
      relativePositionBucket true 32 128 rel = if 0 < rel then 31 else 15) := by
  refine ⟨relativePositionBucket_eq_amended dir rel, ⟨by decide, by decide⟩, ?_, ?_⟩
  · intro habs
    by_cases h : 0 < rel
    · rw [if_pos h]
      show bucketCore 32 16 128 (max (-rel) 0).toNat = 0
      have : (max (-rel) 0).toNat = 0 := by omega
      rw [this]
      decide
    · rw [if_neg h]
      show bucketCore 32 16 128 (max (-rel) 0).toNat = 31
      have : (max (-rel) 0).toNat = rel.natAbs := by omega
      rw [this]
      exact bucketCore_unidir_collapse habs
  · intro habs
    show (if (-rel) < 0 then 16 else 0) + bucketCore 16 8 128 (-rel).natAbs = _
    rw [Int.natAbs_neg, bucketCore_bidir_collapse habs]
    by_cases h : 0 < rel
    · rw [if_pos h, if_pos (by omega : -rel < 0)]
    · rw [if_neg h, if_neg (by omega : ¬ -rel < 0)]

/-- Witness for the hypothesised conjuncts of C2 at the concrete offset
`-500` (magnitude past `max_distance`), in both directions. -/
theorem claim_C2_bucket_formula_witness :
    relativePositionBucket false 32 128 (-500) = (if 0 < (-500 : ℤ) then 0 else 31) ∧
    relativePositionBucket true 32 128 (-500) = (if 0 < (-500 : ℤ) then 31 else 15) :=
  ⟨(claim_C2_bucket_formula false (-500)).2.2.1 (by decide),
   (claim_C2_bucket_formula true (-500)).2.2.2 (by decide)⟩

/-! ## `T5LayerNorm` (lines 140–156)

`forward` computes `variance = x.pow(2).mean(-1)` (no mean subtraction),
scales `x` by `1 / sqrt(variance + eps)` and multiplies by the learned
weight; there is no bias term.  The float32 upcast of the variance and the
optional float16 downcast are identities in the exact-arithmetic model.
`sq` stands for `torch.sqrt`. -/

/-- `x.pow(2).mean(-1)`: mean of squares over the last axis. -/
def meanSq (x : Vec) : ℚ := (x.map (fun t => t * t)).sum / (x.length : ℚ)

/-- `T5LayerNorm.forward`. -/
def t5LayerNorm (sq : ℚ → ℚ) (w : Vec) (ε : ℚ) (x : Vec) : Vec :=
  let scaled := x.map (fun t => t / sq (meanSq x + ε))
  List.zipWith (· * ·) w scaled

/-- The normalisation formula exactly as claim C10 words it:
`weight * x / sqrt(mean(x^2, over the last axis) + epsilon)`. -/
def t5LayerNormSpecC10 (sq : ℚ → ℚ) (w : Vec) (ε : ℚ) (x : Vec) : Vec :=
  List.zipWith
    (fun wi xi => wi * (xi / sq ((x.map (fun t => t * t)).sum / (x.length : ℚ) + ε)))
    w x

theorem zipWith_congr_fun {α β γ : Type} (f g : α → β → γ)
    (h : ∀ a b, f a b = g a b) : ∀ (as : List α) (bs : List β),
    List.zipWith f as bs = List.zipWith g as bs := by
  intro as
  induction as with
  | nil => intro bs; rfl
  | cons a as ih =>
    intro bs
    cases bs with
    | nil => rfl
    | cons b bs => simp [List.zipWith, h, ih]

theorem zipWith_mul_replicate_right (w : Vec) (k : ℚ) :
    ∀ n, List.zipWith (· * ·) w (List.replicate n k)
      = (w.take n).map (fun wi => wi * k) := by
  induction w with
  | nil => intro n; cases n <;> rfl
  | cons a as ih =>
    intro n
    cases n with
    | zero => rfl
    | succ n => simp [List.replicate, List.zipWith, ih]

theorem meanSq_replicate (n : ℕ) (c : ℚ) (hn : 0 < n) :
    meanSq (List.replicate n c) = c * c := by
  unfold meanSq
  rw [List.map_replicate, List.sum_replicate, List.length_replicate]
  rw [nsmul_eq_mul]
  have hnq : (n : ℚ) ≠ 0 := Nat.cast_ne_zero.2 hn.ne'
  field_simp

/-- C10: `T5LayerNorm` subtracts no mean and adds no bias: its output is
`weight * x / sqrt(mean(x², last axis) + ε)`; equivalently each component is
`wᵢ·xᵢ` times one common scale factor depending on the input only through its
mean square.  A vector whose components share a common value `c` is scaled by
`1/sqrt(c² + ε)`, not centred to zero. -/
theorem claim_C10_layernorm (sq : ℚ → ℚ) (w : Vec) (ε : ℚ) (x : Vec)
    (c : ℚ) (n : ℕ) (hn : 0 < n) :
    t5LayerNorm sq w ε x = t5LayerNormSpecC10 sq w ε x ∧
    t5LayerNorm sq w ε x
      = List.zipWith (fun wi xi => wi * xi * (1 / sq (meanSq x + ε))) w x ∧
    t5LayerNorm sq w ε (List.replicate n c)
      = (w.take n).map (fun wi => wi * (c / sq (c * c + ε))) := by
  refine ⟨?_, ?_, ?_⟩
  · unfold t5LayerNorm t5LayerNormSpecC10 meanSq
    rw [List.zipWith_map_right]
  · unfold t5LayerNorm
    rw [List.zipWith_map_right]
    refine zipWith_congr_fun _ _ (fun a b => ?_) w x
    field_simp
  · unfold t5LayerNorm
    rw [meanSq_replicate n c hn, List.map_replicate,
      zipWith_mul_replicate_right]

/-- Witness for C10 at a concrete input (trivial square root stand-in,
weights `[2,3]`, input `[1,2]`, constant vector `[5,5]`). -/
theorem claim_C10_layernorm_witness :
    t5LayerNorm (fun _ => (1 : ℚ)) [2, 3] 0 [1, 2]
      = t5LayerNormSpecC10 (fun _ => (1 : ℚ)) [2, 3] 0 [1, 2] ∧
    t5LayerNorm (fun _ => (1 : ℚ)) [2, 3] 0 [1, 2]
      = List.zipWith (fun wi xi => wi * xi * (1 / (fun _ => (1 : ℚ)) (meanSq [1, 2] + 0)))
          [2, 3] [1, 2] ∧
    t5LayerNorm (fun _ => (1 : ℚ)) [2, 3] 0 (List.replicate 2 5)
      = (([2, 3] : Vec).take 2).map (fun wi => wi * (5 / (fun _ => (1 : ℚ)) (5 * 5 + 0))) :=
  claim_C10_layernorm (fun _ => (1 : ℚ)) [2, 3] 0 [1, 2] 5 2 (by decide)

/-! ## `T5Attention.prune_heads` (lines 211–223)

State of an attention module as far as pruning is concerned, together with
the upstream collaborators `find_pruneable_heads_and_indices` and
`prune_linear_layer` (imported from `transformers.modeling_utils`): the set
of heads still to prune is `heads - pruned_heads`; each such head index is
shifted down by the number of already-pruned heads before it; the kept flat
row indices are those whose head block is not being pruned. -/

structure T5AttentionState where
  q : Mat
  k : Mat
  v : Mat
  o : Mat
  nHeads : ℕ
  dKv : ℕ
  innerDim : ℕ
  prunedHeads : Finset ℕ
  deriving DecidableEq

attribute [ext] T5AttentionState

/-- `head - sum(1 if h < head else 0 for h in already_pruned_heads)`. -/
def headRemap (already : Finset ℕ) (h : ℕ) : ℕ :=
  h - (already.filter (· < h)).card

/-- Flat indices kept by the pruning mask (`index` in
`find_pruneable_heads_and_indices`): position `j` survives iff its head
block `j / dKv` is not being pruned. -/
def pruneIndex (nHeads dKv : ℕ) (remapped : Finset ℕ) : List ℕ :=
  (List.range (nHeads * dKv)).filter (fun j => j / dKv ∉ remapped)

/-- `prune_linear_layer(layer, index)` (default `dim=0`): keep the listed rows. -/
def selectRows (w : Mat) (idx : List ℕ) : Mat := idx.map (fun j => w.getD j [])

/-- `prune_linear_layer(layer, index, dim=1)`: keep the listed columns. -/
def selectCols (w : Mat) (idx : List ℕ) : Mat :=
  w.map (fun r => idx.map (fun j => r.getD j 0))

/-- `T5Attention.prune_heads`. -/
def pruneHeads (s : T5AttentionState) (heads : Finset ℕ) : T5AttentionState :=
  if heads = ∅ then s
  else
    let toPrune := heads \ s.prunedHeads
    let remapped := toPrune.image (headRemap s.prunedHeads)
    let index := pruneIndex s.nHeads s.dKv remapped
    { q := selectRows s.q index
      k := selectRows s.k index
      v := selectRows s.v index
      o := selectCols s.o index
      nHeads := s.nHeads - toPrune.card
      dKv := s.dKv
      innerDim := s.dKv * (s.nHeads - toPrune.card)
      prunedHeads := s.prunedHeads ∪ toPrune }

theorem map_getD_range_length {α : Type} (l : List α) (dflt : α) :
    (List.range l.length).map (fun j => l.getD j dflt) = l := by
  apply List.ext_getElem
  · simp
  · intro i h1 h2
    simp [List.getD_eq_getElem?_getD, List.getElem?_eq_getElem h2]

theorem pruneIndex_empty (n d : ℕ) : pruneIndex n d ∅ = List.range (n * d) := by
  unfold pruneIndex
  simp

theorem pruneIndex_length (d : ℕ) :
    ∀ (n : ℕ) (R : Finset ℕ), R ⊆ Finset.range n →
      (pruneIndex n d R).length = (n - R.card) * d := by
  rcases Nat.eq_zero_or_pos d with rfl | hd
  · intro n R _
    simp [pruneIndex]
  intro n
  induction n with
  | zero =>
    intro R hR
    have : R = ∅ := Finset.subset_empty.1 (by simpa using hR)
    subst this
    simp [pruneIndex]
  | succ n ih =>
    intro R hR
    have hR' : R.erase n ⊆ Finset.range n := by
      intro x hx
      have hx1 := Finset.mem_of_mem_erase hx
      have hx2 := Finset.ne_of_mem_erase hx
      have := Finset.mem_range.1 (hR hx1)
      exact Finset.mem_range.2 (by omega)
    have hstep : (n + 1) * d = n * d + d := by ring
    unfold pruneIndex
    rw [hstep, List.range_add, List.filter_append]
    rw [List.length_append]
    have hhead : (List.filter (fun j => decide (j / d ∉ R)) (List.range (n * d))).length
        = (n - (R.erase n).card) * d := by
      have hcong : List.filter (fun j => decide (j / d ∉ R)) (List.range (n * d))
          = List.filter (fun j => decide (j / d ∉ R.erase n)) (List.range (n * d)) := by
        apply List.filter_congr
        intro j hj
        have hjlt : j < n * d := List.mem_range.1 hj
        have hjlt' : j < d * n := by rw [Nat.mul_comm]; exact hjlt
        have hdiv : j / d < n := Nat.div_lt_of_lt_mul hjlt'
        have hiff : (j / d ∈ R) ↔ (j / d ∈ R.erase n) := by
          rw [Finset.mem_erase]
          constructor
          · intro h; exact ⟨by omega, h⟩
          · intro h; exact h.2
        exact decide_eq_decide.2 (not_congr hiff)
      rw [hcong]
      exact ih (R.erase n) hR'
    rw [hhead]
    have htailfun : ∀ j ∈ (List.range d).map (n * d + ·),
        (decide (j / d ∉ R)) = decide (n ∉ R) := by
      intro j hj
      obtain ⟨i, hi, rfl⟩ := List.mem_map.1 hj
      have hid : i < d := List.mem_range.1 hi
      have : (n * d + i) / d = n := by
        rw [Nat.add_comm, Nat.mul_comm, Nat.add_mul_div_left i n hd,
          Nat.div_eq_of_lt hid]
        omega
      rw [this]
    have htail : (List.filter (fun j => decide (j / d ∉ R))
        ((List.range d).map (n * d + ·))).length = if n ∈ R then 0 else d := by
      rw [List.filter_congr htailfun]
      by_cases hn : n ∈ R
      · simp [hn]
      · simp [hn]
    rw [htail]
    by_cases hn : n ∈ R
    · have hcard : (R.erase n).card + 1 = R.card := Finset.card_erase_add_one hn
      rw [if_pos hn]
      have : n + 1 - R.card = n - (R.erase n).card := by omega
      rw [this]
      omega
    · have herase : R.erase n = R := Finset.erase_eq_of_not_mem hn
      have hcard : R.card ≤ n := by
        have : R ⊆ Finset.range n := by
          intro x hx
          have := Finset.mem_range.1 (hR hx)
          have : x ≠ n := by rintro rfl; exact hn hx
          exact Finset.mem_range.2 (by omega)
        simpa using Finset.card_le_card this
      rw [if_neg hn, herase]
      have : n + 1 - R.card = (n - R.card) + 1 := by omega
      rw [this]
      ring

theorem headRemap_lt_of_lt (A : Finset ℕ) {h₁ h₂ : ℕ}
    (h1A : h₁ ∉ A) (hlt : h₁ < h₂) : headRemap A h₁ < headRemap A h₂ := by
  have hc1 : (A.filter (· < h₁)).card ≤ h₁ := by
    have hsub : A.filter (· < h₁) ⊆ Finset.range h₁ := by
      intro x hx
      exact Finset.mem_range.2 (Finset.mem_filter.1 hx).2
    simpa using Finset.card_le_card hsub
  have hc2 : (A.filter (· < h₂)).card
      ≤ (A.filter (· < h₁)).card + (h₂ - h₁ - 1) := by
    have hsub : A.filter (· < h₂)
        ⊆ A.filter (· < h₁) ∪ ((Finset.Ico h₁ h₂).erase h₁) := by
      intro x hx
      obtain ⟨hxA, hxlt⟩ := Finset.mem_filter.1 hx
      rcases lt_or_ge x h₁ with hx1 | hx1
      · exact Finset.mem_union_left _ (Finset.mem_filter.2 ⟨hxA, hx1⟩)
      · refine Finset.mem_union_right _ (Finset.mem_erase.2 ⟨?_, ?_⟩)
        · rintro rfl; exact h1A hxA
        · exact Finset.mem_Ico.2 ⟨hx1, hxlt⟩
    have hico : h₁ ∈ Finset.Ico h₁ h₂ := Finset.mem_Ico.2 ⟨le_rfl, hlt⟩
    have hcarderase : ((Finset.Ico h₁ h₂).erase h₁).card + 1
        = (Finset.Ico h₁ h₂).card := Finset.card_erase_add_one hico
    have hcardico : (Finset.Ico h₁ h₂).card = h₂ - h₁ := Nat.card_Ico h₁ h₂
    calc (A.filter (· < h₂)).card
        ≤ (A.filter (· < h₁) ∪ ((Finset.Ico h₁ h₂).erase h₁)).card :=
          Finset.card_le_card hsub
      _ ≤ (A.filter (· < h₁)).card + ((Finset.Ico h₁ h₂).erase h₁).card :=
          Finset.card_union_le _ _
      _ ≤ (A.filter (· < h₁)).card + (h₂ - h₁ - 1) := by omega
  unfold headRemap
  omega

theorem remapped_card (s : T5AttentionState) (H : Finset ℕ) :
    ((H \ s.prunedHeads).image (headRemap s.prunedHeads)).card
      = (H \ s.prunedHeads).card := by
  apply Finset.card_image_of_injOn
  intro x hx y hy hxy
  rcases lt_trichotomy x y with hlt | heq | hlt
  · have hxP : x ∉ s.prunedHeads := (Finset.mem_sdiff.1 hx).2
    exact absurd hxy (Nat.ne_of_lt (headRemap_lt_of_lt _ hxP hlt))
  · exact heq
  · have hyP : y ∉ s.prunedHeads := (Finset.mem_sdiff.1 hy).2
    exact absurd hxy.symm (Nat.ne_of_lt (headRemap_lt_of_lt _ hyP hlt))

theorem pruneHeads_index_length (s : T5AttentionState) (H : Finset ℕ)
    (hv : H ⊆ Finset.range s.nHeads) :
    (pruneIndex s.nHeads s.dKv
        ((H \ s.prunedHeads).image (headRemap s.prunedHeads))).length
      = (s.nHeads - (H \ s.prunedHeads).card) * s.dKv := by
  have hsub : (H \ s.prunedHeads).image (headRemap s.prunedHeads)
      ⊆ Finset.range s.nHeads := by
    intro r hr
    obtain ⟨h, hh, rfl⟩ := Finset.mem_image.1 hr
    have hlt : h < s.nHeads := Finset.mem_range.1 (hv (Finset.mem_sdiff.1 hh).1)
    exact Finset.mem_range.2 (lt_of_le_of_lt (Nat.sub_le _ _) hlt)
  rw [pruneIndex_length s.dKv s.nHeads _ hsub, remapped_card]

/-- C9: pruning the same head set twice leaves the module state — projection
matrices, head count, inner dimension, recorded pruned-head set — identical
to pruning it once; and across two calls the head count decreases by exactly
the number of distinct head indices pruned (those not already recorded). -/
theorem claim_C9_prune_heads_idempotent (s : T5AttentionState) (H H₂ : Finset ℕ)
    (hv : H ⊆ Finset.range s.nHeads) :
    pruneHeads (pruneHeads s H) H = pruneHeads s H ∧
    (pruneHeads (pruneHeads s H) H₂).nHeads
      = s.nHeads - ((H ∪ H₂) \ s.prunedHeads).card := by
  have hcount : ∀ (t : T5AttentionState) (G : Finset ℕ),
      (pruneHeads t G).nHeads = t.nHeads - (G \ t.prunedHeads).card ∧
      (pruneHeads t G).prunedHeads = t.prunedHeads ∪ (G \ t.prunedHeads) := by
    intro t G
    by_cases hG : G = ∅
    · subst hG
      simp [pruneHeads]
    · rw [pruneHeads, if_neg hG]
      exact ⟨rfl, rfl⟩
  constructor
  · by_cases hH : H = ∅
    · subst hH
      simp [pruneHeads]
    · have hs₁pruned : (pruneHeads s H).prunedHeads
          = s.prunedHeads ∪ (H \ s.prunedHeads) := (hcount s H).2
      have htoP2 : H \ (pruneHeads s H).prunedHeads = ∅ := by
        rw [hs₁pruned]
        ext x
        simp only [Finset.mem_sdiff, Finset.mem_union, Finset.not_mem_empty,
          iff_false, not_and, not_not]
        tauto
      set s₁ := pruneHeads s H with hs₁
      have hq : s₁.q.length = s₁.nHeads * s₁.dKv := by
        rw [hs₁, pruneHeads, if_neg hH]
        simpa [selectRows] using pruneHeads_index_length s H hv
      have hk : s₁.k.length = s₁.nHeads * s₁.dKv := by
        rw [hs₁, pruneHeads, if_neg hH]
        simpa [selectRows] using pruneHeads_index_length s H hv
      have hvv : s₁.v.length = s₁.nHeads * s₁.dKv := by
        rw [hs₁, pruneHeads, if_neg hH]
        simpa [selectRows] using pruneHeads_index_length s H hv
      have hrow : ∀ r ∈ s₁.o, r.length = s₁.nHeads * s₁.dKv := by
        intro r hr
        have hr' : r ∈ (pruneHeads s H).o := hr
        rw [pruneHeads, if_neg hH] at hr'
        simp only [selectCols, List.mem_map] at hr'
        obtain ⟨r₀, _, rfl⟩ := hr'
        have := pruneHeads_index_length s H hv
        simp only [List.length_map]
        calc (pruneIndex s.nHeads s.dKv
              ((H \ s.prunedHeads).image (headRemap s.prunedHeads))).length
            = (s.nHeads - (H \ s.prunedHeads).card) * s.dKv := this
          _ = s₁.nHeads * s₁.dKv := by
              rw [hs₁, pruneHeads, if_neg hH]
      have hselfRows : ∀ w : Mat, w.length = s₁.nHeads * s₁.dKv →
          selectRows w (pruneIndex s₁.nHeads s₁.dKv ∅) = w := by
        intro w hw
        rw [pruneIndex_empty, ← hw]
        exact map_getD_range_length w []
      have hoe : selectCols s₁.o (pruneIndex s₁.nHeads s₁.dKv ∅) = s₁.o := by
        rw [pruneIndex_empty]
        unfold selectCols
        conv_rhs => rw [← List.map_id s₁.o]
        apply List.map_congr_left
        intro r hr
        rw [← hrow r hr, map_getD_range_length r 0]
        rfl
      have hie : s₁.dKv * s₁.nHeads = s₁.innerDim := by
        rw [hs₁, pruneHeads, if_neg hH]
      rw [show pruneHeads s₁ H = _ from rfl, pruneHeads, if_neg hH]
      rw [htoP2]
      simp only [Finset.image_empty, Finset.card_empty, Nat.sub_zero,
        Finset.union_empty]
      rw [hselfRows s₁.q hq, hselfRows s₁.k hk, hselfRows s₁.v hvv, hoe, hie]
  · have h1 := hcount s H
    have h2 := hcount (pruneHeads s H) H₂
    rw [h2.1, h1.1, h1.2]
    have hsplit : H₂ \ (s.prunedHeads ∪ (H \ s.prunedHeads))
        = (H₂ \ s.prunedHeads) \ (H \ s.prunedHeads) := by
      ext x
      simp only [Finset.mem_sdiff, Finset.mem_union]
      tauto
    have hcards : (H \ s.prunedHeads).card
          + (H₂ \ (s.prunedHeads ∪ (H \ s.prunedHeads))).card
        = ((H ∪ H₂) \ s.prunedHeads).card := by
      rw [hsplit]
      have := Finset.card_sdiff_add_card (H₂ \ s.prunedHeads) (H \ s.prunedHeads)
      rw [Nat.add_comm]
      rw [this]
      congr 1
      rw [Finset.union_sdiff_distrib]
      exact Finset.union_comm _ _
    omega

/-- Concrete 2-head, `d_kv = 1` attention state for the C9 witness. -/
def pruneWitnessState : T5AttentionState :=
  { q := [[1], [2]]
    k := [[3], [4]]
    v := [[5], [6]]
    o := [[7, 8]]
    nHeads := 2
    dKv := 1
    innerDim := 2
    prunedHeads := ∅ }

/-- Witness for C9: pruning head `0` twice on a concrete module equals
pruning it once, and pruning `{0}` then `{1}` removes two heads. -/
theorem claim_C9_prune_heads_idempotent_witness :
    pruneHeads (pruneHeads pruneWitnessState {0}) {0}
        = pruneHeads pruneWitnessState {0} ∧
    (pruneHeads (pruneHeads pruneWitnessState {0}) {1}).nHeads
        = pruneWitnessState.nHeads
            - (({0} ∪ {1}) \ pruneWitnessState.prunedHeads).card :=
  claim_C9_prune_heads_idempotent pruneWitnessState {0} {1} (by decide)

/-! ## `T5Attention.forward` (lines 288–389)

Shapes: a projected tensor is kept head-major, `KVT = (n_heads, length,
d_kv)`, matching the code's `(bs, n_heads, len, dim_per_head)` with the
batch axis of size one dropped (batching is data-parallel).  A position bias
is `(n_heads, qlen, klen)` of maskable entries, so the folded-in additive
mask travels inside the bias exactly as in the code.  `e` stands for the
`exp` inside `F.softmax` (computed in float32 and cast back — an identity
here); dropout is the identity (inference mode). -/

abbrev KVT := List (List Vec)

abbrev BiasH := List (List (List MQ))

structure AttnParams where
  isDecoder : Bool
  hasRelativeAttentionBias : Bool
  relativeAttentionBias : Mat
  relativeAttentionNumBuckets : ℕ
  maxDistance : ℕ
  nHeads : ℕ
  dKv : ℕ
  wq : Mat
  wk : Mat
  wv : Mat
  wo : Mat

/-- `shape(x)`: slice head `h` out of a projected `inner_dim` vector. -/
def headOf (dKv h : ℕ) (p : Vec) : Vec := (p.drop (h * dKv)).take dKv

/-- Project a position list and reshape to `(n_heads, len, d_kv)`. -/
def projHeads (pa : AttnParams) (w : Mat) (xs : List Vec) : KVT :=
  (List.range pa.nHeads).map (fun h => xs.map (fun x => headOf pa.dKv h (matVec w x)))

/-- `T5Attention.compute_bias(qlen, klen)` (lines 273–286): bucket the
relative offset `memory_position - query_position`, look up the per-head
scalar, permute to `(n_heads, qlen, klen)`. -/
def computeBias (pa : AttnParams) (qlen klen : ℕ) : BiasH :=
  (List.range pa.nHeads).map (fun h =>
    (List.range qlen).map (fun i =>
      (List.range klen).map (fun j =>
        (some ((pa.relativeAttentionBias.getD
            (relativePositionBucket (!pa.isDecoder) pa.relativeAttentionNumBuckets
              pa.maxDistance ((j : ℤ) - (i : ℤ))) []).getD h 0) : MQ))))

/-- `position_bias = position_bias + mask` (mask broadcast over heads). -/
def addMaskBias (b : BiasH) (mask : List (List MQ)) : BiasH :=
  b.map (fun bh => List.zipWith (fun brow mrow => List.zipWith mqMaskAdd brow mrow) bh mask)

/-- `position_bias[:, :, -1:, :]`: keep only the newest query row. -/
def lastQueryRow (b : BiasH) : BiasH :=
  b.map (fun bh => bh.drop (bh.length - 1))

/-- Softmax of one score row; a masked (`none`) entry contributes `0`
weight and nothing to the normaliser (float32 underflow of `-10000`). -/
def softmaxRow (e : ℚ → ℚ) (row : List MQ) : List ℚ :=
  let ex := row.map (fun s => match s with | none => 0 | some x => e x)
  ex.map (fun x => x / ex.sum)

/-- `matmul(weights, v)` for one query row of one head. -/
def weightedSum (w : List ℚ) (vs : List Vec) (d : ℕ) : Vec :=
  (List.range d).map (fun c =>
    (List.zipWith (fun wj vj => wj * vj.getD c 0) w vs).sum)

/-- `scores = einsum("bnqd,bnkd->bnqk", q, k)` followed by
`scores += position_bias` and row softmax, head-major. -/
def attnWeights (e : ℚ → ℚ) (q k : KVT) (bias : BiasH) : List (List (List ℚ)) :=
  List.zipWith (fun (qkh : List Vec × List Vec) bh =>
    List.zipWith (fun qi biasRow =>
      softmaxRow e (List.zipWith (fun bij kj => mqAdd bij (dotQ qi kj)) biasRow qkh.2))
      qkh.1 bh)
    (q.zip k) bias

/-- `unshape(matmul(weights, v))` followed by the output projection `o`. -/
def attnContext (wo : Mat) (dKv qlen : ℕ) (weights : List (List (List ℚ)))
    (v : KVT) : List Vec :=
  (List.range qlen).map (fun i =>
    matVec wo
      (((weights.zip v).map
          (fun whvh => weightedSum (whvh.1.getD i []) whvh.2 dKv)).flatten))

structure AttnOutput where
  context : List Vec
  presentKeyValueState : Option (KVT × KVT)
  weights : List (List (List ℚ))
  positionBias : Option BiasH

/-- `T5Attention.forward`.  `kv = none` means self-attention; a supplied
`mask` is folded into the bias only on the branch that computes the bias. -/
def attnForward (pa : AttnParams) (e : ℚ → ℚ)
    (input : List Vec) (mask : Option (List (List MQ))) (kv : Option (List Vec))
    (positionBias : Option BiasH) (pastKeyValueState : Option (KVT × KVT))
    (headMask : Option (List ℚ)) (queryLength : Option ℕ) (useCache : Bool) :
    Except String AttnOutput := do
  if pastKeyValueState.isSome ∧ ¬ pa.isDecoder then
    throw "Encoder cannot cache past key value states"
  let qlen := input.length
  let realQlen :=
    match pastKeyValueState, queryLength with
    | some pkv, none => qlen + (pkv.1.getD 0 []).length
    | some _, some ql => ql
    | none, _ => qlen
  let klen :=
    match kv with
    | none => realQlen
    | some kvs => kvs.length
  let q := projHeads pa pa.wq input
  let kvPair :=
    match kv, pastKeyValueState with
    | none, none => (projHeads pa pa.wk input, projHeads pa pa.wv input)
    | none, some (pk, pv) =>
        (List.zipWith (· ++ ·) pk (projHeads pa pa.wk input),
         List.zipWith (· ++ ·) pv (projHeads pa pa.wv input))
    | some kvs, none => (projHeads pa pa.wk kvs, projHeads pa pa.wv kvs)
    | some _, some (pk, pv) => (pk, pv)
  let k := kvPair.1
  let v := kvPair.2
  let present : Option (KVT × KVT) :=
    if pa.isDecoder ∧ useCache then some (k, v) else none
  let bias ←
    match positionBias with
    | some pb => pure pb
    | none =>
        if ¬ pa.hasRelativeAttentionBias then
          throw "No position_bias provided and no weights to compute position_bias"
        else
          let b := computeBias pa realQlen klen
          let b := if pastKeyValueState.isSome then lastQueryRow b else b
          pure (match mask with
                | some m => addMaskBias b m
                | none => b)
  let weights := attnWeights e q k bias
  let weights :=
    match headMask with
    | none => weights
    | some hm =>
        List.zipWith (fun hmh wh => wh.map (fun row => row.map (fun x => hmh * x))) hm weights
  let context : List Vec := attnContext pa.wo pa.dKv qlen weights v
  pure { context := context
         presentKeyValueState := present
         weights := weights
         positionBias := if pa.hasRelativeAttentionBias then some bias else none }

/-! ## Layer wrappers, `T5Block`, `T5Stack` (lines 392–775) -/

structure LayerOutput where
  hiddenStates : List Vec
  presentKeyValueState : Option (KVT × KVT)
  weights : List (List (List ℚ))
  positionBias : Option BiasH

/-- `T5LayerSelfAttention.forward`: pre-norm, attention, residual add
(dropout is the identity at inference). -/
def t5LayerSelfAttention (pa : AttnParams) (lnW : Vec) (ε : ℚ) (e sq : ℚ → ℚ)
    (hidden : List Vec) (attentionMask : Option (List (List MQ)))
    (positionBias : Option BiasH) (headMask : Option (List ℚ))
    (past : Option (KVT × KVT)) (useCache : Bool) : Except String LayerOutput := do
  let normX := hidden.map (t5LayerNorm sq lnW ε)
  let out ← attnForward pa e normX attentionMask none positionBias past headMask none useCache
  pure { hiddenStates := List.zipWith vadd hidden out.context
         presentKeyValueState := out.presentKeyValueState
         weights := out.weights
         positionBias := out.positionBias }

/-- `T5LayerCrossAttention.forward`. -/
def t5LayerCrossAttention (pa : AttnParams) (lnW : Vec) (ε : ℚ) (e sq : ℚ → ℚ)
    (hidden : List Vec) (kv : List Vec) (attentionMask : Option (List (List MQ)))
    (positionBias : Option BiasH) (headMask : Option (List ℚ))
    (past : Option (KVT × KVT)) (useCache : Bool) (queryLength : Option ℕ) :
    Except String LayerOutput := do
  let normX := hidden.map (t5LayerNorm sq lnW ε)
  let out ← attnForward pa e normX attentionMask (some kv) positionBias past headMask
    queryLength useCache
  pure { hiddenStates := List.zipWith vadd hidden out.context
         presentKeyValueState := out.presentKeyValueState
         weights := out.weights
         positionBias := out.positionBias }

/-- `T5DenseReluDense` + `T5LayerFF`: pre-norm, `wo(relu(wi(x)))`, residual. -/
def t5LayerFF (wi wo : Mat) (lnW : Vec) (ε : ℚ) (sq : ℚ → ℚ)
    (hidden : List Vec) : List Vec :=
  List.zipWith vadd hidden
    (hidden.map (fun x =>
      matVec wo ((matVec wi (t5LayerNorm sq lnW ε x)).map (fun t => max t 0))))

structure BlockParams where
  isDecoder : Bool
  selfAttn : AttnParams
  selfLn : Vec
  crossAttn : Option AttnParams
  crossLn : Vec
  ffWi : Mat
  ffWo : Mat
  ffLn : Vec

structure BlockOutput where
  hiddenStates : List Vec
  presentKeyValueState : Option (List KVT)
  selfWeights : List (List (List ℚ))
  selfPositionBias : Option BiasH
  crossPositionBias : Option BiasH

/-- `T5Block.forward` (lines 473–548).  The incoming cache is a flat tuple
of tensors; its arity (2 without encoder states, 4 with) is validated on
entry, before any sub-layer computation. -/
def t5Block (bp : BlockParams) (ε : ℚ) (e sq : ℚ → ℚ)
    (hidden : List Vec) (attentionMask : Option (List (List MQ)))
    (positionBias : Option BiasH)
    (encoderHiddenStates : Option (List Vec))
    (encoderAttentionMask : Option (List (List MQ)))
    (encoderDecoderPositionBias : Option BiasH)
    (headMask : Option (List ℚ))
    (pastKeyValueState : Option (List KVT)) (useCache : Bool) :
    Except String BlockOutput := do
  let pasts ←
    match pastKeyValueState with
    | some pkv => do
        if ¬ bp.isDecoder then
          throw "Only decoder can use past_key_value_states"
        let expected := if encoderHiddenStates.isNone then 2 else 4
        if pkv.length ≠ expected then
          throw "unexpected number of past key / value states"
        let selfPast : Option (KVT × KVT) := some (pkv.getD 0 [], pkv.getD 1 [])
        let crossPast : Option (KVT × KVT) :=
          if pkv.length = 4 then some (pkv.getD 2 [], pkv.getD 3 []) else none
        pure (selfPast, crossPast)
    | none => pure ((none : Option (KVT × KVT)), (none : Option (KVT × KVT)))
  let selfOut ← t5LayerSelfAttention bp.selfAttn bp.selfLn ε e sq hidden
    attentionMask positionBias headMask pasts.1 useCache
  if bp.isDecoder ∧ encoderHiddenStates.isSome then
    let enc := encoderHiddenStates.getD []
    let queryLength : Option ℕ :=
      match selfOut.presentKeyValueState with
      | some pkv => some ((pkv.1.getD 0 []).length)
      | none => none
    let cp ←
      match bp.crossAttn with
      | some cp => pure cp
      | none => throw "decoder block has no cross-attention layer"
    let crossOut ← t5LayerCrossAttention cp bp.crossLn ε e sq selfOut.hiddenStates enc
      encoderAttentionMask encoderDecoderPositionBias headMask pasts.2 useCache queryLength
    let present : Option (List KVT) :=
      match selfOut.presentKeyValueState, crossOut.presentKeyValueState with
      | some (sk, sv), some (ck, cv) => some [sk, sv, ck, cv]
      | some (sk, sv), none => some [sk, sv]
      | none, _ => none
    pure { hiddenStates := t5LayerFF bp.ffWi bp.ffWo bp.ffLn ε sq crossOut.hiddenStates
           presentKeyValueState := present
           selfWeights := selfOut.weights
           selfPositionBias := selfOut.positionBias
           crossPositionBias := crossOut.positionBias }
  else
    let present : Option (List KVT) :=
      match selfOut.presentKeyValueState with
      | some (sk, sv) => some [sk, sv]
      | none => none
    pure { hiddenStates := t5LayerFF bp.ffWi bp.ffWo bp.ffLn ε sq selfOut.hiddenStates
           presentKeyValueState := present
           selfWeights := selfOut.weights
           selfPositionBias := selfOut.positionBias
           crossPositionBias := none }

/-! ## Extended masks and `T5Stack.forward` (lines 625–775)

`get_extended_attention_mask` and `invert_attention_mask` live in the
upstream `transformers.modeling_utils.PreTrainedModel`, outside this
repository's source tree.  Modelled from the spec: §4.5 — "convert a
`[batch, key-len]` 0/1 mask into an additive large-negative mask
broadcastable over heads and query positions; for a decoder's self-attention
this mask must also enforce causality — a position may not attend to
strictly-future positions" — and from the upstream implementation the spec
describes: for a decoder whose query length equals the mask length the
causal triangle `key ≤ query` is intersected with the padding mask; for a
single cached query position the causal factor broadcasts to `1`, leaving
the padding mask over all accumulated keys.  Additive `-10000.0` is the
exclusion value `none`. -/

def getExtendedAttentionMask (isDecoder : Bool) (mask : List Bool)
    (inputLen : ℕ) : List (List MQ) :=
  if isDecoder ∧ inputLen = mask.length then
    (List.range inputLen).map (fun i =>
      List.zipWith (fun b j => if b = true ∧ j ≤ i then (some 0 : MQ) else none)
        mask (List.range mask.length))
  else
    (List.range inputLen).map (fun _ =>
      mask.map (fun b => if b then (some 0 : MQ) else none))

/-- Modelled from the spec: `invert_attention_mask` (upstream collaborator)
turns a 0/1 key mask into an additive large-negative mask broadcast over all
query positions. -/
def invertAttentionMask (mask : List Bool) (qlen : ℕ) : List (List MQ) :=
  (List.range qlen).map (fun _ =>
    mask.map (fun b => if b then (some 0 : MQ) else none))

structure StackParams where
  isDecoder : Bool
  blocks : List BlockParams
  finalLn : Vec
  eps : ℚ

structure StackOutput where
  hiddenStates : List Vec
  presentKeyValueStates : List (Option (List KVT))
  selfAttnWeights : List (List (List (List ℚ)))

/-- The layer loop of `T5Stack.forward` (lines 728–758): thread the shared
position biases (stored from the first layer's outputs) and collect the
per-layer present caches and self-attention weights. -/
def runBlocks (isDecoder : Bool) (ε : ℚ) (e sq : ℚ → ℚ)
    (extendedAttentionMask : List (List MQ))
    (encoderHiddenStates : Option (List Vec))
    (encoderExtendedAttentionMask : Option (List (List MQ)))
    (useCache : Bool) :
    Bool → List (BlockParams × Option (List KVT)) → List Vec →
    Option BiasH → Option BiasH →
    Except String (List Vec × List (Option (List KVT)) × List (List (List (List ℚ))))
  | _, [], hidden, _, _ => pure (hidden, [], [])
  | first, (bp, past) :: rest, hidden, positionBias, encoderDecoderPositionBias => do
    let out ← t5Block bp ε e sq hidden (some extendedAttentionMask) positionBias
      encoderHiddenStates encoderExtendedAttentionMask encoderDecoderPositionBias
      none past useCache
    let positionBias' ←
      if first then
        match out.selfPositionBias with
        | some b => pure (some b)
        | none => throw "tuple index out of range"
      else
        pure positionBias
    let encoderDecoderPositionBias' ←
      if first ∧ isDecoder ∧ encoderHiddenStates.isSome then
        match out.crossPositionBias with
        | some b => pure (some b)
        | none => throw "tuple index out of range"
      else
        pure encoderDecoderPositionBias
    let res ← runBlocks isDecoder ε e sq extendedAttentionMask encoderHiddenStates
      encoderExtendedAttentionMask useCache false rest out.hiddenStates
      positionBias' encoderDecoderPositionBias'
    pure (res.1, out.presentKeyValueState :: res.2.1, out.selfWeights :: res.2.2)

/-- `T5Stack.forward` on precomputed input embeddings (the embedding lookup
is a shared table map applied identically on every path).  Dropout is the
identity (inference). -/
def t5Stack (sp : StackParams) (e sq : ℚ → ℚ)
    (inputsEmbeds : List Vec)
    (attentionMask : Option (List Bool))
    (encoderHiddenStates : Option (List Vec))
    (encoderAttentionMask : Option (List Bool))
    (pastKeyValueStates : Option (List (Option (List KVT))))
    (useCache : Bool) : Except String StackOutput := do
  let seqLength := inputsEmbeds.length
  let maskSeqLength ←
    match pastKeyValueStates with
    | some ps => do
        if seqLength ≠ 1 then
          throw "Input shape should be (batch_size, 1) when using past_key_value_sates"
        pure (((((ps.getD 0 none).getD []).getD 0 []).getD 0 []).length + seqLength)
    | none => pure seqLength
  let attnMask : List Bool := attentionMask.getD (List.replicate maskSeqLength true)
  let encoderAttentionMask₀ : Option (List Bool) :=
    if sp.isDecoder ∧ encoderAttentionMask.isNone ∧ encoderHiddenStates.isSome then
      some (List.replicate (encoderHiddenStates.getD []).length true)
    else encoderAttentionMask
  let pasts : List (Option (List KVT)) :=
    pastKeyValueStates.getD (List.replicate sp.blocks.length none)
  let extendedAttentionMask := getExtendedAttentionMask sp.isDecoder attnMask seqLength
  let encoderExtendedAttentionMask : Option (List (List MQ)) :=
    if sp.isDecoder ∧ encoderAttentionMask₀.isSome then
      some (invertAttentionMask (encoderAttentionMask₀.getD []) seqLength)
    else none
  let res ← runBlocks sp.isDecoder sp.eps e sq extendedAttentionMask
    encoderHiddenStates encoderExtendedAttentionMask useCache true
    (sp.blocks.zip pasts) inputsEmbeds none none
  if useCache ∧ ¬ sp.isDecoder then
    throw "`use_cache` can only be set to `True` if used as a decoder"
  pure { hiddenStates := res.1.map (t5LayerNorm sq sp.finalLn sp.eps)
         presentKeyValueStates := res.2.1
         selfAttnWeights := res.2.2 }

/-- N-step incremental decoding driver: feed one embedding per step and
thread the returned per-layer cache into the next call (`use_cache = True`
throughout); return the final step's (single-position) hidden states. -/
def decodeLoop (sp : StackParams) (e sq : ℚ → ℚ)
    (encoderHiddenStates : Option (List Vec)) :
    Option (List (Option (List KVT))) → List Vec → Except String (List Vec)
  | _, [] => throw "no decoder input"
  | past, x :: rest => do
    let out ← t5Stack sp e sq [x] none encoderHiddenStates none past true
    match rest with
    | [] => pure out.hiddenStates
    | _ =>
        decodeLoop sp e sq encoderHiddenStates
          (some out.presentKeyValueStates) rest

/-! ## Monad plumbing for symbolic execution of the `Except` paths -/

@[simp] theorem exceptBindOk {ε α β : Type} (a : α) (f : α → Except ε β) :
    (Except.ok a >>= f) = f a := rfl

@[simp] theorem exceptBindError {ε α β : Type} (msg : ε) (f : α → Except ε β) :
    ((Except.error msg : Except ε α) >>= f) = Except.error msg := rfl

@[simp] theorem exceptPureEq {ε α : Type} (a : α) :
    (pure a : Except ε α) = Except.ok a := rfl

@[simp] theorem exceptMapOk {ε α β : Type} (f : α → β) (a : α) :
    (f <$> (Except.ok a : Except ε α)) = Except.ok (f a) := rfl

@[simp] theorem exceptMapError {ε α β : Type} (f : α → β) (msg : ε) :
    (f <$> (Except.error msg : Except ε α)) = Except.error msg := rfl

@[simp] theorem exceptMapEq {ε α β : Type} (f : α → β) (x : Except ε α) :
    Except.map f x = f <$> x := rfl

@[simp] theorem exceptThrowEq {ε α : Type} (msg : ε) :
    (throw msg : Except ε α) = Except.error msg := rfl

/-- Appending new projections never rewrites old cache rows. -/
theorem zipWith_append_take {α : Type} (pk new : List (List α)) (h : ℕ)
    (hh : h < (List.zipWith (· ++ ·) pk new).length) :
    ((List.zipWith (· ++ ·) pk new).getD h []).take ((pk.getD h []).length)
      = pk.getD h [] := by
  have hpk : h < pk.length := by
    rw [List.length_zipWith] at hh
    omega
  rw [List.getD_eq_getElem _ _ hh, List.getElem_zipWith, List.getD_eq_getElem _ _ hpk]
  exact List.take_left _ _

/-- C5: attention cache use.  A non-decoder instance receiving a cache is a
hard error; decoder self-attention concatenates the new key/value projections
onto the cached tensors along the sequence axis (so the old cache is an
unchanged prefix of the returned present cache); cross-attention with a
cache returns the cached pair unchanged, and its output does not depend on
the supplied key/value source beyond its length (no new projection of `kv`
occurs). -/
theorem claim_C5_attention_cache_use (pa : AttnParams) (e : ℚ → ℚ)
    (input : List Vec) (mask : Option (List (List MQ))) (kv : Option (List Vec))
    (kvs kvs' : List Vec) (pb : Option BiasH) (b : BiasH) (pk pv : KVT)
    (hm : Option (List ℚ)) (ql : Option ℕ) (uc : Bool) :
    (pa.isDecoder = false →
      attnForward pa e input mask kv pb (some (pk, pv)) hm ql uc
        = Except.error "Encoder cannot cache past key value states") ∧
    (pa.isDecoder = true →
      (attnForward pa e input mask none (some b) (some (pk, pv)) hm ql true).map
          (fun out => out.presentKeyValueState)
        = Except.ok (some
            (List.zipWith (· ++ ·) pk (projHeads pa pa.wk input),
             List.zipWith (· ++ ·) pv (projHeads pa pa.wv input))) ∧
      ∀ h, h < (List.zipWith (· ++ ·) pk (projHeads pa pa.wk input)).length →
        ((List.zipWith (· ++ ·) pk (projHeads pa pa.wk input)).getD h []).take
            ((pk.getD h []).length) = pk.getD h []) ∧
    (pa.isDecoder = true →
      (attnForward pa e input mask (some kvs) (some b) (some (pk, pv)) hm ql true).map
          (fun out => out.presentKeyValueState)
        = Except.ok (some (pk, pv))) ∧
    (kvs.length = kvs'.length →
      attnForward pa e input mask (some kvs) pb (some (pk, pv)) hm ql uc
        = attnForward pa e input mask (some kvs') pb (some (pk, pv)) hm ql uc) := by
  refine ⟨?_, ?_, ?_, ?_⟩
  · intro hdec
    simp [attnForward, hdec]
  · intro hdec
    refine ⟨by simp [attnForward, hdec], fun h hh => zipWith_append_take pk _ h hh⟩
  · intro hdec
    simp [attnForward, hdec]
  · intro hlen
    simp [attnForward, hlen]

/-- Concrete single-head decoder attention used by the cache-claim
witnesses. -/
def decAttnW : AttnParams :=
  { isDecoder := true
    hasRelativeAttentionBias := true
    relativeAttentionBias := (List.range 32).map (fun bkt => [(bkt : ℚ)])
    relativeAttentionNumBuckets := 32
    maxDistance := 128
    nHeads := 1
    dKv := 1
    wq := [[1]]
    wk := [[1]]
    wv := [[1]]
    wo := [[1]] }

/-- The same module without the decoder flag. -/
def encAttnW : AttnParams := { decAttnW with isDecoder := false }

/-- Witness for C5 at concrete inputs: an encoder-flagged module with a
cache errors; a decoder self-attention appends to the cache and keeps the
old entry as a prefix; cross-attention returns the cache unchanged and
ignores the content of `kv`. -/
theorem claim_C5_attention_cache_use_witness :
    (attnForward encAttnW (fun _ => 1) [[1]] none none none
        (some ([[[2]]], [[[3]]])) none none true
      = Except.error "Encoder cannot cache past key value states") ∧
    ((attnForward decAttnW (fun _ => 1) [[1]] none none (some [[[some 0]]])
          (some ([[[2]]], [[[3]]])) none none true).map
        (fun out => out.presentKeyValueState)
      = Except.ok (some
          (List.zipWith (· ++ ·) [[[2]]] (projHeads decAttnW decAttnW.wk [[1]]),
           List.zipWith (· ++ ·) [[[3]]] (projHeads decAttnW decAttnW.wv [[1]])))) ∧
    ((attnForward decAttnW (fun _ => 1) [[1]] none (some [[5], [6]])
          (some [[[some 0]]]) (some ([[[2]]], [[[3]]])) none none true).map
        (fun out => out.presentKeyValueState)
      = Except.ok (some ([[[2]]], [[[3]]]))) ∧
    (attnForward decAttnW (fun _ => 1) [[1]] none (some [[5], [6]]) none
        (some ([[[2]]], [[[3]]])) none none true
      = attnForward decAttnW (fun _ => 1) [[1]] none (some [[7], [8]]) none
        (some ([[[2]]], [[[3]]])) none none true) :=
  ⟨(claim_C5_attention_cache_use encAttnW (fun _ => 1) [[1]] none none [] []
      none [[[some 0]]] [[[2]]] [[[3]]] none none true).1 rfl,
   ((claim_C5_attention_cache_use decAttnW (fun _ => 1) [[1]] none none [] []
      none [[[some 0]]] [[[2]]] [[[3]]] none none true).2.1 rfl).1,
   (claim_C5_attention_cache_use decAttnW (fun _ => 1) [[1]] none none
      [[5], [6]] [] none [[[some 0]]] [[[2]]] [[[3]]] none none true).2.2.1 rfl,
   (claim_C5_attention_cache_use decAttnW (fun _ => 1) [[1]] none none
      [[5], [6]] [[7], [8]] none [[[some 0]]] [[[2]]] [[[3]]] none none true).2.2.2
     (by decide)⟩

/-- C6: cache tuple arity is validated on entry to every transformer layer.
With a non-null incoming cache the layer must be decoder-flagged, and the
cache must hold exactly 2 tensors when no encoder hidden states are supplied
and exactly 4 when they are; any other length is a hard error, raised before
any sub-layer computation (the model is a pure function, so on the error
path the returned value is only the error — no state is produced or
changed). -/
theorem claim_C6_block_cache_arity (bp : BlockParams) (ε : ℚ) (e sq : ℚ → ℚ)
    (hidden : List Vec) (mask : Option (List (List MQ))) (pb : Option BiasH)
    (enc : Option (List Vec)) (encMask : Option (List (List MQ)))
    (edb : Option BiasH) (hm : Option (List ℚ)) (pkv : List KVT) (uc : Bool) :
    (bp.isDecoder = false →
      t5Block bp ε e sq hidden mask pb enc encMask edb hm (some pkv) uc
        = Except.error "Only decoder can use past_key_value_states") ∧
    (bp.isDecoder = true → pkv.length ≠ (if enc.isNone then 2 else 4) →
      t5Block bp ε e sq hidden mask pb enc encMask edb hm (some pkv) uc
        = Except.error "unexpected number of past key / value states") := by
  constructor
  · intro hdec
    simp [t5Block, hdec]
  · intro hdec hlen
    simp [t5Block, hdec, hlen]
    intro hcontra
    exact absurd hcontra (by simpa using hlen)

/-- Concrete decoder block used by the arity witness. -/
def decBlockW : BlockParams :=
  { isDecoder := true
    selfAttn := decAttnW
    selfLn := [1]
    crossAttn := some decAttnW
    crossLn := [1]
    ffWi := [[1]]
    ffWo := [[1]]
    ffLn := [1] }

/-- Witness for C6: a non-decoder block with a cache errors, and a decoder
block with a 3-tensor cache (no encoder states, expected 2) errors. -/
theorem claim_C6_block_cache_arity_witness :
    (t5Block { decBlockW with isDecoder := false } 1 (fun _ => 1) (fun _ => 1)
        [[1]] none none none none none none (some [[[[2]]]]) true
      = Except.error "Only decoder can use past_key_value_states") ∧
    (t5Block decBlockW 1 (fun _ => 1) (fun _ => 1)
        [[1]] none none none none none none (some [[[[2]]], [[[3]]], [[[4]]]]) true
      = Except.error "unexpected number of past key / value states") :=
  ⟨(claim_C6_block_cache_arity { decBlockW with isDecoder := false } 1
      (fun _ => 1) (fun _ => 1) [[1]] none none none none none none [[[[2]]]] true).1 rfl,
   (claim_C6_block_cache_arity decBlockW 1 (fun _ => 1) (fun _ => 1)
      [[1]] none none none none none none [[[[2]]], [[[3]]], [[[4]]]] true).2 rfl
     (by decide)⟩

/-- C7: position-bias ownership.  If no bias is supplied and the module owns
no bias table, the call is an error.  When the module owns the table and no
bias is supplied, the returned bias is computed from the real query length
and key length, sliced to the newest query row exactly when a cache is
active, and the additive mask is folded into it at that point.  When a bias
is supplied, the mask argument is ignored entirely (it is not re-added by
non-owning layers). -/
theorem claim_C7_bias_ownership (pa : AttnParams) (e : ℚ → ℚ)
    (input : List Vec) (m : List (List MQ)) (m₁ m₂ : Option (List (List MQ)))
    (kv : Option (List Vec)) (mask : Option (List (List MQ))) (b : BiasH)
    (pk pv : KVT) (past : Option (KVT × KVT)) (hm : Option (List ℚ))
    (ql : Option ℕ) (uc : Bool) :
    (pa.hasRelativeAttentionBias = false →
      attnForward pa e input mask kv none none hm ql uc
        = Except.error "No position_bias provided and no weights to compute position_bias") ∧
    (pa.hasRelativeAttentionBias = true → pa.isDecoder = true →
      (attnForward pa e input (some m) none none (some (pk, pv)) hm none uc).map
          (fun out => out.positionBias)
        = Except.ok (some (addMaskBias
            (lastQueryRow (computeBias pa (input.length + (pk.getD 0 []).length)
              (input.length + (pk.getD 0 []).length))) m))) ∧
    (pa.hasRelativeAttentionBias = true →
      (attnForward pa e input (some m) none none none hm ql uc).map
          (fun out => out.positionBias)
        = Except.ok (some (addMaskBias (computeBias pa input.length input.length) m))) ∧
    (attnForward pa e input m₁ kv (some b) past hm ql uc
      = attnForward pa e input m₂ kv (some b) past hm ql uc) := by
  refine ⟨?_, ?_, ?_, ?_⟩
  · intro hrel
    simp [attnForward, hrel]
  · intro hrel hdec
    simp [attnForward, hrel, hdec]
  · intro hrel
    simp [attnForward, hrel]
  · simp [attnForward]

/-- Witness for C7 at concrete inputs: a bias-less module with no supplied
bias errors; the owning module computes, slices (cache active) and folds the
mask; a supplied bias makes the mask argument irrelevant. -/
theorem claim_C7_bias_ownership_witness :
    (attnForward { decAttnW with hasRelativeAttentionBias := false } (fun _ => 1)
        [[1]] none none none none none none true
      = Except.error "No position_bias provided and no weights to compute position_bias") ∧
    ((attnForward decAttnW (fun _ => 1) [[1]] (some [[some 0, some 0]]) none none
          (some ([[[2]]], [[[3]]])) none none true).map (fun out => out.positionBias)
      = Except.ok (some (addMaskBias
          (lastQueryRow (computeBias decAttnW (1 + (([[[2]]] : KVT).getD 0 []).length)
            (1 + (([[[2]]] : KVT).getD 0 []).length))) [[some 0, some 0]]))) ∧
    (attnForward decAttnW (fun _ => 1) [[1]] (some [[some 0]]) none
        (some [[[some 5]]]) (some ([[[2]]], [[[3]]])) none none true
      = attnForward decAttnW (fun _ => 1) [[1]] none none
        (some [[[some 5]]]) (some ([[[2]]], [[[3]]])) none none true) :=
  ⟨(claim_C7_bias_ownership { decAttnW with hasRelativeAttentionBias := false }
      (fun _ => 1) [[1]] [] (some [[some 0]]) none none none [[[some 5]]] [] []
      none none none true).1 rfl,
   (claim_C7_bias_ownership decAttnW (fun _ => 1) [[1]] [[some 0, some 0]]
      none none none none [[[some 5]]] [[[2]]] [[[3]]] none none none true).2.1 rfl rfl,
   (claim_C7_bias_ownership decAttnW (fun _ => 1) [[1]] [] (some [[some 0]]) none
      none none [[[some 5]]] [] [] (some ([[[2]]], [[[3]]])) none none true).2.2.2⟩

/-! ## Claim C8: causality of decoder self-attention -/

/-- A mask is causal when every strictly-future entry is masked. -/
def causalMask (m : List (List MQ)) : Prop :=
  ∀ i j, i < j → (m.getD i []).getD j none = none

/-- A resolved position bias is causal when every strictly-future entry of
every head is masked. -/
def causalBias (b : BiasH) : Prop :=
  ∀ h i j, i < j → ((b.getD h []).getD i []).getD j none = none

theorem getD_zipWith_cases {α β γ : Type} (f : α → β → γ) (as : List α)
    (bs : List β) (n : ℕ) (d : γ) :
    (List.zipWith f as bs).getD n d = d ∨
    ∃ (ha : n < as.length) (hb : n < bs.length),
      (List.zipWith f as bs).getD n d = f as[n] bs[n] := by
  by_cases h : n < (List.zipWith f as bs).length
  · right
    have hlen := h
    rw [List.length_zipWith] at hlen
    refine ⟨by omega, by omega, ?_⟩
    rw [List.getD_eq_getElem _ _ h]
    exact List.getElem_zipWith
  · left
    exact List.getD_eq_default _ _ (le_of_not_lt h)

theorem softmaxRow_getD_zero (e : ℚ → ℚ) (row : List MQ) (j : ℕ)
    (hj : row.getD j none = none) : (softmaxRow e row).getD j 0 = 0 := by
  unfold softmaxRow
  by_cases h : j < row.length
  · have hrow : row[j] = none := by
      rw [← List.getD_eq_getElem row none h]
      exact hj
    have hlen : j < ((row.map (fun s => match s with | none => 0 | some x => e x)).map
        (fun x => x / (row.map (fun s => match s with | none => 0 | some x => e x)).sum)).length := by
      simpa using h
    rw [List.getD_eq_getElem _ _ hlen, List.getElem_map, List.getElem_map, hrow]
    simp
  · refine List.getD_eq_default _ _ ?_
    simpa using le_of_not_lt h

theorem mqAdd_none (s : ℚ) : mqAdd none s = none := rfl

theorem mqMaskAdd_none_right (b : MQ) : mqMaskAdd b none = none := by
  cases b <;> rfl

/-- Attention weights vanish at every strictly-future position once the
resolved bias is causal. -/
theorem attnWeights_causal (e : ℚ → ℚ) (q k : KVT) (bias : BiasH)
    (hb : causalBias bias) (h i j : ℕ) (hij : i < j) :
    (((attnWeights e q k bias).getD h []).getD i []).getD j 0 = 0 := by
  unfold attnWeights
  rcases getD_zipWith_cases
      (fun (qkh : List Vec × List Vec) bh =>
        List.zipWith (fun qi biasRow =>
          softmaxRow e (List.zipWith (fun bij kj => mqAdd bij (dotQ qi kj)) biasRow qkh.2))
          qkh.1 bh)
      ((q.zip k)) bias h [] with hcase | ⟨hqk, hbias, hcase⟩
  · rw [hcase]
    simp
  · rw [hcase]
    rcases getD_zipWith_cases
        (fun qi biasRow =>
          softmaxRow e (List.zipWith
            (fun bij kj => mqAdd bij (dotQ qi kj)) biasRow ((q.zip k)[h]).2))
        ((q.zip k)[h]).1 (bias[h]) i [] with hcase2 | ⟨hqi, hrow, hcase2⟩
    · rw [hcase2]
      simp
    · rw [hcase2]
      apply softmaxRow_getD_zero
      rcases getD_zipWith_cases
          (fun bij kj => mqAdd bij (dotQ (((q.zip k)[h]).1[i]) kj))
          (bias[h][i]) (((q.zip k)[h]).2) j none with hcase3 | ⟨hbj, hkj, hcase3⟩
      · exact hcase3
      · rw [hcase3]
        have hnone : (bias[h])[i][j] = none := by
          have := hb h i j hij
          rw [List.getD_eq_getElem bias [] hbias] at this
          rw [List.getD_eq_getElem _ [] hrow] at this
          rw [List.getD_eq_getElem _ none hbj] at this
          exact this
        rw [hnone]
        rfl

theorem getD_map_cases {α β : Type} (f : α → β) (l : List α) (n : ℕ) (d : β) :
    (l.map f).getD n d = d ∨
    ∃ _ : n < l.length, (l.map f).getD n d = f l[n] := by
  by_cases h : n < l.length
  · right
    refine ⟨h, ?_⟩
    rw [List.getD_eq_getElem _ _ (by simpa using h), List.getElem_map]
  · left
    exact List.getD_eq_default _ _ (by simpa using le_of_not_lt h)

theorem addMaskBias_causal (b : BiasH) (m : List (List MQ)) (hm : causalMask m) :
    causalBias (addMaskBias b m) := by
  intro h i j hij
  unfold addMaskBias
  rcases getD_map_cases
      (fun bh => List.zipWith (fun brow mrow => List.zipWith mqMaskAdd brow mrow) bh m)
      b h [] with hc | ⟨hb, hc⟩
  · rw [hc]
    simp
  · rw [hc]
    rcases getD_zipWith_cases
        (fun brow mrow => List.zipWith mqMaskAdd brow mrow) (b[h]) m i [] with
      hc2 | ⟨hbi, hmi, hc2⟩
    · rw [hc2]
      simp
    · rw [hc2]
      rcases getD_zipWith_cases mqMaskAdd (b[h][i]) (m[i]) j none with
        hc3 | ⟨hbj, hmj, hc3⟩
      · exact hc3
      · rw [hc3]
        have : m[i][j] = none := by
          have := hm i j hij
          rw [List.getD_eq_getElem m [] hmi, List.getD_eq_getElem _ none hmj] at this
          exact this
        rw [this]
        exact mqMaskAdd_none_right _

/-- Running `T5Attention.forward` without a cache, with the extended
(causal) mask and no externally supplied non-causal bias, produces causal
weights and returns a causal bias (when it returns one). -/
theorem attnForward_causal (pa : AttnParams) (e : ℚ → ℚ) (input : List Vec)
    (m : List (List MQ)) (kv : Option (List Vec)) (pb : Option BiasH)
    (uc : Bool) (out : AttnOutput)
    (hm : causalMask m)
    (hpb : ∀ b, pb = some b → causalBias b)
    (hrun : attnForward pa e input (some m) kv pb none none none uc = Except.ok out) :
    (∀ h i j, i < j → ((out.weights.getD h []).getD i []).getD j 0 = 0) ∧
    (∀ b, out.positionBias = some b → causalBias b) := by
  cases pb with
  | some b =>
    have hb : causalBias b := hpb b rfl
    simp [attnForward] at hrun
    refine ⟨fun h i j hij => ?_, fun b' hb' => ?_⟩
    · rw [← hrun]
      exact attnWeights_causal e _ _ b hb h i j hij
    · rw [← hrun] at hb'
      by_cases hrel : pa.hasRelativeAttentionBias = true
      · simp [hrel] at hb'
        rw [← hb']
        exact hb
      · simp only [Bool.not_eq_true] at hrel
        simp [hrel] at hb'
  | none =>
    by_cases hrel : pa.hasRelativeAttentionBias = true
    · cases kv with
      | none =>
        simp [attnForward, hrel] at hrun
        have hbias : causalBias
            (addMaskBias (computeBias pa input.length input.length) m) :=
          addMaskBias_causal _ m hm
        refine ⟨fun h i j hij => ?_, fun b' hb' => ?_⟩
        · rw [← hrun]
          exact attnWeights_causal e _ _ _ hbias h i j hij
        · rw [← hrun] at hb'
          simp [hrel] at hb'
          rw [← hb']
          exact hbias
      | some kvs =>
        simp [attnForward, hrel] at hrun
        have hbias : causalBias
            (addMaskBias (computeBias pa input.length kvs.length) m) :=
          addMaskBias_causal _ m hm
        refine ⟨fun h i j hij => ?_, fun b' hb' => ?_⟩
        · rw [← hrun]
          exact attnWeights_causal e _ _ _ hbias h i j hij
        · rw [← hrun] at hb'
          simp [hrel] at hb'
          rw [← hb']
          exact hbias
    · simp only [Bool.not_eq_true] at hrel
      simp [attnForward, hrel] at hrun

theorem except_bind_eq_ok {ε α β : Type} {x : Except ε α} {f : α → Except ε β} {b : β} :
    (x >>= f) = Except.ok b ↔ ∃ a, x = Except.ok a ∧ f a = Except.ok b := by
  cases x with
  | error msg =>
    constructor
    · intro h
      exact absurd h (by simp)
    · rintro ⟨a, ha, _⟩
      cases ha
  | ok a =>
    constructor
    · intro h
      exact ⟨a, rfl, h⟩
    · rintro ⟨a', ha, hf⟩
      cases ha
      exact hf

/-- A cache-less `T5Block` call under a causal extended mask produces
causal self-attention weights and threads only causal self biases. -/
theorem t5Block_causal (bp : BlockParams) (ε : ℚ) (e sq : ℚ → ℚ)
    (hidden : List Vec) (m : List (List MQ)) (pb : Option BiasH)
    (enc : Option (List Vec)) (encMask : Option (List (List MQ)))
    (edb : Option BiasH) (uc : Bool) (out : BlockOutput)
    (hm : causalMask m)
    (hpb : ∀ b, pb = some b → causalBias b)
    (hrun : t5Block bp ε e sq hidden (some m) pb enc encMask edb none none uc
      = Except.ok out) :
    (∀ h i j, i < j → ((out.selfWeights.getD h []).getD i []).getD j 0 = 0) ∧
    (∀ b, out.selfPositionBias = some b → causalBias b) := by
  simp only [t5Block, t5LayerSelfAttention, exceptPureEq, exceptBindOk] at hrun
  rw [except_bind_eq_ok] at hrun
  obtain ⟨sout, hS, hrun⟩ := hrun
  rw [except_bind_eq_ok] at hS
  obtain ⟨aout, hA, hmk⟩ := hS
  simp only [exceptPureEq, Except.ok.injEq] at hmk
  subst hmk
  have hca := attnForward_causal bp.selfAttn e (hidden.map (t5LayerNorm sq bp.selfLn ε))
    m none pb uc aout hm hpb hA
  by_cases hbranch : bp.isDecoder = true ∧ enc.isSome = true
  · rw [if_pos hbranch] at hrun
    cases hcp : bp.crossAttn with
    | none =>
      rw [hcp] at hrun
      simp at hrun
    | some cp =>
      rw [hcp] at hrun
      simp only [exceptPureEq, exceptBindOk] at hrun
      rw [except_bind_eq_ok] at hrun
      obtain ⟨cout, _, hrun⟩ := hrun
      simp only [exceptPureEq, Except.ok.injEq] at hrun
      rw [← hrun]
      exact hca
  · rw [if_neg hbranch] at hrun
    simp only [exceptPureEq, Except.ok.injEq] at hrun
    rw [← hrun]
    exact hca

/-- The decoder extended mask (square case) masks every strictly-future key. -/
theorem getExtendedAttentionMask_causal (mask : List Bool) :
    causalMask (getExtendedAttentionMask true mask mask.length) := by
  intro i j hij
  unfold getExtendedAttentionMask
  rw [if_pos ⟨rfl, rfl⟩]
  rcases getD_map_cases
      (fun i => List.zipWith (fun b j => if b = true ∧ j ≤ i then (some 0 : MQ) else none)
        mask (List.range mask.length))
      (List.range mask.length) i [] with hc | ⟨hi, hc⟩
  · rw [hc]
    simp
  · rw [hc, List.getElem_range]
    rcases getD_zipWith_cases
        (fun b j' => if b = true ∧ j' ≤ i then (some 0 : MQ) else none)
        mask (List.range mask.length) j none with hc2 | ⟨hbj, hrj, hc2⟩
    · exact hc2
    · rw [hc2, List.getElem_range]
      rw [if_neg]
      rintro ⟨-, hle⟩
      omega

/-- Causality is preserved across the whole layer loop, and every collected
self-attention weight tensor is causal (cache-less run, causal mask). -/
theorem runBlocks_causal (isDecoder : Bool) (ε : ℚ) (e sq : ℚ → ℚ)
    (extMask : List (List MQ)) (enc : Option (List Vec))
    (encExt : Option (List (List MQ))) (uc : Bool)
    (hm : causalMask extMask) :
    ∀ (layers : List (BlockParams × Option (List KVT))) (first : Bool)
      (hidden : List Vec) (pb edb : Option BiasH)
      (res : List Vec × List (Option (List KVT)) × List (List (List (List ℚ)))),
      (∀ l ∈ layers, l.2 = none) →
      (∀ b, pb = some b → causalBias b) →
      runBlocks isDecoder ε e sq extMask enc encExt uc first layers hidden pb edb
        = Except.ok res →
      ∀ w ∈ res.2.2, ∀ h i j, i < j → ((w.getD h []).getD i []).getD j 0 = 0 := by
  intro layers
  induction layers with
  | nil =>
    intro first hidden pb edb res _ _ hrun w hw h i j hij
    simp only [runBlocks, exceptPureEq, Except.ok.injEq] at hrun
    rw [← hrun] at hw
    simp at hw
  | cons l rest ih =>
    intro first hidden pb edb res hpasts hpb hrun w hw h i j hij
    obtain ⟨bp, past⟩ := l
    have hpastnone : past = none := hpasts (bp, past) (List.mem_cons_self _ _)
    subst hpastnone
    simp only [runBlocks] at hrun
    rw [except_bind_eq_ok] at hrun
    obtain ⟨bout, hB, hrun⟩ := hrun
    have hbc := t5Block_causal bp ε e sq hidden extMask pb enc encExt edb uc bout
      hm hpb hB
    have hrest : ∀ l ∈ rest, l.2 = none :=
      fun l hl => hpasts l (List.mem_cons_of_mem _ hl)
    have htail : ∀ (pbx edbx : Option BiasH),
        (∀ b, pbx = some b → causalBias b) →
        (runBlocks isDecoder ε e sq extMask enc encExt uc false rest
            bout.hiddenStates pbx edbx >>= fun r =>
          pure (r.1, bout.presentKeyValueState :: r.2.1,
            bout.selfWeights :: r.2.2)) = Except.ok res →
        ((w.getD h []).getD i []).getD j 0 = 0 := by
      intro pbx edbx hpbx hrun'
      rw [except_bind_eq_ok] at hrun'
      obtain ⟨res', hrec, hpure⟩ := hrun'
      simp only [exceptPureEq, Except.ok.injEq] at hpure
      rw [← hpure] at hw
      simp only [List.mem_cons] at hw
      rcases hw with rfl | hw
      · exact hbc.1 h i j hij
      · exact ih false bout.hiddenStates pbx edbx res' hrest hpbx hrec w hw h i j hij
    cases first with
    | false =>
      simp only [Bool.false_eq_true, if_false, false_and, exceptPureEq,
        exceptBindOk] at hrun
      exact htail pb edb hpb hrun
    | true =>
      rw [if_pos rfl] at hrun
      cases hsb : bout.selfPositionBias with
      | none =>
        rw [hsb] at hrun
        simp at hrun
      | some b0 =>
        rw [hsb] at hrun
        simp only [exceptPureEq, exceptBindOk, exceptThrowEq, true_and] at hrun
        have hb0 : ∀ b, (some b0 : Option BiasH) = some b → causalBias b := by
          intro b hb
          cases hb
          exact hbc.2 b0 hsb
        by_cases hc2 : isDecoder = true ∧ enc.isSome = true
        · rw [if_pos hc2] at hrun
          cases hcb : bout.crossPositionBias with
          | none =>
            rw [hcb] at hrun
            simp at hrun
          | some c0 =>
            rw [hcb] at hrun
            simp only [exceptPureEq, exceptBindOk] at hrun
            exact htail (some b0) (some c0) hb0 hrun
        · rw [if_neg hc2] at hrun
          exact htail (some b0) edb hb0 hrun

/-- C8: decoder self-attention causality.  In a cache-less decoder stack
pass with the default (all-ones) attention mask, the causal extended mask is
in effect and every post-softmax self-attention weight from position `i` to
a strictly later position `j > i` is exactly zero, at every layer and head. -/
theorem claim_C8_mask_causality (sp : StackParams) (e sq : ℚ → ℚ) (xs : List Vec)
    (enc : Option (List Vec)) (encMask : Option (List Bool)) (uc : Bool)
    (out : StackOutput)
    (hdec : sp.isDecoder = true)
    (hrun : t5Stack sp e sq xs none enc encMask none uc = Except.ok out) :
    ∀ w ∈ out.selfAttnWeights, ∀ h i j, i < j →
      ((w.getD h []).getD i []).getD j 0 = 0 := by
  intro w hw h i j hij
  simp only [t5Stack, hdec, exceptPureEq, exceptBindOk, Option.getD_none,
    Option.isNone_none] at hrun
  rw [except_bind_eq_ok] at hrun
  obtain ⟨res, hrb, hfin⟩ := hrun
  simp only [not_true, and_false, if_false, exceptPureEq, Except.ok.injEq] at hfin
  have hmask : causalMask
      (getExtendedAttentionMask true (List.replicate xs.length true) xs.length) := by
    have := getExtendedAttentionMask_causal (List.replicate xs.length true)
    rwa [List.length_replicate] at this
  have hpasts : ∀ l ∈ sp.blocks.zip (List.replicate sp.blocks.length none),
      l.2 = (none : Option (List KVT)) := by
    intro l hl
    exact List.eq_of_mem_replicate (List.of_mem_zip hl).2
  have hweights : w ∈ res.2.2 := by
    rw [← hfin] at hw
    exact hw
  exact runBlocks_causal true sp.eps e sq _ enc _ uc hmask
    (sp.blocks.zip (List.replicate sp.blocks.length none)) true xs none none res
    hpasts (fun b hb => by cases hb) hrb w hweights h i j hij

/-- Concrete one-block decoder stack for exercising the causality theorem. -/
def spW : StackParams :=
  { isDecoder := true, blocks := [decBlockW], finalLn := [1], eps := 1 }

/-- Output of a cache-less two-token pass through `spW` (identity `e`/`sq`). -/
def stackRunW : StackOutput :=
  (t5Stack spW (fun _ => 1) (fun _ => 1) [[1], [1]] none none none none
    false).toOption.getD { hiddenStates := [], presentKeyValueStates := [], selfAttnWeights := [] }

theorem claim_C8_mask_causality_witness :
    (((stackRunW.selfAttnWeights.getD 0 []).getD 0 []).getD 0 []).getD 1 0 = 0 :=
  claim_C8_mask_causality spW (fun _ => 1) (fun _ => 1) [[1], [1]] none none false
    stackRunW rfl (by rfl) (stackRunW.selfAttnWeights.getD 0 [])
    (List.mem_cons_self _ _) 0 0 1 (by decide)


/-! ## `JointEncoder.forward` layer-0 position bias (lines 1132–1147)

The joint encoder computes `text_position_bias = compute_bias(L, L)` from
the first block's self-attention (`self.block[0].module...`, an attribute
path that only resolves on a `DataParallel`-wrapped block; on the plain
`T5Block` stored in `self.block` it is an `AttributeError` — modelled here
as resolving to the block itself so the subsequent lines can be examined),
allocates a zero buffer of shape `(1, num_heads, seq_length, seq_length)`
with `seq_length = L` — the text length, not the concatenated visual+text
length — and assigns `position_bias[:, :, :L, :L] = text_position_bias`. -/

/-- Python slice assignment `dst[:L] = src[:L]` on one bias row. -/
def sliceAssignRow (L : ℕ) (drow srow : List MQ) : List MQ :=
  srow.take L ++ drow.drop L

/-- `position_bias[:, :, :L, :L] = text_position_bias` within one head:
rows `:L` of `dst` receive rows `:L` of `src`, later rows are kept. -/
def sliceAssign2d (L : ℕ) (dst src : List (List MQ)) : List (List MQ) :=
  List.zipWith (sliceAssignRow L) (dst.take L) (src.take L) ++ dst.drop L

/-- Lines 1136–1145: the layer-0 position bias of the joint encoder.
`seq_length = L`, so the `new_zeros` buffer is `num_heads × L × L`. -/
def jointEncoderLayer0Bias (pa : AttnParams) (L : ℕ) : BiasH :=
  let textPositionBias := computeBias pa L L
  let seqLength := L
  let zeros : BiasH :=
    List.replicate pa.nHeads (List.replicate seqLength (List.replicate seqLength (some 0)))
  List.zipWith (fun zh th => sliceAssign2d L zh th) zeros textPositionBias

lemma zipWith_replicate_id {α β : Type} (f : β → α → α) (c : β) :
    ∀ (l : List α) (n : ℕ), l.length = n → (∀ a ∈ l, f c a = a) →
      List.zipWith f (List.replicate n c) l = l := by
  intro l
  induction l with
  | nil => intro n _ _; simp
  | cons a as ih =>
    intro n hn h
    subst hn
    simp only [List.length_cons, List.replicate_succ, List.zipWith_cons_cons]
    rw [h a (List.mem_cons_self _ _), ih as.length rfl (fun x hx => h x (List.mem_cons_of_mem _ hx))]

lemma sliceAssign2d_full (L : ℕ) (src : List (List MQ)) (hsrc : src.length = L)
    (hrow : ∀ r ∈ src, r.length = L) :
    sliceAssign2d L (List.replicate L (List.replicate L ((some 0 : MQ)))) src = src := by
  unfold sliceAssign2d
  rw [List.take_replicate, Nat.min_self, List.drop_replicate, Nat.sub_self,
    List.replicate_zero, List.append_nil, List.take_of_length_le (le_of_eq hsrc)]
  exact zipWith_replicate_id _ _ src L hsrc (fun r hr => by
    unfold sliceAssignRow
    rw [List.take_of_length_le (le_of_eq (hrow r hr)), List.drop_replicate, Nat.sub_self,
      List.replicate_zero, List.append_nil])

lemma computeBias_length (pa : AttnParams) (q k : ℕ) :
    (computeBias pa q k).length = pa.nHeads := by
  simp [computeBias]

lemma computeBias_shape (pa : AttnParams) (q k : ℕ) :
    ∀ bh ∈ computeBias pa q k, bh.length = q ∧ ∀ row ∈ bh, row.length = k := by
  intro bh hbh
  unfold computeBias at hbh
  obtain ⟨h, -, rfl⟩ := List.mem_map.1 hbh
  refine ⟨by simp [Function.comp_def], ?_⟩
  intro row hrow
  obtain ⟨i, -, rfl⟩ := List.mem_map.1 hrow
  simp [Function.comp_def]

/-- C4: the joint encoder's layer-0 position bias is **not** extended to the
concatenated visual+text length.  The zero buffer is allocated with
`seq_length = L` (the text length), so the slice assignment overwrites it
completely: the result is exactly the text-only `compute_bias(L, L)`,
`num_heads` heads of `L × L` entries.  For any visual prefix of `V ≥ 1`
regions the claimed `(V+L) × (V+L)` coverage fails — there is no bias entry
at any visual position at all, zero or otherwise. -/
theorem claim_C4_joint_bias_text_only (pa : AttnParams) (L : ℕ) :
    jointEncoderLayer0Bias pa L = computeBias pa L L ∧
    (jointEncoderLayer0Bias pa L).length = pa.nHeads ∧
    ∀ bh ∈ jointEncoderLayer0Bias pa L, bh.length = L ∧ ∀ row ∈ bh, row.length = L := by
  have heq : jointEncoderLayer0Bias pa L = computeBias pa L L := by
    unfold jointEncoderLayer0Bias
    exact zipWith_replicate_id _ _ (computeBias pa L L) pa.nHeads (computeBias_length pa L L) (fun bh hbh =>
      sliceAssign2d_full L bh (computeBias_shape pa L L bh hbh).1
        (computeBias_shape pa L L bh hbh).2)
  refine ⟨heq, ?_, ?_⟩
  · rw [heq]; exact computeBias_length pa L L
  · rw [heq]; exact computeBias_shape pa L L

/-- Witness at the concrete encoder module `encAttnW` and text length 2:
the joint bias equals the text bias and is `2 × 2`; with one visual region
the concatenated length 3 is not covered. -/
theorem claim_C4_joint_bias_text_only_witness :
    jointEncoderLayer0Bias encAttnW 2 = computeBias encAttnW 2 2 ∧
    ((jointEncoderLayer0Bias encAttnW 2).getD 0 []).length = 2 ∧
    ((jointEncoderLayer0Bias encAttnW 2).getD 0 []).length ≠ 2 + 1 :=
  ⟨(claim_C4_joint_bias_text_only encAttnW 2).1,
   ((claim_C4_joint_bias_text_only encAttnW 2).2.2 _ (by decide)).1,
   by rw [((claim_C4_joint_bias_text_only encAttnW 2).2.2 _ (by decide)).1]; decide⟩

/-! ## C1: cache equivalence of incremental decoding — list utilities -/

theorem getD_take {α : Type} (l : List α) (t i : ℕ) (d : α) (h : i < t) :
    (l.take t).getD i d = l.getD i d := by
  by_cases hi : i < l.length
  · rw [List.getD_eq_getElem _ _ (by simp [List.length_take]; omega),
      List.getD_eq_getElem _ _ hi]
    simp [List.getElem_take]
  · rw [List.getD_eq_default _ _ (by simp [List.length_take]; omega),
      List.getD_eq_default _ _ (by omega)]

theorem take_succ_getD {α : Type} (l : List α) (m : ℕ) (d : α) (h : m < l.length) :
    l.take (m + 1) = l.take m ++ [l.getD m d] := by
  rw [List.take_succ, List.getD_eq_getElem _ _ h]
  simp [List.getElem?_eq_getElem h]

theorem zipWith_split {α β γ : Type} (f : α → β → γ) (a : List α) (b : List β)
    (t : ℕ) (h : (a.take t).length = (b.take t).length) :
    List.zipWith f a b =
      List.zipWith f (a.take t) (b.take t) ++ List.zipWith f (a.drop t) (b.drop t) := by
  conv_lhs => rw [← List.take_append_drop t a, ← List.take_append_drop t b]
  exact List.zipWith_append _ _ _ _ _ h

theorem softmaxRow_append_none (e : ℚ → ℚ) (r₁ r₂ : List MQ)
    (h : ∀ s ∈ r₂, s = none) :
    softmaxRow e (r₁ ++ r₂) = softmaxRow e r₁ ++ List.replicate r₂.length 0 := by
  have hex : r₂.map (fun s => match s with | none => 0 | some x => e x) =
      List.replicate r₂.length 0 := by
    rw [List.eq_replicate_iff]
    refine ⟨by simp, ?_⟩
    intro b hb
    obtain ⟨s, hs, rfl⟩ := List.mem_map.1 hb
    rw [h s hs]
  simp only [softmaxRow, List.map_append, hex, List.sum_append, List.sum_replicate,
    smul_zero, add_zero, List.map_replicate, zero_div]

theorem zipWith_replicate_left {α β γ : Type} (f : α → β → γ) (c : α) (m : ℕ)
    (l : List β) :
    List.zipWith f (List.replicate m c) l = (l.take m).map (f c) := by
  induction m generalizing l with
  | zero => simp
  | succ n ih =>
    cases l with
    | nil => simp
    | cons b bs => simp [List.replicate_succ, ih]

theorem weightedSum_append_zero (w : List ℚ) (vs₁ vs₂ : List Vec) (d m : ℕ)
    (hl : w.length = vs₁.length) :
    weightedSum (w ++ List.replicate m 0) (vs₁ ++ vs₂) d = weightedSum w vs₁ d := by
  unfold weightedSum
  refine List.map_congr_left (fun c _ => ?_)
  rw [List.zipWith_append _ _ _ _ _ hl]
  rw [List.sum_append]
  have : (List.zipWith (fun wj vj => wj * vj.getD c 0) (List.replicate m 0) vs₂).sum = 0 := by
    rw [zipWith_replicate_left]
    apply List.sum_eq_zero
    intro x hx
    obtain ⟨vj, _, rfl⟩ := List.mem_map.1 hx
    exact zero_mul _
  rw [this, add_zero]


theorem getD_map_pos {α β : Type} (f : α → β) (l : List α) (i : ℕ) (d : β)
    (d' : α) (h : i < l.length) :
    (l.map f).getD i d = f (l.getD i d') := by
  rw [List.getD_eq_getElem _ _ (by simpa using h), List.getElem_map,
    List.getD_eq_getElem _ _ h]

theorem getD_zipWith_pos {α β γ : Type} (f : α → β → γ) (a : List α) (b : List β)
    (i : ℕ) (d : γ) (da : α) (db : β) (ha : i < a.length) (hb : i < b.length) :
    (List.zipWith f a b).getD i d = f (a.getD i da) (b.getD i db) := by
  rw [List.getD_eq_getElem _ _ (by rw [List.length_zipWith]; omega),
    List.getElem_zipWith, List.getD_eq_getElem _ _ ha, List.getD_eq_getElem _ _ hb]

theorem getD_range (n i : ℕ) (h : i < n) : (List.range n).getD i 0 = i := by
  rw [List.getD_eq_getElem _ _ (by simpa using h), List.getElem_range]

/-! ### Projection structure -/

theorem projHeads_length (pa : AttnParams) (w : Mat) (xs : List Vec) :
    (projHeads pa w xs).length = pa.nHeads := by
  simp [projHeads]

theorem projHeads_getD (pa : AttnParams) (w : Mat) (xs : List Vec) (h : ℕ)
    (hh : h < pa.nHeads) :
    (projHeads pa w xs).getD h [] = xs.map (fun x => headOf pa.dKv h (matVec w x)) := by
  unfold projHeads
  rw [getD_map_pos _ _ h [] 0 (by simpa using hh), getD_range _ _ hh]

theorem projHeads_row_length (pa : AttnParams) (w : Mat) (xs : List Vec) :
    ∀ kh ∈ projHeads pa w xs, kh.length = xs.length := by
  intro kh hkh
  obtain ⟨h, -, rfl⟩ := List.mem_map.1 hkh
  exact List.length_map _ _

theorem projHeads_singleton (pa : AttnParams) (w : Mat) (xs : List Vec) (m : ℕ)
    (hm : m < xs.length) :
    projHeads pa w [xs.getD m []] =
      (projHeads pa w xs).map (fun kh => [kh.getD m []]) := by
  unfold projHeads
  rw [List.map_map]
  refine List.map_congr_left (fun h _ => ?_)
  simp only [Function.comp, List.map_cons, List.map_nil]
  rw [getD_map_pos _ _ m [] [] hm]

theorem projHeads_cache_append (pa : AttnParams) (w : Mat) (xs : List Vec) (m : ℕ)
    (hm : m < xs.length) :
    List.zipWith (· ++ ·) ((projHeads pa w xs).map (fun kh => kh.take m))
      (projHeads pa w [xs.getD m []]) =
      (projHeads pa w xs).map (fun kh => kh.take (m + 1)) := by
  rw [projHeads_singleton pa w xs m hm, List.zipWith_map_left, List.zipWith_map_right,
    List.zipWith_same]
  refine List.map_congr_left (fun kh hkh => ?_)
  have hlen : kh.length = xs.length := projHeads_row_length pa w xs kh hkh
  exact (take_succ_getD kh m [] (by omega)).symm

/-! ### `compute_bias` rows -/

/-- One scalar of the relative-position bias table lookup. -/
def biasEntry (pa : AttnParams) (h i j : ℕ) : ℚ :=
  (pa.relativeAttentionBias.getD
    (relativePositionBucket (!pa.isDecoder) pa.relativeAttentionNumBuckets
      pa.maxDistance ((j : ℤ) - (i : ℤ))) []).getD h 0

theorem list_bind_pure_cast (n : ℕ) :
    (do let a ← List.range n; pure ((a : ℤ))) = (List.range n).map Int.ofNat := by
  induction (List.range n) with
  | nil => rfl
  | cons a l ih => simp_all [List.cons_bind]

theorem getD_map_range {β : Type} (f : ℕ → β) (n i : ℕ) (d : β) (h : i < n) :
    ((List.range n).map f).getD i d = f i := by
  rw [List.getD_eq_getElem _ _ (by simpa using h), List.getElem_map, List.getElem_range]

theorem computeBias_eq (pa : AttnParams) (q k : ℕ) :
    computeBias pa q k = (List.range pa.nHeads).map (fun h =>
      (List.range q).map (fun i =>
        (List.range k).map (fun j => (some (biasEntry pa h i j) : MQ)))) := by
  unfold computeBias biasEntry
  rw [list_bind_pure_cast q, list_bind_pure_cast k]
  simp only [List.map_map]
  rfl

theorem computeBias_row (pa : AttnParams) (q k h i : ℕ) (hh : h < pa.nHeads)
    (hi : i < q) :
    ((computeBias pa q k).getD h []).getD i [] =
      (List.range k).map (fun j => (some (biasEntry pa h i j) : MQ)) := by
  simp only [computeBias_eq, getD_map_range _ _ _ _ hh, getD_map_range _ _ _ _ hi]

/-! ### Extended-mask shapes for the cached and uncached decoder calls -/

theorem zipWith_replicate_right {α β γ : Type} (f : α → β → γ) (c : β) (m : ℕ)
    (l : List α) :
    List.zipWith f l (List.replicate m c) = (l.take m).map (fun a => f a c) := by
  induction m generalizing l with
  | zero => simp
  | succ n ih =>
    cases l with
    | nil => simp
    | cons b bs => simp [List.replicate_succ, ih]

/-- Row `i` of the causal extended mask over an all-ones attention mask. -/
def emRow (N i : ℕ) : List MQ :=
  (List.range N).map (fun j => if j ≤ i then (some 0 : MQ) else none)

theorem em_mask_eq (N : ℕ) :
    getExtendedAttentionMask true (List.replicate N true) N =
      (List.range N).map (emRow N) := by
  unfold getExtendedAttentionMask emRow
  rw [if_pos (by simp)]
  refine List.map_congr_left (fun i _ => ?_)
  rw [zipWith_replicate_left, List.length_replicate, List.take_of_length_le (by simp)]
  refine List.map_congr_left (fun j _ => ?_)
  simp

theorem bm_mask_eq (t : ℕ) (ht : 1 ≤ t) :
    getExtendedAttentionMask true (List.replicate t true) 1 =
      [List.replicate t (some 0)] := by
  rcases Nat.eq_or_lt_of_le ht with h1 | h2
  · rw [← h1]
    rfl
  · unfold getExtendedAttentionMask
    rw [if_neg (by simp; omega)]
    simp [List.map_replicate]

theorem invertAttentionMask_ones (L q : ℕ) :
    invertAttentionMask (List.replicate L true) q =
      (List.range q).map (fun _ => List.replicate L (some 0)) := by
  unfold invertAttentionMask
  refine List.map_congr_left (fun i _ => ?_)
  simp [List.map_replicate]

/-! ### Masked-bias characterisations -/

/-- Row `i` of the causally masked self-attention position bias at width `w`. -/
def maskedBiasRow (pa : AttnParams) (h i w : ℕ) : List MQ :=
  (List.range w).map (fun j => if j ≤ i then (some (biasEntry pa h i j + 0) : MQ) else none)

/-- Row `i` of the (all-visible) masked cross-attention position bias. -/
def crossRow (pa : AttnParams) (h i L : ℕ) : List MQ :=
  (List.range L).map (fun j => (some (biasEntry pa h i j + 0) : MQ))

theorem biasN_eq (pa : AttnParams) (N : ℕ) :
    addMaskBias (computeBias pa N N) (getExtendedAttentionMask true (List.replicate N true) N) =
      (List.range pa.nHeads).map (fun h =>
        (List.range N).map (fun i => maskedBiasRow pa h i N)) := by
  unfold addMaskBias
  rw [computeBias_eq, em_mask_eq, List.map_map]
  refine List.map_congr_left (fun h _ => ?_)
  simp only [Function.comp]
  rw [List.zipWith_map_left, List.zipWith_map_right, List.zipWith_same]
  refine List.map_congr_left (fun i _ => ?_)
  unfold emRow maskedBiasRow
  rw [List.zipWith_map_left, List.zipWith_map_right, List.zipWith_same]
  refine List.map_congr_left (fun j _ => ?_)
  by_cases hij : j ≤ i
  · simp [hij, mqMaskAdd]
  · simp [hij, mqMaskAdd]

theorem crossBiasN_eq (pa : AttnParams) (N L : ℕ) :
    addMaskBias (computeBias pa N L) ((List.range N).map (fun _ => List.replicate L (some 0))) =
      (List.range pa.nHeads).map (fun h =>
        (List.range N).map (fun i => crossRow pa h i L)) := by
  unfold addMaskBias
  rw [computeBias_eq, List.map_map]
  refine List.map_congr_left (fun h _ => ?_)
  simp only [Function.comp]
  rw [List.zipWith_map_left, List.zipWith_map_right, List.zipWith_same]
  refine List.map_congr_left (fun i _ => ?_)
  unfold crossRow
  rw [zipWith_replicate_right, List.take_of_length_le (by simp), List.map_map]
  refine List.map_congr_left (fun j _ => ?_)
  simp [mqMaskAdd]

theorem lastQueryRow_computeBias (pa : AttnParams) (q k : ℕ) (hq : 1 ≤ q) :
    lastQueryRow (computeBias pa q k) =
      (List.range pa.nHeads).map (fun h =>
        [(List.range k).map (fun j => (some (biasEntry pa h (q - 1) j) : MQ))]) := by
  unfold lastQueryRow
  rw [computeBias_eq, List.map_map]
  refine List.map_congr_left (fun h _ => ?_)
  simp only [Function.comp, List.length_map, List.length_range]
  rw [← List.map_drop]
  have : (List.range q).drop (q - 1) = [q - 1] := by
    have hq' : q = (q - 1) + 1 := by omega
    rw [hq', List.range_succ, Nat.add_sub_cancel, List.drop_left' (by simp)]
  rw [this]
  rfl

theorem lastQueryRow_one (pa : AttnParams) (k : ℕ) :
    lastQueryRow (computeBias pa 1 k) = computeBias pa 1 k := by
  unfold lastQueryRow
  rw [computeBias_eq, List.map_map]
  refine List.map_congr_left (fun h _ => ?_)
  rfl

/-- The cached step's single bias row, trimmed to width `t` and masked. -/
def trimB (t : ℕ) (b : BiasH) : BiasH :=
  b.map (fun bh => [(bh.getD (t - 1) []).take t])

/-- The cached step's single cross-bias row (full key width). -/
def lastRowB (t : ℕ) (b : BiasH) : BiasH :=
  b.map (fun bh => [bh.getD (t - 1) []])

theorem cached_self_bias_eq (pa : AttnParams) (t : ℕ) (ht : 1 ≤ t) :
    addMaskBias (lastQueryRow (computeBias pa t t)) [List.replicate t (some 0)] =
      (List.range pa.nHeads).map (fun h => [maskedBiasRow pa h (t - 1) t]) := by
  unfold addMaskBias
  rw [lastQueryRow_computeBias pa t t ht, List.map_map]
  refine List.map_congr_left (fun h _ => ?_)
  simp only [Function.comp, List.zipWith_cons_cons, List.zipWith_nil_right]
  unfold maskedBiasRow
  rw [zipWith_replicate_right, List.take_of_length_le (by simp), List.map_map]
  refine congrArg (fun r => [r]) (List.map_congr_left (fun j hj => ?_))
  have hjt : j ≤ t - 1 := by
    have := List.mem_range.1 hj
    omega
  simp [hjt, mqMaskAdd]

theorem cached_cross_bias_eq (pa : AttnParams) (t L : ℕ) (ht : 1 ≤ t) :
    addMaskBias (lastQueryRow (computeBias pa t L)) [List.replicate L (some 0)] =
      (List.range pa.nHeads).map (fun h => [crossRow pa h (t - 1) L]) := by
  unfold addMaskBias
  rw [lastQueryRow_computeBias pa t L ht, List.map_map]
  refine List.map_congr_left (fun h _ => ?_)
  simp only [Function.comp, List.zipWith_cons_cons, List.zipWith_nil_right]
  unfold crossRow
  rw [zipWith_replicate_right, List.take_of_length_le (by simp), List.map_map]
  refine congrArg (fun r => [r]) (List.map_congr_left (fun j hj => ?_))
  simp [mqMaskAdd]

theorem trimB_biasN (pa : AttnParams) (t N : ℕ) (ht : 1 ≤ t) (htN : t ≤ N) :
    trimB t ((List.range pa.nHeads).map (fun h =>
        (List.range N).map (fun i => maskedBiasRow pa h i N))) =
      (List.range pa.nHeads).map (fun h => [maskedBiasRow pa h (t - 1) t]) := by
  unfold trimB
  rw [List.map_map]
  refine List.map_congr_left (fun h _ => ?_)
  simp only [Function.comp]
  rw [getD_map_range _ _ _ _ (by omega)]
  unfold maskedBiasRow
  rw [← List.map_take, List.take_range, Nat.min_eq_left htN]

theorem lastRowB_crossBiasN (pa : AttnParams) (t N L : ℕ) (ht : 1 ≤ t) (htN : t ≤ N) :
    lastRowB t ((List.range pa.nHeads).map (fun h =>
        (List.range N).map (fun i => crossRow pa h i L))) =
      (List.range pa.nHeads).map (fun h => [crossRow pa h (t - 1) L]) := by
  unfold lastRowB
  rw [List.map_map]
  refine List.map_congr_left (fun h _ => ?_)
  simp only [Function.comp]
  rw [getD_map_range _ _ _ _ (by omega)]

/-- Truncate one projected tensor to its first `m` positions per head. -/
def truncKVT (m : ℕ) (k : KVT) : KVT := k.map (fun kh => kh.take m)

/-- Truncate a layer cache: self entries to `m` positions, cross kept whole. -/
def truncPast (m : ℕ) : Option (List KVT) → Option (List KVT)
  | none => none
  | some pkv => some ((pkv.take 2).map (truncKVT m) ++ pkv.drop 2)

/-! ### Closed forms of `attnForward` on the branches the two runs take -/

theorem attn_eval_supplied_self_nopast (pa : AttnParams) (e : ℚ → ℚ)
    (input : List Vec) (m : Option (List (List MQ))) (pb : BiasH)
    (ql : Option ℕ) (uc : Bool) :
    attnForward pa e input m none (some pb) none none ql uc =
      Except.ok
        { context := attnContext pa.wo pa.dKv input.length
            (attnWeights e (projHeads pa pa.wq input) (projHeads pa pa.wk input) pb)
            (projHeads pa pa.wv input)
          presentKeyValueState := if pa.isDecoder ∧ uc then
            some (projHeads pa pa.wk input, projHeads pa pa.wv input) else none
          weights := attnWeights e (projHeads pa pa.wq input) (projHeads pa pa.wk input) pb
          positionBias := if pa.hasRelativeAttentionBias then some pb else none } := by
  simp [attnForward]

theorem attn_eval_supplied_self_past (pa : AttnParams) (e : ℚ → ℚ)
    (input : List Vec) (m : Option (List (List MQ))) (pb : BiasH)
    (pk pv : KVT) (ql : Option ℕ) (uc : Bool) (hdec : pa.isDecoder = true) :
    attnForward pa e input m none (some pb) (some (pk, pv)) none ql uc =
      Except.ok
        { context := attnContext pa.wo pa.dKv input.length
            (attnWeights e (projHeads pa pa.wq input)
              (List.zipWith (· ++ ·) pk (projHeads pa pa.wk input)) pb)
            (List.zipWith (· ++ ·) pv (projHeads pa pa.wv input))
          presentKeyValueState := if pa.isDecoder ∧ uc then
            some (List.zipWith (· ++ ·) pk (projHeads pa pa.wk input),
                  List.zipWith (· ++ ·) pv (projHeads pa pa.wv input)) else none
          weights := attnWeights e (projHeads pa pa.wq input)
            (List.zipWith (· ++ ·) pk (projHeads pa pa.wk input)) pb
          positionBias := if pa.hasRelativeAttentionBias then some pb else none } := by
  simp [attnForward, hdec]

theorem attn_eval_supplied_cross_nopast (pa : AttnParams) (e : ℚ → ℚ)
    (input kvs : List Vec) (m : Option (List (List MQ))) (pb : BiasH)
    (ql : Option ℕ) (uc : Bool) :
    attnForward pa e input m (some kvs) (some pb) none none ql uc =
      Except.ok
        { context := attnContext pa.wo pa.dKv input.length
            (attnWeights e (projHeads pa pa.wq input) (projHeads pa pa.wk kvs) pb)
            (projHeads pa pa.wv kvs)
          presentKeyValueState := if pa.isDecoder ∧ uc then
            some (projHeads pa pa.wk kvs, projHeads pa pa.wv kvs) else none
          weights := attnWeights e (projHeads pa pa.wq input) (projHeads pa pa.wk kvs) pb
          positionBias := if pa.hasRelativeAttentionBias then some pb else none } := by
  simp [attnForward]

theorem attn_eval_supplied_cross_past (pa : AttnParams) (e : ℚ → ℚ)
    (input kvs : List Vec) (m : Option (List (List MQ))) (pb : BiasH)
    (pk pv : KVT) (ql : Option ℕ) (uc : Bool) (hdec : pa.isDecoder = true) :
    attnForward pa e input m (some kvs) (some pb) (some (pk, pv)) none ql uc =
      Except.ok
        { context := attnContext pa.wo pa.dKv input.length
            (attnWeights e (projHeads pa pa.wq input) pk pb) pv
          presentKeyValueState := if pa.isDecoder ∧ uc then some (pk, pv) else none
          weights := attnWeights e (projHeads pa pa.wq input) pk pb
          positionBias := if pa.hasRelativeAttentionBias then some pb else none } := by
  simp [attnForward, hdec]

theorem attn_eval_compute_self_nopast (pa : AttnParams) (e : ℚ → ℚ)
    (input : List Vec) (m : List (List MQ)) (ql : Option ℕ) (uc : Bool)
    (hrel : pa.hasRelativeAttentionBias = true) :
    attnForward pa e input (some m) none none none none ql uc =
      Except.ok
        { context := attnContext pa.wo pa.dKv input.length
            (attnWeights e (projHeads pa pa.wq input) (projHeads pa pa.wk input)
              (addMaskBias (computeBias pa input.length input.length) m))
            (projHeads pa pa.wv input)
          presentKeyValueState := if pa.isDecoder ∧ uc then
            some (projHeads pa pa.wk input, projHeads pa pa.wv input) else none
          weights := attnWeights e (projHeads pa pa.wq input) (projHeads pa pa.wk input)
            (addMaskBias (computeBias pa input.length input.length) m)
          positionBias := some (addMaskBias (computeBias pa input.length input.length) m) } := by
  simp [attnForward, hrel]

theorem attn_eval_compute_self_past (pa : AttnParams) (e : ℚ → ℚ)
    (input : List Vec) (m : List (List MQ)) (pk pv : KVT) (uc : Bool)
    (hdec : pa.isDecoder = true) (hrel : pa.hasRelativeAttentionBias = true) :
    attnForward pa e input (some m) none none (some (pk, pv)) none none uc =
      Except.ok
        { context := attnContext pa.wo pa.dKv input.length
            (attnWeights e (projHeads pa pa.wq input)
              (List.zipWith (· ++ ·) pk (projHeads pa pa.wk input))
              (addMaskBias (lastQueryRow (computeBias pa
                  (input.length + (pk.getD 0 []).length)
                  (input.length + (pk.getD 0 []).length))) m))
            (List.zipWith (· ++ ·) pv (projHeads pa pa.wv input))
          presentKeyValueState := if pa.isDecoder ∧ uc then
            some (List.zipWith (· ++ ·) pk (projHeads pa pa.wk input),
                  List.zipWith (· ++ ·) pv (projHeads pa pa.wv input)) else none
          weights := attnWeights e (projHeads pa pa.wq input)
            (List.zipWith (· ++ ·) pk (projHeads pa pa.wk input))
            (addMaskBias (lastQueryRow (computeBias pa
                (input.length + (pk.getD 0 []).length)
                (input.length + (pk.getD 0 []).length))) m)
          positionBias := some (addMaskBias (lastQueryRow (computeBias pa
              (input.length + (pk.getD 0 []).length)
              (input.length + (pk.getD 0 []).length))) m) } := by
  simp [attnForward, hdec, hrel]

theorem attn_eval_compute_cross_nopast (pa : AttnParams) (e : ℚ → ℚ)
    (input kvs : List Vec) (m : List (List MQ)) (ql : Option ℕ) (uc : Bool)
    (hrel : pa.hasRelativeAttentionBias = true) :
    attnForward pa e input (some m) (some kvs) none none none ql uc =
      Except.ok
        { context := attnContext pa.wo pa.dKv input.length
            (attnWeights e (projHeads pa pa.wq input) (projHeads pa pa.wk kvs)
              (addMaskBias (computeBias pa input.length kvs.length) m))
            (projHeads pa pa.wv kvs)
          presentKeyValueState := if pa.isDecoder ∧ uc then
            some (projHeads pa pa.wk kvs, projHeads pa pa.wv kvs) else none
          weights := attnWeights e (projHeads pa pa.wq input) (projHeads pa pa.wk kvs)
            (addMaskBias (computeBias pa input.length kvs.length) m)
          positionBias := some (addMaskBias (computeBias pa input.length kvs.length) m) } := by
  simp [attnForward, hrel]

theorem attn_eval_compute_cross_past (pa : AttnParams) (e : ℚ → ℚ)
    (input kvs : List Vec) (m : List (List MQ)) (pk pv : KVT) (qL : ℕ) (uc : Bool)
    (hdec : pa.isDecoder = true) (hrel : pa.hasRelativeAttentionBias = true) :
    attnForward pa e input (some m) (some kvs) none (some (pk, pv)) none (some qL) uc =
      Except.ok
        { context := attnContext pa.wo pa.dKv input.length
            (attnWeights e (projHeads pa pa.wq input) pk
              (addMaskBias (lastQueryRow (computeBias pa qL kvs.length)) m)) pv
          presentKeyValueState := if pa.isDecoder ∧ uc then some (pk, pv) else none
          weights := attnWeights e (projHeads pa pa.wq input) pk
            (addMaskBias (lastQueryRow (computeBias pa qL kvs.length)) m)
          positionBias := some (addMaskBias (lastQueryRow (computeBias pa qL kvs.length)) m) } := by
  simp [attnForward, hdec, hrel]

theorem softmaxRow_length (e : ℚ → ℚ) (r : List MQ) :
    (softmaxRow e r).length = r.length := by
  simp [softmaxRow]

theorem cached_self_attn_core (pa : AttnParams) (e : ℚ → ℚ) (normX : List Vec)
    (N t : ℕ) (hN : normX.length = N) (ht : 1 ≤ t) (htN : t ≤ N)
    (Bf : BiasH)
    (hBlen : ∀ bh ∈ Bf, bh.length = N)
    (hBrow : ∀ bh ∈ Bf, (bh.getD (t - 1) []).length = N)
    (hBnone : ∀ bh ∈ Bf, ∀ j, t ≤ j → (bh.getD (t - 1) []).getD j none = none) :
    attnContext pa.wo pa.dKv 1
        (attnWeights e (projHeads pa pa.wq [normX.getD (t - 1) []])
          (truncKVT t (projHeads pa pa.wk normX)) (trimB t Bf))
        (truncKVT t (projHeads pa pa.wv normX)) =
      [(attnContext pa.wo pa.dKv N
          (attnWeights e (projHeads pa pa.wq normX) (projHeads pa pa.wk normX) Bf)
          (projHeads pa pa.wv normX)).getD (t - 1) []] := by
  have ht1N : t - 1 < N := by omega
  have ht1x : t - 1 < normX.length := by omega
  rw [projHeads_singleton pa pa.wq normX (t - 1) ht1x]
  unfold attnContext
  rw [getD_map_range _ _ _ _ ht1N]
  have hrange1 : List.range 1 = [0] := rfl
  rw [hrange1, List.map_cons, List.map_nil]
  refine congrArg (fun (z : List Vec) => [matVec pa.wo z.flatten]) ?_
  unfold attnWeights truncKVT trimB
  refine List.ext_getElem ?_ ?_
  · simp [projHeads_length]
  · intro ℓ hℓ₁ hℓ₂
    simp only [List.length_map, List.length_zip, List.length_zipWith,
      projHeads_length] at hℓ₁ hℓ₂
    have hℓB : ℓ < Bf.length := by omega
    have hℓH : ℓ < pa.nHeads := by omega
    have hℓQ : ℓ < (projHeads pa pa.wq normX).length := by rw [projHeads_length]; omega
    have hℓK : ℓ < (projHeads pa pa.wk normX).length := by rw [projHeads_length]; omega
    have hℓV : ℓ < (projHeads pa pa.wv normX).length := by rw [projHeads_length]; omega
    simp only [List.getElem_map, List.getElem_zip, List.getElem_zipWith,
      List.zipWith_cons_cons, List.zipWith_nil_right]
    have hKlen : (projHeads pa pa.wk normX)[ℓ].length = N := by
      rw [projHeads_row_length pa pa.wk normX _ (List.getElem_mem hℓK)]; exact hN
    have hVlen : (projHeads pa pa.wv normX)[ℓ].length = N := by
      rw [projHeads_row_length pa pa.wv normX _ (List.getElem_mem hℓV)]; exact hN
    have hQlen : (projHeads pa pa.wq normX)[ℓ].length = N := by
      rw [projHeads_row_length pa pa.wq normX _ (List.getElem_mem hℓQ)]; exact hN
    have hBl : Bf[ℓ].length = N := hBlen _ (List.getElem_mem hℓB)
    have hBr : (Bf[ℓ].getD (t - 1) []).length = N := hBrow _ (List.getElem_mem hℓB)
    -- reduce the uncached weight row at query t-1
    rw [getD_zipWith_pos _ _ _ (t - 1) [] [] [] (by omega) (by omega)]
    -- split the uncached score row at key position t
    have hsplit : List.zipWith
        (fun bij kj => mqAdd bij (dotQ ((projHeads pa pa.wq normX)[ℓ].getD (t - 1) []) kj))
        (Bf[ℓ].getD (t - 1) []) (projHeads pa pa.wk normX)[ℓ] =
        List.zipWith (fun bij kj => mqAdd bij
            (dotQ ((projHeads pa pa.wq normX)[ℓ].getD (t - 1) []) kj))
          ((Bf[ℓ].getD (t - 1) []).take t) ((projHeads pa pa.wk normX)[ℓ].take t) ++
        List.zipWith (fun bij kj => mqAdd bij
            (dotQ ((projHeads pa pa.wq normX)[ℓ].getD (t - 1) []) kj))
          ((Bf[ℓ].getD (t - 1) []).drop t) ((projHeads pa pa.wk normX)[ℓ].drop t) :=
      zipWith_split _ _ _ t (by rw [List.length_take, List.length_take, hBr, hKlen])
    have hdroplen : ((Bf[ℓ].getD (t - 1) []).drop t).length =
        ((projHeads pa pa.wk normX)[ℓ].drop t).length := by
      rw [List.length_drop, List.length_drop, hBr, hKlen]
    have hnone : ∀ s ∈ List.zipWith (fun bij kj => mqAdd bij
        (dotQ ((projHeads pa pa.wq normX)[ℓ].getD (t - 1) []) kj))
        ((Bf[ℓ].getD (t - 1) []).drop t) ((projHeads pa pa.wk normX)[ℓ].drop t),
        s = none := by
      intro s hs
      obtain ⟨i, hi, rfl⟩ := List.getElem_of_mem hs
      rw [List.getElem_zipWith]
      have hib : i < ((Bf[ℓ].getD (t - 1) []).drop t).length := by
        rw [List.length_zipWith] at hi; omega
      rw [List.getElem_drop]
      have : (Bf[ℓ].getD (t - 1) []).getD (t + i) none = none :=
        hBnone _ (List.getElem_mem hℓB) (t + i) (by omega)
      rw [List.getD_eq_getElem _ _ (by rw [hBr]; rw [List.length_drop, hBr] at hib; omega)] at this
      rw [this]
      rfl
    rw [hsplit, softmaxRow_append_none _ _ _ hnone]
    -- peel the trailing zero weights against the value rows beyond t
    conv_rhs =>
      rw [← List.take_append_drop t ((projHeads pa pa.wv normX)[ℓ])]
    rw [weightedSum_append_zero _ _ _ _ _ (by
      rw [softmaxRow_length, List.length_zipWith, List.length_take, List.length_take,
        List.length_take, hBr, hKlen, hVlen]
      omega)]
    rfl

theorem cached_cross_attn_core (pa : AttnParams) (e : ℚ → ℚ) (normX enc : List Vec)
    (N t : ℕ) (hN : normX.length = N) (ht : 1 ≤ t) (htN : t ≤ N)
    (Cf : BiasH) (hClen : ∀ ch ∈ Cf, ch.length = N) :
    attnContext pa.wo pa.dKv 1
        (attnWeights e (projHeads pa pa.wq [normX.getD (t - 1) []])
          (projHeads pa pa.wk enc) (lastRowB t Cf))
        (projHeads pa pa.wv enc) =
      [(attnContext pa.wo pa.dKv N
          (attnWeights e (projHeads pa pa.wq normX) (projHeads pa pa.wk enc) Cf)
          (projHeads pa pa.wv enc)).getD (t - 1) []] := by
  have ht1N : t - 1 < N := by omega
  have ht1x : t - 1 < normX.length := by omega
  rw [projHeads_singleton pa pa.wq normX (t - 1) ht1x]
  unfold attnContext
  rw [getD_map_range _ _ _ _ ht1N]
  have hrange1 : List.range 1 = [0] := rfl
  rw [hrange1, List.map_cons, List.map_nil]
  refine congrArg (fun (z : List Vec) => [matVec pa.wo z.flatten]) ?_
  unfold attnWeights lastRowB
  refine List.ext_getElem ?_ ?_
  · simp [projHeads_length]
  · intro ℓ hℓ₁ hℓ₂
    simp only [List.length_map, List.length_zip, List.length_zipWith,
      projHeads_length] at hℓ₁ hℓ₂
    have hℓB : ℓ < Cf.length := by omega
    have hℓQ : ℓ < (projHeads pa pa.wq normX).length := by rw [projHeads_length]; omega
    simp only [List.getElem_map, List.getElem_zip, List.getElem_zipWith,
      List.zipWith_cons_cons, List.zipWith_nil_right]
    have hQlen : (projHeads pa pa.wq normX)[ℓ].length = N := by
      rw [projHeads_row_length pa pa.wq normX _ (List.getElem_mem hℓQ)]; exact hN
    have hCl : Cf[ℓ].length = N := hClen _ (List.getElem_mem hℓB)
    rw [getD_zipWith_pos _ _ _ (t - 1) [] [] [] (by omega) (by omega)]
    rfl

/-! ### Bias links between the full uncached run and the cached step -/

/-- Relation between the self-attention position bias threaded through the
full `N`-token run and the one threaded through the cached single-token
step `t`: the cached bias is the full bias's newest query row, trimmed to
the `t` visible keys, and the full bias is causal past column `t`. -/
def selfBiasLink (t N : ℕ) (pbN pbC : Option BiasH) : Prop :=
  (pbN = none ∧ pbC = none) ∨
  (∃ Bf, pbN = some Bf ∧ pbC = some (trimB t Bf) ∧
    (∀ bh ∈ Bf, bh.length = N) ∧
    (∀ bh ∈ Bf, (bh.getD (t - 1) []).length = N) ∧
    (∀ bh ∈ Bf, ∀ j, t ≤ j → (bh.getD (t - 1) []).getD j none = none))

/-- The cross-attention analogue: the cached bias is the newest full row. -/
def crossBiasLink (t N : ℕ) (cbN cbC : Option BiasH) : Prop :=
  (cbN = none ∧ cbC = none) ∨
  (∃ Cf, cbN = some Cf ∧ cbC = some (lastRowB t Cf) ∧ (∀ ch ∈ Cf, ch.length = N))

theorem biasN_display_len (pa : AttnParams) (N : ℕ) :
    ∀ bh ∈ (List.range pa.nHeads).map (fun h =>
      (List.range N).map (fun i => maskedBiasRow pa h i N)), bh.length = N := by
  intro bh hbh
  obtain ⟨h, -, rfl⟩ := List.mem_map.1 hbh
  simp

theorem biasN_display_row (pa : AttnParams) (t N : ℕ) (ht : 1 ≤ t) (htN : t ≤ N) :
    ∀ bh ∈ (List.range pa.nHeads).map (fun h =>
      (List.range N).map (fun i => maskedBiasRow pa h i N)),
      (bh.getD (t - 1) []).length = N := by
  intro bh hbh
  obtain ⟨h, -, rfl⟩ := List.mem_map.1 hbh
  rw [getD_map_range _ _ _ _ (by omega)]
  simp [maskedBiasRow]

theorem biasN_display_none (pa : AttnParams) (t N : ℕ) (ht : 1 ≤ t) (htN : t ≤ N) :
    ∀ bh ∈ (List.range pa.nHeads).map (fun h =>
      (List.range N).map (fun i => maskedBiasRow pa h i N)),
      ∀ j, t ≤ j → (bh.getD (t - 1) []).getD j none = none := by
  intro bh hbh j htj
  obtain ⟨h, -, rfl⟩ := List.mem_map.1 hbh
  rw [getD_map_range _ _ _ _ (by omega)]
  unfold maskedBiasRow
  by_cases hj : j < N
  · rw [getD_map_range _ _ _ _ hj, if_neg (by omega)]
  · exact List.getD_eq_default _ _ (by simp; omega)

theorem crossBiasN_display_len (pa : AttnParams) (N L : ℕ) :
    ∀ ch ∈ (List.range pa.nHeads).map (fun h =>
      (List.range N).map (fun i => crossRow pa h i L)), ch.length = N := by
  intro ch hch
  obtain ⟨h, -, rfl⟩ := List.mem_map.1 hch
  simp

theorem attnContext_length (wo : Mat) (d q : ℕ) (w : List (List (List ℚ))) (v : KVT) :
    (attnContext wo d q w v).length = q := by
  simp [attnContext]

theorem truncKVT_one (pa : AttnParams) (w : Mat) (xs : List Vec)
    (h1 : 1 ≤ xs.length) :
    projHeads pa w [xs.getD 0 []] = truncKVT 1 (projHeads pa w xs) := by
  unfold truncKVT
  rw [projHeads_singleton pa w xs 0 (by omega)]
  refine List.map_congr_left (fun kh hkh => ?_)
  have hlen := projHeads_row_length pa w xs kh hkh
  simpa using (take_succ_getD kh 0 [] (by omega)).symm

theorem truncKVT_step (pa : AttnParams) (w : Mat) (xs : List Vec) (t : ℕ)
    (ht : 1 ≤ t) (htx : t - 1 < xs.length) :
    List.zipWith (· ++ ·) (truncKVT (t - 1) (projHeads pa w xs))
      (projHeads pa w [xs.getD (t - 1) []]) = truncKVT t (projHeads pa w xs) := by
  unfold truncKVT
  have := projHeads_cache_append pa w xs (t - 1) htx
  rw [this]
  congr 1
  funext kh
  congr 1
  omega

theorem truncKVT_first (pa : AttnParams) (w : Mat) (xs : List Vec) (t : ℕ)
    (ht1 : t = 1) (h1 : 1 ≤ xs.length) :
    projHeads pa w [xs.getD (t - 1) []] = truncKVT t (projHeads pa w xs) := by
  subst ht1
  exact truncKVT_one pa w xs h1

theorem t5LayerSelf_cached_step
    (pa : AttnParams) (lnW : Vec) (ε : ℚ) (e sq : ℚ → ℚ)
    (N t : ℕ) (ht : 1 ≤ t) (htN : t ≤ N)
    (hidden : List Vec) (hN : hidden.length = N)
    (hdecS : pa.isDecoder = true) (hh : 0 < pa.nHeads)
    (pbN pbC : Option BiasH) (hlink : selfBiasLink t N pbN pbC)
    (pastC : Option (KVT × KVT))
    (hpast : (t = 1 ∧ pastC = none) ∨ (2 ≤ t ∧ pastC = some
      (truncKVT (t - 1) (projHeads pa pa.wk (hidden.map (t5LayerNorm sq lnW ε))),
       truncKVT (t - 1) (projHeads pa pa.wv (hidden.map (t5LayerNorm sq lnW ε))))))
    (outN : LayerOutput)
    (hrunN : t5LayerSelfAttention pa lnW ε e sq hidden
        (some (getExtendedAttentionMask true (List.replicate N true) N)) pbN none none true
      = Except.ok outN) :
    outN.presentKeyValueState = some
        (projHeads pa pa.wk (hidden.map (t5LayerNorm sq lnW ε)),
         projHeads pa pa.wv (hidden.map (t5LayerNorm sq lnW ε))) ∧
    outN.hiddenStates.length = N ∧
    ∃ outC, t5LayerSelfAttention pa lnW ε e sq [hidden.getD (t - 1) []]
        (some (getExtendedAttentionMask true (List.replicate t true) 1)) pbC none pastC true
      = Except.ok outC ∧
      outC.hiddenStates = [outN.hiddenStates.getD (t - 1) []] ∧
      outC.presentKeyValueState = some
        (truncKVT t (projHeads pa pa.wk (hidden.map (t5LayerNorm sq lnW ε))),
         truncKVT t (projHeads pa pa.wv (hidden.map (t5LayerNorm sq lnW ε)))) ∧
      selfBiasLink t N outN.positionBias outC.positionBias := by
  have ht1 : t - 1 < N := by omega
  have ht1h : t - 1 < hidden.length := by omega
  have hNx : (hidden.map (t5LayerNorm sq lnW ε)).length = N := by
    rw [List.length_map]; exact hN
  have hinput : [hidden.getD (t - 1) []].map (t5LayerNorm sq lnW ε) =
      [(hidden.map (t5LayerNorm sq lnW ε)).getD (t - 1) []] := by
    rw [List.map_cons, List.map_nil, getD_map_pos _ _ _ _ [] ht1h]
  have hpk0 : ((truncKVT (t - 1) (projHeads pa pa.wk
      (hidden.map (t5LayerNorm sq lnW ε)))).getD 0 []).length = t - 1 := by
    unfold truncKVT
    rw [getD_map_pos _ _ _ _ [] (by rw [projHeads_length]; omega), List.length_take,
      projHeads_getD _ _ _ _ hh, List.length_map, hNx]
    omega
  rcases hlink with ⟨hpbN, hpbC⟩ | ⟨Bf, hpbN, hpbC, hB1, hB2, hB3⟩
  · -- the module computes the bias itself (first layer of the stack)
    subst hpbN hpbC
    by_cases hrel : pa.hasRelativeAttentionBias = true
    · rw [t5LayerSelfAttention, attn_eval_compute_self_nopast pa e _ _ none true hrel,
        exceptBindOk, exceptPureEq, Except.ok.injEq] at hrunN
      subst hrunN
      have hBfN : addMaskBias (computeBias pa (hidden.map (t5LayerNorm sq lnW ε)).length
          (hidden.map (t5LayerNorm sq lnW ε)).length)
          (getExtendedAttentionMask true (List.replicate N true) N) =
          (List.range pa.nHeads).map (fun h =>
            (List.range N).map (fun i => maskedBiasRow pa h i N)) := by
        rw [hNx, biasN_eq]
      have hrunC : t5LayerSelfAttention pa lnW ε e sq [hidden.getD (t - 1) []]
          (some (getExtendedAttentionMask true (List.replicate t true) 1)) none none
          pastC true = Except.ok
          { hiddenStates := List.zipWith vadd [hidden.getD (t - 1) []]
              (attnContext pa.wo pa.dKv 1
                (attnWeights e
                  (projHeads pa pa.wq [(hidden.map (t5LayerNorm sq lnW ε)).getD (t - 1) []])
                  (truncKVT t (projHeads pa pa.wk (hidden.map (t5LayerNorm sq lnW ε))))
                  ((List.range pa.nHeads).map (fun h => [maskedBiasRow pa h (t - 1) t])))
                (truncKVT t (projHeads pa pa.wv (hidden.map (t5LayerNorm sq lnW ε)))))
            presentKeyValueState := some
              (truncKVT t (projHeads pa pa.wk (hidden.map (t5LayerNorm sq lnW ε))),
               truncKVT t (projHeads pa pa.wv (hidden.map (t5LayerNorm sq lnW ε))))
            weights := attnWeights e
              (projHeads pa pa.wq [(hidden.map (t5LayerNorm sq lnW ε)).getD (t - 1) []])
              (truncKVT t (projHeads pa pa.wk (hidden.map (t5LayerNorm sq lnW ε))))
              ((List.range pa.nHeads).map (fun h => [maskedBiasRow pa h (t - 1) t]))
            positionBias := some
              ((List.range pa.nHeads).map (fun h => [maskedBiasRow pa h (t - 1) t])) } := by
        rcases hpast with ⟨ht1', hpC⟩ | ⟨ht2, hpC⟩ <;> subst hpC
        · rw [t5LayerSelfAttention, hinput, attn_eval_compute_self_nopast pa e _ _ none true hrel,
            exceptBindOk, exceptPureEq]
          have hlen1 : ([(hidden.map (t5LayerNorm sq lnW ε)).getD (t - 1) []] : List Vec).length
              = 1 := rfl
          rw [hlen1]
          have hcb1 : computeBias pa 1 1 = lastQueryRow (computeBias pa t t) := by
            rw [ht1']
            exact (lastQueryRow_one pa 1).symm
          rw [hcb1, bm_mask_eq t ht, cached_self_bias_eq pa t ht,
            truncKVT_first pa pa.wk _ t ht1' (by omega),
            truncKVT_first pa pa.wv _ t ht1' (by omega)]
          simp [hdecS]
        · rw [t5LayerSelfAttention, hinput,
            attn_eval_compute_self_past pa e _ _ _ _ true hdecS hrel,
            exceptBindOk, exceptPureEq]
          have hlen1 : ([(hidden.map (t5LayerNorm sq lnW ε)).getD (t - 1) []] : List Vec).length
              = 1 := rfl
          rw [hlen1, hpk0]
          have hR : 1 + (t - 1) = t := by omega
          rw [hR, bm_mask_eq t ht, cached_self_bias_eq pa t ht,
            truncKVT_step pa pa.wk _ t ht (by omega),
            truncKVT_step pa pa.wv _ t ht (by omega)]
          simp [hdecS]
      refine ⟨by simp [hdecS], ?_, _, hrunC, ?_, rfl, ?_⟩
      · simp only [List.length_zipWith, attnContext_length, hNx, hN]
        omega
      · simp only
        rw [hBfN, hNx, ← trimB_biasN pa t N ht htN]
        rw [cached_self_attn_core pa e (hidden.map (t5LayerNorm sq lnW ε)) N t hNx ht htN
          _ (biasN_display_len pa N) (biasN_display_row pa t N ht htN)
          (biasN_display_none pa t N ht htN)]
        rw [List.zipWith_cons_cons, List.zipWith_nil_right]
        rw [getD_zipWith_pos vadd hidden _ (t - 1) [] [] [] ht1h
          (by rw [attnContext_length]; omega)]
      · simp only [hrel, if_true]
        right
        refine ⟨_, rfl, ?_, ?_, ?_, ?_⟩
        · rw [hBfN, trimB_biasN pa t N ht htN]
        · rw [hBfN]; exact biasN_display_len pa N
        · rw [hBfN]; exact biasN_display_row pa t N ht htN
        · rw [hBfN]; exact biasN_display_none pa t N ht htN
    · rw [t5LayerSelfAttention] at hrunN
      rw [show (attnForward pa e (hidden.map (t5LayerNorm sq lnW ε))
          (some (getExtendedAttentionMask true (List.replicate N true) N)) none none
          none none none true) = Except.error
            "No position_bias provided and no weights to compute position_bias" by
        simp [attnForward, hrel]] at hrunN
      simp at hrunN
  · -- the bias is supplied (all later layers)
    subst hpbN hpbC
    rw [t5LayerSelfAttention, attn_eval_supplied_self_nopast,
      exceptBindOk, exceptPureEq, Except.ok.injEq] at hrunN
    subst hrunN
    have hrunC : t5LayerSelfAttention pa lnW ε e sq [hidden.getD (t - 1) []]
        (some (getExtendedAttentionMask true (List.replicate t true) 1)) (some (trimB t Bf))
        none pastC true = Except.ok
        { hiddenStates := List.zipWith vadd [hidden.getD (t - 1) []]
            (attnContext pa.wo pa.dKv 1
              (attnWeights e
                (projHeads pa pa.wq [(hidden.map (t5LayerNorm sq lnW ε)).getD (t - 1) []])
                (truncKVT t (projHeads pa pa.wk (hidden.map (t5LayerNorm sq lnW ε))))
                (trimB t Bf))
              (truncKVT t (projHeads pa pa.wv (hidden.map (t5LayerNorm sq lnW ε)))))
          presentKeyValueState := some
            (truncKVT t (projHeads pa pa.wk (hidden.map (t5LayerNorm sq lnW ε))),
             truncKVT t (projHeads pa pa.wv (hidden.map (t5LayerNorm sq lnW ε))))
          weights := attnWeights e
            (projHeads pa pa.wq [(hidden.map (t5LayerNorm sq lnW ε)).getD (t - 1) []])
            (truncKVT t (projHeads pa pa.wk (hidden.map (t5LayerNorm sq lnW ε))))
            (trimB t Bf)
          positionBias := if pa.hasRelativeAttentionBias then some (trimB t Bf) else none } := by
      rcases hpast with ⟨ht1', hpC⟩ | ⟨ht2, hpC⟩ <;> subst hpC
      · rw [t5LayerSelfAttention, hinput, attn_eval_supplied_self_nopast,
          exceptBindOk, exceptPureEq,
          truncKVT_first pa pa.wk _ t ht1' (by omega),
          truncKVT_first pa pa.wv _ t ht1' (by omega)]
        simp [hdecS]
      · rw [t5LayerSelfAttention, hinput,
          attn_eval_supplied_self_past pa e _ _ _ _ _ none true hdecS,
          exceptBindOk, exceptPureEq,
          truncKVT_step pa pa.wk _ t ht (by omega),
          truncKVT_step pa pa.wv _ t ht (by omega)]
        simp [hdecS]
    refine ⟨by simp [hdecS], ?_, _, hrunC, ?_, rfl, ?_⟩
    · simp only [List.length_zipWith, attnContext_length, hNx, hN]
      omega
    · simp only
      rw [hNx, cached_self_attn_core pa e (hidden.map (t5LayerNorm sq lnW ε)) N t hNx ht htN
        Bf hB1 hB2 hB3]
      rw [List.zipWith_cons_cons, List.zipWith_nil_right]
      rw [getD_zipWith_pos vadd hidden _ (t - 1) [] [] [] ht1h
        (by rw [attnContext_length]; omega)]
    · by_cases hrel : pa.hasRelativeAttentionBias = true
      · simp only [hrel, if_true]
        right
        exact ⟨Bf, rfl, rfl, hB1, hB2, hB3⟩
      · simp only [Bool.not_eq_true] at hrel
        simp only [hrel, Bool.false_eq_true, if_false]
        left
        exact ⟨rfl, rfl⟩

theorem t5LayerCross_cached_step
    (cp : AttnParams) (lnW : Vec) (ε : ℚ) (e sq : ℚ → ℚ)
    (N t : ℕ) (ht : 1 ≤ t) (htN : t ≤ N)
    (hidden : List Vec) (hN : hidden.length = N)
    (encs : List Vec)
    (hdecC : cp.isDecoder = true)
    (cbN cbC : Option BiasH) (hlink : crossBiasLink t N cbN cbC)
    (pastC : Option (KVT × KVT))
    (hpast : (t = 1 ∧ pastC = none) ∨ (2 ≤ t ∧ pastC = some
      (projHeads cp cp.wk encs, projHeads cp cp.wv encs)))
    (qlN : Option ℕ)
    (outN : LayerOutput)
    (hrunN : t5LayerCrossAttention cp lnW ε e sq hidden encs
        (some ((List.range N).map (fun _ => List.replicate encs.length (some 0)))) cbN none
        none true qlN = Except.ok outN) :
    outN.presentKeyValueState = some (projHeads cp cp.wk encs, projHeads cp cp.wv encs) ∧
    outN.hiddenStates.length = N ∧
    ∃ outC, t5LayerCrossAttention cp lnW ε e sq [hidden.getD (t - 1) []] encs
        (some [List.replicate encs.length (some 0)]) cbC none pastC true (some t)
      = Except.ok outC ∧
      outC.hiddenStates = [outN.hiddenStates.getD (t - 1) []] ∧
      outC.presentKeyValueState = some (projHeads cp cp.wk encs, projHeads cp cp.wv encs) ∧
      crossBiasLink t N outN.positionBias outC.positionBias := by
  have ht1 : t - 1 < N := by omega
  have ht1h : t - 1 < hidden.length := by omega
  have hNx : (hidden.map (t5LayerNorm sq lnW ε)).length = N := by
    rw [List.length_map]; exact hN
  have hinput : [hidden.getD (t - 1) []].map (t5LayerNorm sq lnW ε) =
      [(hidden.map (t5LayerNorm sq lnW ε)).getD (t - 1) []] := by
    rw [List.map_cons, List.map_nil, getD_map_pos _ _ _ _ [] ht1h]
  rcases hlink with ⟨hcbN, hcbC⟩ | ⟨Cf, hcbN, hcbC, hC1⟩
  · -- the module computes the cross bias itself (first layer of the stack)
    subst hcbN hcbC
    by_cases hrel : cp.hasRelativeAttentionBias = true
    · rw [t5LayerCrossAttention, attn_eval_compute_cross_nopast cp e _ encs _ qlN true hrel,
        exceptBindOk, exceptPureEq, Except.ok.injEq] at hrunN
      subst hrunN
      have hCfN : addMaskBias (computeBias cp (hidden.map (t5LayerNorm sq lnW ε)).length
          encs.length) ((List.range N).map (fun _ => List.replicate encs.length (some 0))) =
          (List.range cp.nHeads).map (fun h =>
            (List.range N).map (fun i => crossRow cp h i encs.length)) := by
        rw [hNx, crossBiasN_eq]
      have hrunC : t5LayerCrossAttention cp lnW ε e sq [hidden.getD (t - 1) []] encs
          (some [List.replicate encs.length (some 0)]) none none pastC true (some t)
          = Except.ok
          { hiddenStates := List.zipWith vadd [hidden.getD (t - 1) []]
              (attnContext cp.wo cp.dKv 1
                (attnWeights e
                  (projHeads cp cp.wq [(hidden.map (t5LayerNorm sq lnW ε)).getD (t - 1) []])
                  (projHeads cp cp.wk encs)
                  ((List.range cp.nHeads).map (fun h => [crossRow cp h (t - 1) encs.length])))
                (projHeads cp cp.wv encs))
            presentKeyValueState := some (projHeads cp cp.wk encs, projHeads cp cp.wv encs)
            weights := attnWeights e
              (projHeads cp cp.wq [(hidden.map (t5LayerNorm sq lnW ε)).getD (t - 1) []])
              (projHeads cp cp.wk encs)
              ((List.range cp.nHeads).map (fun h => [crossRow cp h (t - 1) encs.length]))
            positionBias := some
              ((List.range cp.nHeads).map (fun h => [crossRow cp h (t - 1) encs.length])) } := by
        rcases hpast with ⟨ht1', hpC⟩ | ⟨ht2, hpC⟩ <;> subst hpC
        · rw [t5LayerCrossAttention, hinput,
            attn_eval_compute_cross_nopast cp e _ encs _ (some t) true hrel,
            exceptBindOk, exceptPureEq]
          have hcb1 : computeBias cp ([(hidden.map (t5LayerNorm sq lnW ε)).getD (t - 1) []] :
              List Vec).length encs.length = lastQueryRow (computeBias cp t encs.length) := by
            rw [show ([(hidden.map (t5LayerNorm sq lnW ε)).getD (t - 1) []] :
                List Vec).length = 1 from rfl, ht1']
            exact (lastQueryRow_one cp encs.length).symm
          rw [hcb1, cached_cross_bias_eq cp t encs.length ht]
          simp [hdecC]
        · rw [t5LayerCrossAttention, hinput,
            attn_eval_compute_cross_past cp e _ encs _ _ _ t true hdecC hrel,
            exceptBindOk, exceptPureEq,
            cached_cross_bias_eq cp t encs.length ht]
          simp [hdecC]
      refine ⟨by simp [hdecC], ?_, _, hrunC, ?_, rfl, ?_⟩
      · simp only [List.length_zipWith, attnContext_length, hNx, hN]
        omega
      · simp only
        rw [hCfN, hNx, ← lastRowB_crossBiasN cp t N encs.length ht htN]
        rw [cached_cross_attn_core cp e (hidden.map (t5LayerNorm sq lnW ε)) encs N t hNx ht htN
          _ (crossBiasN_display_len cp N encs.length)]
        rw [List.zipWith_cons_cons, List.zipWith_nil_right]
        rw [getD_zipWith_pos vadd hidden _ (t - 1) [] [] [] ht1h
          (by rw [attnContext_length]; omega)]
      · simp only [hrel, if_true]
        right
        refine ⟨_, rfl, ?_, ?_⟩
        · rw [hCfN, lastRowB_crossBiasN cp t N encs.length ht htN]
        · rw [hCfN]; exact crossBiasN_display_len cp N encs.length
    · rw [t5LayerCrossAttention] at hrunN
      rw [show (attnForward cp e (hidden.map (t5LayerNorm sq lnW ε))
          (some ((List.range N).map (fun _ => List.replicate encs.length (some 0))))
          (some encs) none none none qlN true) = Except.error
            "No position_bias provided and no weights to compute position_bias" by
        simp [attnForward, hrel]] at hrunN
      simp at hrunN
  · -- the cross bias is supplied (all later layers)
    subst hcbN hcbC
    rw [t5LayerCrossAttention, attn_eval_supplied_cross_nopast,
      exceptBindOk, exceptPureEq, Except.ok.injEq] at hrunN
    subst hrunN
    have hrunC : t5LayerCrossAttention cp lnW ε e sq [hidden.getD (t - 1) []] encs
        (some [List.replicate encs.length (some 0)]) (some (lastRowB t Cf)) none pastC true
        (some t) = Except.ok
        { hiddenStates := List.zipWith vadd [hidden.getD (t - 1) []]
            (attnContext cp.wo cp.dKv 1
              (attnWeights e
                (projHeads cp cp.wq [(hidden.map (t5LayerNorm sq lnW ε)).getD (t - 1) []])
                (projHeads cp cp.wk encs) (lastRowB t Cf))
              (projHeads cp cp.wv encs))
          presentKeyValueState := some (projHeads cp cp.wk encs, projHeads cp cp.wv encs)
          weights := attnWeights e
            (projHeads cp cp.wq [(hidden.map (t5LayerNorm sq lnW ε)).getD (t - 1) []])
            (projHeads cp cp.wk encs) (lastRowB t Cf)
          positionBias := if cp.hasRelativeAttentionBias then some (lastRowB t Cf)
            else none } := by
      rcases hpast with ⟨ht1', hpC⟩ | ⟨ht2, hpC⟩ <;> subst hpC
      · rw [t5LayerCrossAttention, hinput, attn_eval_supplied_cross_nopast,
          exceptBindOk, exceptPureEq]
        simp [hdecC]
      · rw [t5LayerCrossAttention, hinput,
          attn_eval_supplied_cross_past cp e _ encs _ _ _ _ (some t) true hdecC,
          exceptBindOk, exceptPureEq]
        simp [hdecC]
    refine ⟨by simp [hdecC], ?_, _, hrunC, ?_, rfl, ?_⟩
    · simp only [List.length_zipWith, attnContext_length, hNx, hN]
      omega
    · simp only
      rw [hNx, cached_cross_attn_core cp e (hidden.map (t5LayerNorm sq lnW ε)) encs N t hNx
        ht htN Cf hC1]
      rw [List.zipWith_cons_cons, List.zipWith_nil_right]
      rw [getD_zipWith_pos vadd hidden _ (t - 1) [] [] [] ht1h
        (by rw [attnContext_length]; omega)]
    · by_cases hrel : cp.hasRelativeAttentionBias = true
      · simp only [hrel, if_true]
        right
        exact ⟨Cf, rfl, rfl, hC1⟩
      · simp only [Bool.not_eq_true] at hrel
        simp only [hrel, Bool.false_eq_true, if_false]
        left
        exact ⟨rfl, rfl⟩

theorem t5LayerFF_singleton (wi wo : Mat) (lnW : Vec) (ε : ℚ) (sq : ℚ → ℚ)
    (H : List Vec) (m : ℕ) (hm : m < H.length) :
    t5LayerFF wi wo lnW ε sq [H.getD m []] = [(t5LayerFF wi wo lnW ε sq H).getD m []] := by
  unfold t5LayerFF
  rw [List.map_cons, List.map_nil, List.zipWith_cons_cons, List.zipWith_nil_right]
  rw [getD_zipWith_pos vadd H _ m [] [] [] hm (by rw [List.length_map]; exact hm)]
  rw [getD_map_pos _ _ _ _ [] hm]

theorem t5LayerFF_length (wi wo : Mat) (lnW : Vec) (ε : ℚ) (sq : ℚ → ℚ)
    (H : List Vec) : (t5LayerFF wi wo lnW ε sq H).length = H.length := by
  unfold t5LayerFF
  rw [List.length_zipWith, List.length_map]
  omega

theorem truncPast_two (m : ℕ) (a b : KVT) :
    truncPast m (some [a, b]) = some [truncKVT m a, truncKVT m b] := rfl

theorem truncPast_four (m : ℕ) (a b c d : KVT) :
    truncPast m (some [a, b, c, d]) = some [truncKVT m a, truncKVT m b, c, d] := rfl

theorem t5Block_cached_step
    (bp : BlockParams) (ε : ℚ) (e sq : ℚ → ℚ)
    (N t : ℕ) (ht : 1 ≤ t) (htN : t ≤ N)
    (hidden : List Vec) (hN : hidden.length = N)
    (enc : Option (List Vec))
    (hdecB : bp.isDecoder = true) (hdecS : bp.selfAttn.isDecoder = true)
    (hh : 0 < bp.selfAttn.nHeads)
    (hdecC : ∀ cp, bp.crossAttn = some cp → cp.isDecoder = true)
    (pbN pbC cbN cbC : Option BiasH)
    (hlinkS : selfBiasLink t N pbN pbC)
    (hlinkC : crossBiasLink t N cbN cbC)
    (outN : BlockOutput)
    (hrunN : t5Block bp ε e sq hidden
        (some (getExtendedAttentionMask true (List.replicate N true) N)) pbN enc
        (enc.map (fun encs => (List.range N).map (fun _ => List.replicate encs.length (some 0))))
        cbN none none true = Except.ok outN)
    (pastC : Option (List KVT))
    (hpast : (t = 1 ∧ pastC = none) ∨
      (2 ≤ t ∧ pastC = truncPast (t - 1) outN.presentKeyValueState)) :
    outN.hiddenStates.length = N ∧
    (∃ sk sv rest, outN.presentKeyValueState = some (sk :: sv :: rest) ∧
      (sk.getD 0 []).length = N) ∧
    ∃ outC, t5Block bp ε e sq [hidden.getD (t - 1) []]
        (some (getExtendedAttentionMask true (List.replicate t true) 1)) pbC enc
        (enc.map (fun encs => [List.replicate encs.length (some 0)]))
        cbC none pastC true = Except.ok outC ∧
      outC.hiddenStates = [outN.hiddenStates.getD (t - 1) []] ∧
      outC.presentKeyValueState = truncPast t outN.presentKeyValueState ∧
      selfBiasLink t N outN.selfPositionBias outC.selfPositionBias ∧
      crossBiasLink t N outN.crossPositionBias outC.crossPositionBias := by
  have hKlen0 : ((projHeads bp.selfAttn bp.selfAttn.wk
      (hidden.map (t5LayerNorm sq bp.selfLn ε))).getD 0 []).length = N := by
    rw [projHeads_getD _ _ _ _ hh, List.length_map, List.length_map, hN]
  have hKtrunc0 : ((truncKVT t (projHeads bp.selfAttn bp.selfAttn.wk
      (hidden.map (t5LayerNorm sq bp.selfLn ε)))).getD 0 []).length = t := by
    unfold truncKVT
    rw [getD_map_pos _ _ _ _ [] (by rw [projHeads_length]; omega), List.length_take, hKlen0]
    omega
  simp only [t5Block, exceptPureEq, exceptBindOk] at hrunN
  rw [except_bind_eq_ok] at hrunN
  obtain ⟨selfOutN, hSrunN, hcontN⟩ := hrunN
  cases enc with
  | none =>
    rw [if_neg (by simp)] at hcontN
    simp only [exceptPureEq, Except.ok.injEq] at hcontN
    rcases hpast with ⟨ht1', hpC⟩ | ⟨ht2, hpC⟩
    · -- step 1, no cache yet
      obtain ⟨hpresS, hlenS, selfOutC, hSrunC, hhidS, hpresSC, hlinkS'⟩ :=
        t5LayerSelf_cached_step bp.selfAttn bp.selfLn ε e sq N t ht htN hidden hN hdecS hh
          pbN pbC hlinkS none (Or.inl ⟨ht1', rfl⟩) selfOutN hSrunN
      subst hcontN hpC
      rw [hpresS]
      refine ⟨by simp only [t5LayerFF_length]; exact hlenS, ⟨_, _, _, rfl, hKlen0⟩,
        { hiddenStates := t5LayerFF bp.ffWi bp.ffWo bp.ffLn ε sq selfOutC.hiddenStates
          presentKeyValueState := some
            [truncKVT t (projHeads bp.selfAttn bp.selfAttn.wk
              (hidden.map (t5LayerNorm sq bp.selfLn ε))),
             truncKVT t (projHeads bp.selfAttn bp.selfAttn.wv
              (hidden.map (t5LayerNorm sq bp.selfLn ε)))]
          selfWeights := selfOutC.weights
          selfPositionBias := selfOutC.positionBias
          crossPositionBias := none }, ?_, ?_, rfl, hlinkS', Or.inl ⟨rfl, rfl⟩⟩
      · simp only [t5Block, hdecB, exceptPureEq, exceptBindOk, List.getD_cons_zero,
            List.getD_cons_succ, List.length_cons, List.length_nil, Option.isNone_none,
            Option.isNone_some, Option.isSome_none, Option.isSome_some, Option.map_none',
            Option.map_some', Option.getD_some, Option.getD_none, not_true, ne_eq,
            eq_self_iff_true, not_false_iff, Bool.false_eq_true, Bool.true_eq_false, reduceIte, if_true, if_false, and_true,
            true_and, and_false, false_and, Nat.succ_ne_self,
            hSrunC, hpresSC]
      · simp only
        rw [hhidS, t5LayerFF_singleton _ _ _ _ _ _ _ (by rw [hlenS]; omega)]
    · -- step t ≥ 2, a 2-tuple cache
      obtain ⟨hpresS, hlenS, selfOutC, hSrunC, hhidS, hpresSC, hlinkS'⟩ :=
        t5LayerSelf_cached_step bp.selfAttn bp.selfLn ε e sq N t ht htN hidden hN hdecS hh
          pbN pbC hlinkS (some
            (truncKVT (t - 1) (projHeads bp.selfAttn bp.selfAttn.wk
              (hidden.map (t5LayerNorm sq bp.selfLn ε))),
             truncKVT (t - 1) (projHeads bp.selfAttn bp.selfAttn.wv
              (hidden.map (t5LayerNorm sq bp.selfLn ε)))))
          (Or.inr ⟨ht2, rfl⟩) selfOutN hSrunN
      subst hcontN
      rw [hpresS, truncPast_two] at hpC
      subst hpC
      rw [hpresS]
      refine ⟨by simp only [t5LayerFF_length]; exact hlenS, ⟨_, _, _, rfl, hKlen0⟩,
        { hiddenStates := t5LayerFF bp.ffWi bp.ffWo bp.ffLn ε sq selfOutC.hiddenStates
          presentKeyValueState := some
            [truncKVT t (projHeads bp.selfAttn bp.selfAttn.wk
              (hidden.map (t5LayerNorm sq bp.selfLn ε))),
             truncKVT t (projHeads bp.selfAttn bp.selfAttn.wv
              (hidden.map (t5LayerNorm sq bp.selfLn ε)))]
          selfWeights := selfOutC.weights
          selfPositionBias := selfOutC.positionBias
          crossPositionBias := none }, ?_, ?_, rfl, hlinkS', Or.inl ⟨rfl, rfl⟩⟩
      · simp only [t5Block, hdecB, exceptPureEq, exceptBindOk, List.getD_cons_zero,
            List.getD_cons_succ, List.length_cons, List.length_nil, Option.isNone_none,
            Option.isNone_some, Option.isSome_none, Option.isSome_some, Option.map_none',
            Option.map_some', Option.getD_some, Option.getD_none, not_true, ne_eq,
            eq_self_iff_true, not_false_iff, Bool.false_eq_true, Bool.true_eq_false, reduceIte, if_true, if_false, and_true,
            true_and, and_false, false_and, Nat.succ_ne_self,
            hSrunC, hpresSC]
      · simp only
        rw [hhidS, t5LayerFF_singleton _ _ _ _ _ _ _ (by rw [hlenS]; omega)]
  | some encs =>
    rw [if_pos (by simp [hdecB])] at hcontN
    cases hcp : bp.crossAttn with
    | none =>
      rw [hcp] at hcontN
      simp at hcontN
    | some cp =>
      rw [hcp] at hcontN
      simp only [exceptPureEq, exceptBindOk, Option.getD_some, Option.map_some'] at hcontN
      rw [except_bind_eq_ok] at hcontN
      obtain ⟨crossOutN, hCrunN, hcontN2⟩ := hcontN
      simp only [exceptPureEq, Except.ok.injEq] at hcontN2
      rcases hpast with ⟨ht1', hpC⟩ | ⟨ht2, hpC⟩
      · -- step 1 with encoder states
        obtain ⟨hpresS, hlenS, selfOutC, hSrunC, hhidS, hpresSC, hlinkS'⟩ :=
          t5LayerSelf_cached_step bp.selfAttn bp.selfLn ε e sq N t ht htN hidden hN hdecS hh
            pbN pbC hlinkS none (Or.inl ⟨ht1', rfl⟩) selfOutN hSrunN
        obtain ⟨hpresCN, hlenC, crossOutC, hCrunC, hhidC, hpresCC, hlinkC'⟩ :=
          t5LayerCross_cached_step cp bp.crossLn ε e sq N t ht htN selfOutN.hiddenStates
            hlenS encs (hdecC cp hcp) cbN cbC hlinkC none (Or.inl ⟨ht1', rfl⟩) _
            crossOutN hCrunN
        subst hcontN2 hpC
        rw [hpresS, hpresCN]
        refine ⟨by simp only [t5LayerFF_length]; exact hlenC, ⟨_, _, _, rfl, hKlen0⟩,
          { hiddenStates := t5LayerFF bp.ffWi bp.ffWo bp.ffLn ε sq crossOutC.hiddenStates
            presentKeyValueState := some
              [truncKVT t (projHeads bp.selfAttn bp.selfAttn.wk
                (hidden.map (t5LayerNorm sq bp.selfLn ε))),
               truncKVT t (projHeads bp.selfAttn bp.selfAttn.wv
                (hidden.map (t5LayerNorm sq bp.selfLn ε))),
               projHeads cp cp.wk encs, projHeads cp cp.wv encs]
            selfWeights := selfOutC.weights
            selfPositionBias := selfOutC.positionBias
            crossPositionBias := crossOutC.positionBias }, ?_, ?_, rfl, hlinkS', hlinkC'⟩
        · simp only [t5Block, hdecB, exceptPureEq, exceptBindOk, List.getD_cons_zero,
              List.getD_cons_succ, List.length_cons, List.length_nil, Option.isNone_none,
              Option.isNone_some, Option.isSome_none, Option.isSome_some, Option.map_none',
              Option.map_some', Option.getD_some, Option.getD_none, not_true, ne_eq,
              eq_self_iff_true, not_false_iff, Bool.false_eq_true, Bool.true_eq_false, reduceIte, if_true, if_false, and_true,
              true_and, and_false, false_and, Nat.succ_ne_self,
              hSrunC, hpresSC, hKtrunc0, hcp, hhidS, hCrunC, hpresCC]
        · simp only
          rw [hhidC, t5LayerFF_singleton _ _ _ _ _ _ _ (by rw [hlenC]; omega)]
      · -- step t ≥ 2 with a 4-tuple cache
        obtain ⟨hpresS, hlenS, selfOutC, hSrunC, hhidS, hpresSC, hlinkS'⟩ :=
          t5LayerSelf_cached_step bp.selfAttn bp.selfLn ε e sq N t ht htN hidden hN hdecS hh
            pbN pbC hlinkS (some
              (truncKVT (t - 1) (projHeads bp.selfAttn bp.selfAttn.wk
                (hidden.map (t5LayerNorm sq bp.selfLn ε))),
               truncKVT (t - 1) (projHeads bp.selfAttn bp.selfAttn.wv
                (hidden.map (t5LayerNorm sq bp.selfLn ε)))))
            (Or.inr ⟨ht2, rfl⟩) selfOutN hSrunN
        obtain ⟨hpresCN, hlenC, crossOutC, hCrunC, hhidC, hpresCC, hlinkC'⟩ :=
          t5LayerCross_cached_step cp bp.crossLn ε e sq N t ht htN selfOutN.hiddenStates
            hlenS encs (hdecC cp hcp) cbN cbC hlinkC
            (some (projHeads cp cp.wk encs, projHeads cp cp.wv encs))
            (Or.inr ⟨ht2, rfl⟩) _ crossOutN hCrunN
        subst hcontN2
        rw [hpresS, hpresCN] at hpC
        rw [truncPast_four] at hpC
        subst hpC
        rw [hpresS, hpresCN]
        refine ⟨by simp only [t5LayerFF_length]; exact hlenC, ⟨_, _, _, rfl, hKlen0⟩,
          { hiddenStates := t5LayerFF bp.ffWi bp.ffWo bp.ffLn ε sq crossOutC.hiddenStates
            presentKeyValueState := some
              [truncKVT t (projHeads bp.selfAttn bp.selfAttn.wk
                (hidden.map (t5LayerNorm sq bp.selfLn ε))),
               truncKVT t (projHeads bp.selfAttn bp.selfAttn.wv
                (hidden.map (t5LayerNorm sq bp.selfLn ε))),
               projHeads cp cp.wk encs, projHeads cp cp.wv encs]
            selfWeights := selfOutC.weights
            selfPositionBias := selfOutC.positionBias
            crossPositionBias := crossOutC.positionBias }, ?_, ?_, rfl, hlinkS', hlinkC'⟩
        · simp only [t5Block, hdecB, exceptPureEq, exceptBindOk, List.getD_cons_zero,
              List.getD_cons_succ, List.length_cons, List.length_nil, Option.isNone_none,
              Option.isNone_some, Option.isSome_none, Option.isSome_some, Option.map_none',
              Option.map_some', Option.getD_some, Option.getD_none, not_true, ne_eq,
              eq_self_iff_true, not_false_iff, Bool.false_eq_true, Bool.true_eq_false, reduceIte, if_true, if_false, and_true,
              true_and, and_false, false_and, Nat.succ_ne_self,
              hSrunC, hpresSC, hKtrunc0, hcp, hhidS, hCrunC, hpresCC]
        · simp only
          rw [hhidC, t5LayerFF_singleton _ _ _ _ _ _ _ (by rw [hlenC]; omega)]

/-- Well-formedness of a decoder block for the cache-equivalence argument. -/
def wfDecoderBlock (bp : BlockParams) : Prop :=
  bp.isDecoder = true ∧ bp.selfAttn.isDecoder = true ∧
    0 < bp.selfAttn.nHeads ∧ ∀ cp, bp.crossAttn = some cp → cp.isDecoder = true

/-- The first-layer bias bookkeeping of the stack's layer loop, factored out. -/
def threadSelfBias (first : Bool) (sb pb : Option BiasH) : Except String (Option BiasH) :=
  if first then
    match sb with
    | some b => Except.ok (some b)
    | none => Except.error "tuple index out of range"
  else Except.ok pb

/-- The cross-attention analogue of `threadSelfBias`. -/
def threadCrossBias (c : Prop) [Decidable c] (cb edb : Option BiasH) :
    Except String (Option BiasH) :=
  if c then
    match cb with
    | some b => Except.ok (some b)
    | none => Except.error "tuple index out of range"
  else Except.ok edb

theorem runBlocks_cons_eq (ε : ℚ) (e sq : ℚ → ℚ) (m : List (List MQ))
    (enc : Option (List Vec)) (em : Option (List (List MQ))) (uc : Bool)
    (first : Bool) (bp : BlockParams) (past : Option (List KVT))
    (rest : List (BlockParams × Option (List KVT))) (hidden : List Vec)
    (pb edb : Option BiasH) :
    runBlocks true ε e sq m enc em uc first ((bp, past) :: rest) hidden pb edb =
      (t5Block bp ε e sq hidden (some m) pb enc em edb none past uc >>= fun out =>
       threadSelfBias first out.selfPositionBias pb >>= fun pb' =>
       threadCrossBias (first ∧ true ∧ enc.isSome) out.crossPositionBias edb >>= fun edb' =>
       runBlocks true ε e sq m enc em uc false rest out.hiddenStates pb' edb' >>= fun r =>
       pure (r.1, out.presentKeyValueState :: r.2.1, out.selfWeights :: r.2.2)) := by
  cases hB : t5Block bp ε e sq hidden (some m) pb enc em edb none past uc with
  | error msg => simp [runBlocks, hB]
  | ok out =>
    simp only [runBlocks, hB, exceptBindOk]
    unfold threadSelfBias threadCrossBias
    cases first
    · simp
    · cases hsb : out.selfPositionBias with
      | none => simp
      | some b =>
        simp only [if_true, exceptPureEq, exceptBindOk]
        by_cases hc : enc.isSome = true
        · rw [if_pos (show True ∧ True ∧ enc.isSome = true from ⟨trivial, trivial, hc⟩),
            if_pos (show True ∧ True ∧ enc.isSome = true from ⟨trivial, trivial, hc⟩)]
          cases hcb : out.crossPositionBias with
          | none => simp
          | some c => simp
        · rw [if_neg (show ¬ (True ∧ True ∧ enc.isSome = true) from fun h => hc h.2.2),
            if_neg (show ¬ (True ∧ True ∧ enc.isSome = true) from fun h => hc h.2.2)]
          simp

theorem threadSelfBias_spec (first : Bool) (sb pb pb' : Option BiasH)
    (h : threadSelfBias first sb pb = Except.ok pb') :
    (first = true ∧ ∃ b, sb = some b ∧ pb' = some b) ∨ (first = false ∧ pb' = pb) := by
  unfold threadSelfBias at h
  cases first
  · simp only [Bool.false_eq_true, if_false, Except.ok.injEq] at h
    exact Or.inr ⟨rfl, h.symm⟩
  · simp only [if_true] at h
    cases hsb : sb with
    | none => rw [hsb] at h; exact absurd h (by simp)
    | some b =>
      rw [hsb] at h
      simp only [Except.ok.injEq] at h
      exact Or.inl ⟨rfl, b, rfl, h.symm⟩

theorem threadCrossBias_spec (c : Prop) [Decidable c] (cb edb edb' : Option BiasH)
    (h : threadCrossBias c cb edb = Except.ok edb') :
    (c ∧ ∃ b, cb = some b ∧ edb' = some b) ∨ (¬ c ∧ edb' = edb) := by
  unfold threadCrossBias at h
  by_cases hc : c
  · rw [if_pos hc] at h
    cases hcb : cb with
    | none => rw [hcb] at h; exact absurd h (by simp)
    | some b =>
      rw [hcb] at h
      simp only [Except.ok.injEq] at h
      exact Or.inl ⟨hc, b, rfl, h.symm⟩
  · rw [if_neg hc] at h
    simp only [Except.ok.injEq] at h
    exact Or.inr ⟨hc, h.symm⟩

theorem runBlocks_cached_step
    (ε : ℚ) (e sq : ℚ → ℚ) (enc : Option (List Vec))
    (N t : ℕ) (ht : 1 ≤ t) (htN : t ≤ N) :
    ∀ (bs : List BlockParams) (first : Bool) (hidden : List Vec)
      (B C Bc Cc : Option BiasH) (pasts : List (Option (List KVT)))
      (resN : List Vec × List (Option (List KVT)) × List (List (List (List ℚ)))),
      hidden.length = N →
      (∀ bp ∈ bs, wfDecoderBlock bp) →
      runBlocks true ε e sq (getExtendedAttentionMask true (List.replicate N true) N)
        enc (enc.map (fun encs =>
          (List.range N).map (fun _ => List.replicate encs.length (some 0))))
        true first (bs.zip (List.replicate bs.length none)) hidden B C = Except.ok resN →
      selfBiasLink t N B Bc →
      crossBiasLink t N C Cc →
      ((t = 1 ∧ pasts = List.replicate bs.length none) ∨
        (2 ≤ t ∧ pasts = resN.2.1.map (truncPast (t - 1)))) →
      resN.1.length = N ∧
      resN.2.1.length = bs.length ∧
      (∀ p ∈ resN.2.1, ∃ sk sv rest, p = some (sk :: sv :: rest) ∧
        (sk.getD 0 []).length = N) ∧
      ∃ resC, runBlocks true ε e sq (getExtendedAttentionMask true (List.replicate t true) 1)
          enc (enc.map (fun encs => [List.replicate encs.length (some 0)]))
          true first (bs.zip pasts) [hidden.getD (t - 1) []] Bc Cc = Except.ok resC ∧
        resC.1 = [resN.1.getD (t - 1) []] ∧
        resC.2.1 = resN.2.1.map (truncPast t) := by
  intro bs
  induction bs with
  | nil =>
    intro first hidden B C Bc Cc pasts resN hlen hwf hrunN hlinkS hlinkC hpasts
    simp only [List.zip_nil_left, runBlocks, exceptPureEq, Except.ok.injEq] at hrunN
    subst hrunN
    refine ⟨hlen, rfl, by simp, (⟨[hidden.getD (t - 1) []], [], []⟩ :
      List Vec × List (Option (List KVT)) × List (List (List (List ℚ)))), ?_, rfl, rfl⟩
    simp [runBlocks]
  | cons bp bs' ih =>
    intro first hidden B C Bc Cc pasts resN hlen hwf hrunN hlinkS hlinkC hpasts
    obtain ⟨hdecB, hdecS, hh, hdecC⟩ := hwf bp (List.mem_cons_self _ _)
    have hwf' : ∀ b ∈ bs', wfDecoderBlock b := fun b hb => hwf b (List.mem_cons_of_mem _ hb)
    rw [List.length_cons, List.replicate_succ, List.zip_cons_cons, runBlocks_cons_eq] at hrunN
    rw [except_bind_eq_ok] at hrunN
    obtain ⟨out₀, hrun0, hrunN⟩ := hrunN
    rw [except_bind_eq_ok] at hrunN
    obtain ⟨B', hthreadB, hrunN⟩ := hrunN
    rw [except_bind_eq_ok] at hrunN
    obtain ⟨C', hthreadC, hrunN⟩ := hrunN
    rw [except_bind_eq_ok] at hrunN
    obtain ⟨res', hrunrest, hfin⟩ := hrunN
    simp only [exceptPureEq, Except.ok.injEq] at hfin
    subst hfin
    have hsplit : ∃ p₀ ps', pasts = p₀ :: ps' ∧
        ((t = 1 ∧ p₀ = none) ∨ (2 ≤ t ∧ p₀ = truncPast (t - 1) out₀.presentKeyValueState)) ∧
        ((t = 1 ∧ ps' = List.replicate bs'.length none) ∨
          (2 ≤ t ∧ ps' = res'.2.1.map (truncPast (t - 1)))) := by
      rcases hpasts with ⟨ht1', hp⟩ | ⟨ht2, hp⟩
      · subst hp
        exact ⟨none, List.replicate bs'.length none,
          by rw [List.length_cons, List.replicate_succ], Or.inl ⟨ht1', rfl⟩,
          Or.inl ⟨ht1', rfl⟩⟩
      · subst hp
        exact ⟨truncPast (t - 1) out₀.presentKeyValueState,
          res'.2.1.map (truncPast (t - 1)), by simp, Or.inr ⟨ht2, rfl⟩, Or.inr ⟨ht2, rfl⟩⟩
    obtain ⟨p₀, ps', rfl, hp₀, hps'⟩ := hsplit
    obtain ⟨hlen0, hpres0, outC, hrunC0, hhid0, hpresC0, hlinkS0, hlinkC0⟩ :=
      t5Block_cached_step bp ε e sq N t ht htN hidden hlen enc hdecB hdecS hh hdecC
        B Bc C Cc hlinkS hlinkC out₀ hrun0 p₀ hp₀
    have hthreadPack : ∃ BcN CcN,
        threadSelfBias first outC.selfPositionBias Bc = Except.ok BcN ∧
        threadCrossBias (first ∧ true ∧ enc.isSome) outC.crossPositionBias Cc
          = Except.ok CcN ∧
        selfBiasLink t N B' BcN ∧ crossBiasLink t N C' CcN := by
      have hself : ∃ BcN, threadSelfBias first outC.selfPositionBias Bc = Except.ok BcN ∧
          selfBiasLink t N B' BcN := by
        rcases threadSelfBias_spec first out₀.selfPositionBias B B' hthreadB with
          ⟨hfirst, b, hsb, hB'⟩ | ⟨hfirst, hB'⟩
        · rw [hsb] at hlinkS0
          rcases hlinkS0 with ⟨hcontra, -⟩ | ⟨Bf, hBf, hBfc, h1, h2, h3⟩
          · exact absurd hcontra (by simp)
          · obtain rfl : b = Bf := by injection hBf
            refine ⟨some (trimB t b), ?_, ?_⟩
            · unfold threadSelfBias
              rw [hfirst, if_pos rfl, hBfc]
            · rw [hB']
              exact Or.inr ⟨b, rfl, rfl, h1, h2, h3⟩
        · refine ⟨Bc, ?_, ?_⟩
          · unfold threadSelfBias
            rw [hfirst]
            simp
          · rw [hB']
            exact hlinkS
      have hcross : ∃ CcN, threadCrossBias (first ∧ true ∧ enc.isSome)
          outC.crossPositionBias Cc = Except.ok CcN ∧ crossBiasLink t N C' CcN := by
        rcases threadCrossBias_spec _ out₀.crossPositionBias C C' hthreadC with
          ⟨hcond, cb, hcb, hC'⟩ | ⟨hcond, hC'⟩
        · rw [hcb] at hlinkC0
          rcases hlinkC0 with ⟨hcontra, -⟩ | ⟨Cf, hCf, hCfc, h1⟩
          · exact absurd hcontra (by simp)
          · obtain rfl : cb = Cf := by injection hCf
            refine ⟨some (lastRowB t cb), ?_, ?_⟩
            · unfold threadCrossBias
              rw [if_pos hcond, hCfc]
            · rw [hC']
              exact Or.inr ⟨cb, rfl, rfl, h1⟩
        · refine ⟨Cc, ?_, ?_⟩
          · unfold threadCrossBias
            rw [if_neg hcond]
          · rw [hC']
            exact hlinkC
      obtain ⟨BcN, h1, h2⟩ := hself
      obtain ⟨CcN, h3, h4⟩ := hcross
      exact ⟨BcN, CcN, h1, h3, h2, h4⟩
    obtain ⟨BcN, CcN, hthreadBC, hthreadCC, hlinkB', hlinkC'⟩ := hthreadPack
    obtain ⟨hlenrest, hplenrest, hpresrest, resC', hrunrestC, hresC1, hresC2⟩ :=
      ih false out₀.hiddenStates B' C' BcN CcN ps' res' hlen0 hwf' hrunrest hlinkB'
        hlinkC' hps'
    refine ⟨hlenrest, by simp [hplenrest], ?_, (⟨resC'.1, outC.presentKeyValueState :: resC'.2.1,
      outC.selfWeights :: resC'.2.2⟩ :
      List Vec × List (Option (List KVT)) × List (List (List (List ℚ)))), ?_, ?_, ?_⟩
    · intro p hp
      simp only [List.mem_cons] at hp
      rcases hp with rfl | hp
      · exact hpres0
      · exact hpresrest p hp
    · rw [List.zip_cons_cons, runBlocks_cons_eq, hrunC0, exceptBindOk, hthreadBC,
        exceptBindOk, hthreadCC, exceptBindOk, hhid0, hrunrestC, exceptBindOk]
      rfl
    · exact hresC1
    · simp only [List.map_cons, hpresC0, hresC2]

/-! ### `use_cache` only affects the returned cache, never the hidden states -/

theorem t5LayerSelf_uc (pa : AttnParams) (lnW : Vec) (ε : ℚ) (e sq : ℚ → ℚ)
    (hidden : List Vec) (m : List (List MQ)) (pb : Option BiasH) (out₀ : LayerOutput)
    (h : t5LayerSelfAttention pa lnW ε e sq hidden (some m) pb none none false
      = Except.ok out₀) :
    ∃ out₁, t5LayerSelfAttention pa lnW ε e sq hidden (some m) pb none none true
      = Except.ok out₁ ∧ out₁.hiddenStates = out₀.hiddenStates ∧
      out₁.positionBias = out₀.positionBias := by
  cases pb with
  | some pb =>
    rw [t5LayerSelfAttention, attn_eval_supplied_self_nopast, exceptBindOk, exceptPureEq,
      Except.ok.injEq] at h
    subst h
    rw [t5LayerSelfAttention, attn_eval_supplied_self_nopast, exceptBindOk, exceptPureEq]
    exact ⟨_, rfl, rfl, rfl⟩
  | none =>
    by_cases hrel : pa.hasRelativeAttentionBias = true
    · rw [t5LayerSelfAttention, attn_eval_compute_self_nopast pa e _ _ none false hrel,
        exceptBindOk, exceptPureEq, Except.ok.injEq] at h
      subst h
      rw [t5LayerSelfAttention, attn_eval_compute_self_nopast pa e _ _ none true hrel,
        exceptBindOk, exceptPureEq]
      exact ⟨_, rfl, rfl, rfl⟩
    · rw [t5LayerSelfAttention] at h
      rw [show (attnForward pa e (hidden.map (t5LayerNorm sq lnW ε)) (some m) none none
          none none none false) = Except.error
            "No position_bias provided and no weights to compute position_bias" by
        simp [attnForward, hrel]] at h
      simp at h

theorem t5LayerCross_uc (pa : AttnParams) (lnW : Vec) (ε : ℚ) (e sq : ℚ → ℚ)
    (hidden kvs : List Vec) (m : List (List MQ)) (pb : Option BiasH)
    (ql ql₁ : Option ℕ) (out₀ : LayerOutput)
    (h : t5LayerCrossAttention pa lnW ε e sq hidden kvs (some m) pb none none false ql
      = Except.ok out₀) :
    ∃ out₁, t5LayerCrossAttention pa lnW ε e sq hidden kvs (some m) pb none none true ql₁
      = Except.ok out₁ ∧ out₁.hiddenStates = out₀.hiddenStates ∧
      out₁.positionBias = out₀.positionBias := by
  cases pb with
  | some pb =>
    rw [t5LayerCrossAttention, attn_eval_supplied_cross_nopast, exceptBindOk, exceptPureEq,
      Except.ok.injEq] at h
    subst h
    rw [t5LayerCrossAttention, attn_eval_supplied_cross_nopast, exceptBindOk, exceptPureEq]
    exact ⟨_, rfl, rfl, rfl⟩
  | none =>
    by_cases hrel : pa.hasRelativeAttentionBias = true
    · rw [t5LayerCrossAttention, attn_eval_compute_cross_nopast pa e _ kvs _ ql false hrel,
        exceptBindOk, exceptPureEq, Except.ok.injEq] at h
      subst h
      rw [t5LayerCrossAttention, attn_eval_compute_cross_nopast pa e _ kvs _ ql₁ true hrel,
        exceptBindOk, exceptPureEq]
      exact ⟨_, rfl, rfl, rfl⟩
    · rw [t5LayerCrossAttention] at h
      rw [show (attnForward pa e (hidden.map (t5LayerNorm sq lnW ε)) (some m) (some kvs)
          none none none ql false) = Except.error
            "No position_bias provided and no weights to compute position_bias" by
        simp [attnForward, hrel]] at h
      simp at h

theorem t5Block_uc (bp : BlockParams) (ε : ℚ) (e sq : ℚ → ℚ)
    (hidden : List Vec) (m : List (List MQ)) (enc : Option (List Vec))
    (em : Option (List (List MQ))) (pb edb : Option BiasH) (out₀ : BlockOutput)
    (hem : enc.isSome = true → ∃ m', em = some m')
    (h : t5Block bp ε e sq hidden (some m) pb enc em edb none none false
      = Except.ok out₀) :
    ∃ out₁, t5Block bp ε e sq hidden (some m) pb enc em edb none none true
      = Except.ok out₁ ∧ out₁.hiddenStates = out₀.hiddenStates ∧
      out₁.selfPositionBias = out₀.selfPositionBias ∧
      out₁.crossPositionBias = out₀.crossPositionBias := by
  simp only [t5Block, exceptPureEq, exceptBindOk] at h
  rw [except_bind_eq_ok] at h
  obtain ⟨selfOut₀, hS0, hcont⟩ := h
  obtain ⟨selfOut₁, hS1, hhid1, hpos1⟩ := t5LayerSelf_uc bp.selfAttn bp.selfLn ε e sq
    hidden m pb selfOut₀ hS0
  by_cases hbranch : bp.isDecoder = true ∧ enc.isSome = true
  · rw [if_pos hbranch] at hcont
    obtain ⟨m', hm'⟩ := hem hbranch.2
    subst hm'
    cases hcp : bp.crossAttn with
    | none =>
      rw [hcp] at hcont
      simp at hcont
    | some cp =>
      rw [hcp] at hcont
      simp only [exceptPureEq, exceptBindOk] at hcont
      rw [except_bind_eq_ok] at hcont
      obtain ⟨crossOut₀, hC0, hcont2⟩ := hcont
      simp only [exceptPureEq, Except.ok.injEq] at hcont2
      subst hcont2
      obtain ⟨crossOut₁, hC1, hchid1, hcpos1⟩ := t5LayerCross_uc cp bp.crossLn ε e sq
        selfOut₀.hiddenStates (enc.getD []) m' edb _ _ crossOut₀ hC0
      refine ⟨{
          hiddenStates := t5LayerFF bp.ffWi bp.ffWo bp.ffLn ε sq crossOut₁.hiddenStates
          presentKeyValueState :=
            (match selfOut₁.presentKeyValueState, crossOut₁.presentKeyValueState with
              | some (sk, sv), some (ck, cv) => some [sk, sv, ck, cv]
              | some (sk, sv), none => some [sk, sv]
              | none, _ => none)
          selfWeights := selfOut₁.weights
          selfPositionBias := selfOut₁.positionBias
          crossPositionBias := crossOut₁.positionBias }, ?_, ?_, ?_, ?_⟩
      · simp only [t5Block, exceptPureEq, exceptBindOk]
        rw [hS1, exceptBindOk, if_pos hbranch, hcp]
        simp only [exceptPureEq, exceptBindOk]
        rw [hhid1, hC1, exceptBindOk]
      · simp only [hchid1]
      · simp only [hpos1]
      · simp only [hcpos1]
  · rw [if_neg hbranch] at hcont
    simp only [exceptPureEq, Except.ok.injEq] at hcont
    subst hcont
    refine ⟨{
        hiddenStates := t5LayerFF bp.ffWi bp.ffWo bp.ffLn ε sq selfOut₁.hiddenStates
        presentKeyValueState :=
          (match selfOut₁.presentKeyValueState with
            | some (sk, sv) => some [sk, sv]
            | none => none)
        selfWeights := selfOut₁.weights
        selfPositionBias := selfOut₁.positionBias
        crossPositionBias := none }, ?_, ?_, ?_, rfl⟩
    · simp only [t5Block, exceptPureEq, exceptBindOk]
      rw [hS1, exceptBindOk, if_neg hbranch]
    · simp only [hhid1]
    · simp only [hpos1]

theorem runBlocks_uc (ε : ℚ) (e sq : ℚ → ℚ) (m : List (List MQ))
    (enc : Option (List Vec)) (em : Option (List (List MQ)))
    (hem : enc.isSome = true → ∃ m', em = some m') :
    ∀ (bs : List BlockParams) (first : Bool) (hidden : List Vec)
      (B C : Option BiasH)
      (res₀ : List Vec × List (Option (List KVT)) × List (List (List (List ℚ)))),
      runBlocks true ε e sq m enc em false first (bs.zip (List.replicate bs.length none))
        hidden B C = Except.ok res₀ →
      ∃ res₁, runBlocks true ε e sq m enc em true first
          (bs.zip (List.replicate bs.length none)) hidden B C = Except.ok res₁ ∧
        res₁.1 = res₀.1 := by
  intro bs
  induction bs with
  | nil =>
    intro first hidden B C res₀ h
    simp only [List.zip_nil_left, runBlocks, exceptPureEq, Except.ok.injEq] at h
    subst h
    exact ⟨_, rfl, rfl⟩
  | cons bp bs' ih =>
    intro first hidden B C res₀ h
    rw [List.length_cons, List.replicate_succ, List.zip_cons_cons, runBlocks_cons_eq] at h
    rw [except_bind_eq_ok] at h
    obtain ⟨out₀, hrun0, h⟩ := h
    rw [except_bind_eq_ok] at h
    obtain ⟨B', hthreadB, h⟩ := h
    rw [except_bind_eq_ok] at h
    obtain ⟨C', hthreadC, h⟩ := h
    rw [except_bind_eq_ok] at h
    obtain ⟨res', hrunrest, hfin⟩ := h
    simp only [exceptPureEq, Except.ok.injEq] at hfin
    subst hfin
    obtain ⟨out₁, hrun1, hhid1, hspos1, hcpos1⟩ :=
      t5Block_uc bp ε e sq hidden m enc em B C out₀ hem hrun0
    obtain ⟨res₁', hrunrest1, hres1⟩ := ih false out₀.hiddenStates B' C' res' hrunrest
    refine ⟨(res₁'.1, out₁.presentKeyValueState :: res₁'.2.1,
      out₁.selfWeights :: res₁'.2.2), ?_, hres1⟩
    rw [List.length_cons, List.replicate_succ, List.zip_cons_cons, runBlocks_cons_eq,
      hrun1, exceptBindOk]
    rw [show threadSelfBias first out₁.selfPositionBias B = Except.ok B' by
      rw [hspos1]; exact hthreadB, exceptBindOk]
    rw [show threadCrossBias (first ∧ true ∧ enc.isSome) out₁.crossPositionBias C
        = Except.ok C' by rw [hcpos1]; exact hthreadC, exceptBindOk]
    rw [hhid1, hrunrest1, exceptBindOk]
    rfl

theorem encExtMask_one (enc : Option (List Vec)) :
    (if (if enc.isSome = true then some (List.replicate (enc.getD []).length true)
          else none).isSome = true then
      some (invertAttentionMask
        ((if enc.isSome = true then some (List.replicate (enc.getD []).length true)
          else none).getD []) 1)
    else none)
    = enc.map (fun encs => [List.replicate encs.length (some 0)]) := by
  cases enc <;> simp [invertAttentionMask_ones]

theorem truncPast_cons (m : ℕ) (sk sv : KVT) (rest : List KVT) :
    truncPast m (some (sk :: sv :: rest)) =
      some (truncKVT m sk :: truncKVT m sv :: rest) := by
  simp [truncPast]

theorem t5Stack_cached_step (sp : StackParams) (e sq : ℚ → ℚ) (xs : List Vec)
    (enc : Option (List Vec)) (N t : ℕ) (ht : 1 ≤ t) (htN : t ≤ N)
    (hxs : xs.length = N)
    (hdec : sp.isDecoder = true)
    (hwf : ∀ bp ∈ sp.blocks, wfDecoderBlock bp)
    (res₁ : List Vec × List (Option (List KVT)) × List (List (List (List ℚ))))
    (hrunN : runBlocks true sp.eps e sq
      (getExtendedAttentionMask true (List.replicate N true) N)
      enc (enc.map (fun encs =>
        (List.range N).map (fun _ => List.replicate encs.length (some 0))))
      true true (sp.blocks.zip (List.replicate sp.blocks.length none)) xs none none
      = Except.ok res₁)
    (pasts : Option (List (Option (List KVT))))
    (hpasts : (t = 1 ∧ pasts = none) ∨
      (2 ≤ t ∧ pasts = some (res₁.2.1.map (truncPast (t - 1))))) :
    ∃ stepOut, t5Stack sp e sq [xs.getD (t - 1) []] none enc none pasts true
      = Except.ok stepOut ∧
      stepOut.hiddenStates = [(res₁.1.map (t5LayerNorm sq sp.finalLn sp.eps)).getD (t - 1) []] ∧
      stepOut.presentKeyValueStates = res₁.2.1.map (truncPast t) := by
  have ht1N : t - 1 < N := by omega
  obtain ⟨hlen1, hplen1, hpres1, resC, hrunC, hresC1, hresC2⟩ :=
    runBlocks_cached_step sp.eps e sq enc N t ht htN sp.blocks true xs none none none none
      (pasts.getD (List.replicate sp.blocks.length none)) res₁ hxs hwf hrunN
      (Or.inl ⟨rfl, rfl⟩) (Or.inl ⟨rfl, rfl⟩)
      (by
        rcases hpasts with ⟨ht1', hp⟩ | ⟨ht2, hp⟩
        · subst hp; exact Or.inl ⟨ht1', rfl⟩
        · subst hp; exact Or.inr ⟨ht2, rfl⟩)
  refine ⟨{ hiddenStates := resC.1.map (t5LayerNorm sq sp.finalLn sp.eps)
            presentKeyValueStates := resC.2.1
            selfAttnWeights := resC.2.2 }, ?_, ?_, ?_⟩
  · -- evaluate the cached stack call down to the layer loop
    rcases hpasts with ⟨ht1', hp⟩ | ⟨ht2, hp⟩
    · subst hp
      subst ht1'
      simp only [Option.getD_none] at hrunC
      simp only [t5Stack, exceptPureEq, exceptBindOk, List.length_cons, List.length_nil,
        Option.getD_none, Nat.zero_add, hdec, Option.isNone_none, true_and, and_true,
        not_true, Bool.true_eq_false, Bool.false_eq_true, if_false, and_false, false_and]
      rw [encExtMask_one, hrunC, exceptBindOk]
    · subst hp
      cases hbs : sp.blocks with
      | nil =>
        rw [hbs] at hrunC
        simp only [List.zip_nil_left, runBlocks, exceptPureEq, Except.ok.injEq] at hrunC
        simp only [t5Stack, exceptPureEq, exceptBindOk, List.length_cons, List.length_nil,
          Option.getD_some, Option.getD_none, Nat.zero_add, hdec, Option.isNone_none, true_and, and_true,
          not_true, Bool.true_eq_false, Bool.false_eq_true, if_false, and_false,
          false_and, ne_eq, hbs, List.zip_nil_left]
        simp only [runBlocks, exceptPureEq, exceptBindOk, ← hrunC]
      | cons b₀ bs' =>
        have h0 : 0 < res₁.2.1.length := by rw [hplen1, hbs]; simp
        have hmem : res₁.2.1.getD 0 none ∈ res₁.2.1 := by
          rw [List.getD_eq_getElem _ _ h0]
          exact List.getElem_mem _
        obtain ⟨sk, sv, rest, hp0, hsk⟩ := hpres1 _ hmem
        have hsknz : 0 < sk.length := by
          rcases Nat.eq_zero_or_pos sk.length with hz | hpos
        
          · rw [List.length_eq_zero] at hz
            rw [hz] at hsk
            simp at hsk
            omega
          · exact hpos
        have hmask : (((((res₁.2.1.map (truncPast (t - 1))).getD 0 none).getD []).getD 0
            []).getD 0 []).length + 1 = t := by
          rw [getD_map_pos _ _ _ _ none h0, hp0, truncPast_cons, Option.getD_some,
            List.getD_cons_zero]
          unfold truncKVT
          rw [getD_map_pos _ _ _ _ [] hsknz, List.length_take, hsk]
          omega
        simp only [Option.getD_some] at hrunC
        simp only [t5Stack, exceptPureEq, exceptBindOk, List.length_cons, List.length_nil,
          Option.getD_some, Option.getD_none, Nat.zero_add, hdec, Option.isNone_none, true_and, and_true,
          not_true, Bool.true_eq_false, Bool.false_eq_true, if_false, and_false,
          false_and, ne_eq]
        rw [hmask, encExtMask_one, hrunC, exceptBindOk]
  · simp only
    rw [hresC1, List.map_cons, List.map_nil, getD_map_pos _ _ _ _ [] (by omega)]
  · exact hresC2
theorem decodeLoop_cons (sp : StackParams) (e sq : ℚ → ℚ)
    (enc : Option (List Vec)) (past : Option (List (Option (List KVT))))
    (x : Vec) (rest : List Vec) :
    decodeLoop sp e sq enc past (x :: rest) =
      (do
        let out ← t5Stack sp e sq [x] none enc none past true
        match rest with
        | [] => pure out.hiddenStates
        | _ => decodeLoop sp e sq enc (some out.presentKeyValueStates) rest) := rfl

theorem decodeLoop_cached (sp : StackParams) (e sq : ℚ → ℚ) (xs : List Vec)
    (enc : Option (List Vec)) (N : ℕ) (hxs : xs.length = N)
    (hdec : sp.isDecoder = true)
    (hwf : ∀ bp ∈ sp.blocks, wfDecoderBlock bp)
    (res₁ : List Vec × List (Option (List KVT)) × List (List (List (List ℚ))))
    (hrunN : runBlocks true sp.eps e sq
      (getExtendedAttentionMask true (List.replicate N true) N)
      enc (enc.map (fun encs =>
        (List.range N).map (fun _ => List.replicate encs.length (some 0))))
      true true (sp.blocks.zip (List.replicate sp.blocks.length none)) xs none none
      = Except.ok res₁)
    (k : ℕ) :
    ∀ t pasts, 1 ≤ t → t + k = N →
      ((t = 1 ∧ pasts = none) ∨
        (2 ≤ t ∧ pasts = some (res₁.2.1.map (truncPast (t - 1))))) →
      decodeLoop sp e sq enc pasts (xs.drop (t - 1)) =
        Except.ok [(res₁.1.map (t5LayerNorm sq sp.finalLn sp.eps)).getD (N - 1) []] := by
  induction k with
  | zero =>
      intro t pasts ht htk hpasts
      have htN : t ≤ N := by omega
      have hdropeq : xs.drop (t - 1) = xs.getD (t - 1) [] :: xs.drop t := by
        rw [List.drop_eq_getElem_cons (by omega : t - 1 < xs.length),
          List.getD_eq_getElem _ _ (by omega)]
        congr 2
        omega
      have hdropnil : xs.drop t = [] := by
        apply List.drop_eq_nil_of_le
        omega
      obtain ⟨stepOut, hstep, hhid, hpres⟩ :=
        t5Stack_cached_step sp e sq xs enc N t ht htN hxs hdec hwf res₁ hrunN pasts hpasts
      rw [hdropeq, hdropnil, decodeLoop_cons, hstep]
      simp only [exceptBindOk]
      show Except.ok stepOut.hiddenStates = _
      rw [hhid, show t - 1 = N - 1 from by omega]
  | succ k ih =>
      intro t pasts ht htk hpasts
      have htN : t ≤ N := by omega
      have hdropeq : xs.drop (t - 1) = xs.getD (t - 1) [] :: xs.drop t := by
        rw [List.drop_eq_getElem_cons (by omega : t - 1 < xs.length),
          List.getD_eq_getElem _ _ (by omega)]
        congr 2
        omega
      obtain ⟨stepOut, hstep, hhid, hpres⟩ :=
        t5Stack_cached_step sp e sq xs enc N t ht htN hxs hdec hwf res₁ hrunN pasts hpasts
      rw [hdropeq]
      cases hxt : xs.drop t with
      | nil =>
          exfalso
          have := congrArg List.length hxt
          rw [List.length_drop, hxs] at this
          simp at this
          omega
      | cons y l =>
          rw [decodeLoop_cons, hstep]
          simp only [exceptBindOk]
          show decodeLoop sp e sq enc (some stepOut.presentKeyValueStates) (y :: l) = _
          rw [hpres, ← hxt]
          exact ih (t + 1) (some (res₁.2.1.map (truncPast t)))
            (by omega) (by omega) (Or.inr ⟨by omega, rfl⟩)

theorem encExtMask_eq (enc : Option (List Vec)) (q : ℕ) :
    (if (if enc.isSome = true then some (List.replicate (enc.getD []).length true)
          else none).isSome = true then
      some (invertAttentionMask
        ((if enc.isSome = true then some (List.replicate (enc.getD []).length true)
          else none).getD []) q)
    else none)
    = enc.map (fun encs =>
        (List.range q).map (fun _ => List.replicate encs.length (some 0))) := by
  cases enc <;> simp [invertAttentionMask_ones]

/-- C1. Cache equivalence of incremental decoding: with a uniformly
decoder-flagged stack, running the decoder for `N = xs.length` steps with
`use_cache` enabled, feeding one new token embedding per step and threading
the returned per-layer key/value cache into the next call (`decodeLoop`),
succeeds and produces exactly the final-position hidden state of a single
cache-disabled `t5Stack` run over all `N` tokens (exact rational arithmetic,
so "within floating tolerance" is exact equality). -/
theorem claim_C1_cache_equivalence (sp : StackParams) (e sq : ℚ → ℚ)
    (xs : List Vec) (enc : Option (List Vec))
    (hdec : sp.isDecoder = true)
    (hwf : ∀ bp ∈ sp.blocks, wfDecoderBlock bp)
    (hne : xs ≠ [])
    (out : StackOutput)
    (huncached : t5Stack sp e sq xs none enc none none false = Except.ok out) :
    decodeLoop sp e sq enc none xs =
      Except.ok [out.hiddenStates.getD (xs.length - 1) []] := by
  have hne' : 1 ≤ xs.length := by
    cases xs with
    | nil => exact absurd rfl hne
    | cons a l => simp
  simp only [t5Stack, exceptPureEq, exceptBindOk, hdec, Option.getD_none,
    Option.isNone_none, Option.isSome_none, true_and, and_true, not_true, not_false_iff,
    Bool.true_eq_false, Bool.false_eq_true, if_false, and_false, false_and,
    Bool.not_true, reduceIte] at huncached
  rw [encExtMask_eq] at huncached
  cases hr : runBlocks true sp.eps e sq
      (getExtendedAttentionMask true (List.replicate xs.length true) xs.length)
      enc (enc.map (fun encs =>
        (List.range xs.length).map (fun _ => List.replicate encs.length (some 0))))
      false true (sp.blocks.zip (List.replicate sp.blocks.length none)) xs none none with
  | error msg =>
      rw [hr] at huncached
      exact absurd huncached (by simp [Except.bind])
  | ok res₀ =>
      rw [hr] at huncached
      simp only [exceptBindOk, exceptPureEq, Except.ok.injEq] at huncached
      obtain ⟨res₁, hrun₁, hres₁⟩ := runBlocks_uc sp.eps e sq
        (getExtendedAttentionMask true (List.replicate xs.length true) xs.length)
        enc (enc.map (fun encs =>
          (List.range xs.length).map (fun _ => List.replicate encs.length (some 0))))
        (by
          intro hs
          cases enc with
          | none => simp at hs
          | some encs => exact ⟨_, rfl⟩)
        sp.blocks true xs none none res₀ hr
      have := decodeLoop_cached sp e sq xs enc xs.length rfl hdec hwf res₁ hrun₁
        (xs.length - 1) 1 none (le_refl 1) (by omega) (Or.inl ⟨rfl, rfl⟩)
      rw [Nat.sub_self, List.drop_zero] at this
      rw [this, ← huncached]
      simp only [hres₁]
/-- Concrete one-block decoder stack for the cache-equivalence witness. -/
def spC1W : StackParams :=
  { isDecoder := true, blocks := [decBlockW], finalLn := [1], eps := 1 }

def xsC1W : List Vec := [[1], [1]]

def encC1W : Option (List Vec) := some [[1]]

/-- The cache-disabled full run the witness compares against. -/
def uncachedC1W : StackOutput :=
  (t5Stack spC1W (fun _ => 1) (fun _ => 1) xsC1W none encC1W none none false).toOption.getD
    { hiddenStates := [], presentKeyValueStates := [], selfAttnWeights := [] }

theorem claim_C1_cache_equivalence_witness :
    decodeLoop spC1W (fun _ => 1) (fun _ => 1) encC1W none xsC1W =
      Except.ok [uncachedC1W.hiddenStates.getD 1 []] :=
  claim_C1_cache_equivalence spC1W (fun _ => 1) (fun _ => 1) xsC1W encC1W rfl
    (by
      intro bp hbp
      rw [show spC1W.blocks = [decBlockW] from rfl, List.mem_singleton] at hbp
      subst hbp
      refine ⟨rfl, rfl, by decide, ?_⟩
      intro cp hcp
      have : some decAttnW = some cp := hcp
      rw [Option.some_inj] at this
      rw [← this]
      rfl)
    (by exact List.cons_ne_nil _ _)
    uncachedC1W
    (by rfl)
